import Mathlib

/-!
# Verification of the SysY → KoopaIR → RISC-V compiler core

Shallow embedding of the compiler's middle end (`src/project/src/ir/codegen.cpp`,
`include/ir/ir_builder.hpp`, `include/ir/symbol_table.hpp`), its back end
(`src/project/src/backend/backend.cpp`) and the CLI driver
(`src/project/src/main.cpp`), together with theorems settling the
specification claims about them.

Conventions of the embedding:
* C++ `int` values are modelled as `Int` (`/` and `%` are C's truncated
  `Int.tdiv` / `Int.tmod`).
* `Log::panic` (process abort with a diagnostic) is modelled as `Except.error`
  with a distinguishing error constructor.
* The textual strings the builder appends are modelled as structured lines
  (`Line`, `AsmLine`) carrying exactly the data interpolated by the
  corresponding `fmt::format` call; operands (`%k`, `@x_0`, decimal literals)
  are the structured `Operand` type in bijection with the rendered text.
* General recursion that C++ realises by call-stack recursion over the AST is
  realised with an explicit fuel parameter (structural recursion on the fuel),
  so every definition is executable and reduces definitionally; theorems are
  stated for arbitrary fuel, hypothesising a successful (`Except.ok`) result.
-/

namespace SysY

/-- Modelled from the spec (§3.1 Types): the `type::Type` hierarchy of the
`ir.type` module (`IntType`, `VoidType`, `BoolType`, `PtrType` with `target`,
`ArrayType` with `base` and `len`), whose implementation file is not part of
the sources; `codegen.cpp` uses it through `is_int`/`is_ptr`/`is_array`,
`PtrType::target`, `ArrayType::base`/`len` and `toKoopa`. -/
inductive Ty where
  | int : Ty
  | void : Ty
  | bool : Ty
  | ptr (target : Ty) : Ty
  | arr (base : Ty) (len : Nat) : Ty
deriving DecidableEq, Repr

def Ty.is_int : Ty → Bool
  | .int => true
  | _ => false

def Ty.is_void : Ty → Bool
  | .void => true
  | _ => false

def Ty.is_ptr : Ty → Bool
  | .ptr _ => true
  | _ => false

def Ty.is_array : Ty → Bool
  | .arr _ _ => true
  | _ => false

/-- Textual IR rendering of a type (`toKoopa`): `i32`, `*T`, `[T, N]`. -/
def Ty.toKoopa : Ty → String
  | .int => "i32"
  | .void => ""
  | .bool => "i1"
  | .ptr t => "*" ++ t.toKoopa
  | .arr b n => "[" ++ b.toKoopa ++ ", " ++ toString n ++ "]"

/-- Total number of scalar (`i32`) slots of a nested array type; the length
the flattened initialiser vector must have. -/
def capacity : Ty → Nat
  | .int => 1
  | .arr b n => n * capacity b
  | _ => 0

/-- The target types the initialiser-flattening algorithm is invoked on:
`i32` nested in arrays only (what `ArrayDefAST`/`ScalarDefAST` build). -/
def scalarOnly : Ty → Bool
  | .int => true
  | .arr b _ => scalarOnly b
  | _ => false

/-- An IR operand string, structured: `imm v` is the decimal literal
`std::to_string v`, `reg k` is the SSA value name `%k` vended by
`KoopaBuilder::newReg`, `var id k` is the name `@id_k` vended by
`KoopaBuilder::newVar`, and `null` is the empty string returned for
statement-like nodes and `void` calls. -/
inductive Operand where
  | imm (v : Int) : Operand
  | reg (k : Nat) : Operand
  | var (id : String) (k : Nat) : Operand
  | null : Operand
deriving DecidableEq, Repr

/-- One line of emitted KoopaIR text, structured.  Labels are the pair of the
prefix string and the id from `allocLabelId` (rendered `%prefix_id`). -/
inductive Line where
  | alloc (dst : Operand) (ty : Ty) : Line
  | binop (dst : Operand) (op : String) (a b : Operand) : Line
  | store (v dst : Operand) : Line
  | load (dst src : Operand) : Line
  | br (cond : Operand) (tn : String) (ti : Nat) (fn : String) (fi : Nat) : Line
  | jump (l : String) (i : Nat) : Line
  | label (l : String) (i : Nat) : Line
  | getelemptr (dst src idx : Operand) : Line
  | getptr (dst src idx : Operand) : Line
  | callL (ret : Option Operand) (callee : String) (args : List Operand) : Line
  | retL (v : Option Operand) : Line
deriving DecidableEq, Repr

/-- Errors: each constructor corresponds to one `Log::panic` site (a process
abort with the quoted diagnostic) or to fuel exhaustion of the embedding. -/
inductive CErr where
  | scalarExpected       -- "Semantic Error: Expected scalar, but found brace list"
  | excessInitSub        -- "Semantic Error: Excess elements in array initializer ..."
  | excessInitTop        -- "Semantic Error: Excess elements in initializer list"
  | brokenTarget         -- dynamic_cast to ArrayType returned null (UB in the source)
  | undefinedVar (id : String)   -- "Undefined variable: ..."
  | notConst (id : String)       -- "Variable ... is not a constant, cannot be used ..."
  | callNotConst (id : String)   -- "Semantic Error: Function call ... is not a constant expression"
  | divByZero            -- "Semantic Error : Division by 0 is undefined"
  | remByZero            -- "Semantic Error : Remainder by 0 is undefined"
  | undefinedFunc (id : String)  -- "Undefined function ..."
  | assignToConst (id : String)  -- "Error: Cannot assign to const variable ..."
  | unknownOp            -- "Code Gen Error: Unknown unary op"
  | fuelOut              -- embedding artefact: recursion fuel exhausted
deriving DecidableEq, Repr

/-! ## Initialiser lists (`InitValStmtAST::flatten`, codegen.cpp:395-502) -/

/-- An initialiser node: either a scalar expression — represented by the
operand its lowering yields (`std::to_string(CalcValue)` in global scope,
`expr->codeGen(builder)` in local scope) — or a brace list of sub-nodes
(`initialize_list`). -/
inductive InitVal where
  | scalar (op : Operand) : InitVal
  | list (items : List InitVal) : InitVal

/-- `this->initialize_list`: empty for a scalar node. -/
def InitVal.subList : InitVal → List InitVal
  | .scalar _ => []
  | .list l => l

/-- The base case of `flatten_impl` for `type->is_int()`: consume one scalar
from `list` at the cursor, pad with `"0"` when the list is exhausted, and
reject a brace list in a scalar slot.  The cursor is returned alongside. -/
def flattenInt (list : List InitVal) (idx : Nat) :
    Except CErr (List Operand × Nat) :=
  match list.get? idx with
  | none => .ok ([.imm 0], idx)
  | some (.list _) => .error .scalarExpected
  | some (.scalar op) => .ok ([op], idx + 1)

/-- The `for (int i = 0; i < arr_type->len; ++i)` loop of `flatten_impl`,
with `f` the recursive call `flatten_impl(arr_type->base, ·, ·)`:
* list exhausted: recursively fill the cell with zeros (`continue`);
* scalar at the cursor (flow mode): pass the same list and cursor down;
* brace list at the cursor (align mode): flatten the nested list from a fresh
  cursor, reject leftovers in it, then advance the outer cursor by one. -/
def flattenCells (f : List InitVal → Nat → Except CErr (List Operand × Nat)) :
    Nat → List InitVal → Nat → Except CErr (List Operand × Nat)
  | 0, _, idx => .ok ([], idx)
  | n + 1, list, idx =>
    match list.get? idx with
    | none => do
        let (zs, _) ← f [] 0
        let (rest, idx') ← flattenCells f n list idx
        .ok (zs ++ rest, idx')
    | some (.scalar _) => do
        let (tmp, idx1) ← f list idx
        let (rest, idx2) ← flattenCells f n list idx1
        .ok (tmp ++ rest, idx2)
    | some (.list sub) => do
        let (tmp, subIdx) ← f sub 0
        if subIdx < sub.length then
          .error .excessInitSub
        else do
          let (rest, idx2) ← flattenCells f n list (idx + 1)
          .ok (tmp ++ rest, idx2)

/-- The recursive lambda `flatten_impl` of `InitValStmtAST::flatten`:
fill `type` from `list` starting at cursor `idx`, returning the flat operand
vector and the advanced cursor.  On a non-`int`, non-array target the source
dereferences a null `dynamic_cast` result; that is modelled as an error. -/
def flatten_impl : Ty → List InitVal → Nat → Except CErr (List Operand × Nat)
  | .int => fun list idx => flattenInt list idx
  | .arr base n => fun list idx => flattenCells (flatten_impl base) n list idx
  | _ => fun _ _ => .error .brokenTarget

/-- `InitValStmtAST::flatten`: run `flatten_impl` on the node's own
`initialize_list`, then reject a cursor short of the list's length
("Excess elements in initializer list"). -/
def flatten (targetType : Ty) (iv : InitVal) : Except CErr (List Operand) := do
  let (res, idx) ← flatten_impl targetType iv.subList 0
  if idx < iv.subList.length then
    .error .excessInitTop
  else
    .ok res

/-- Concrete inputs of the claim: the target type `[[i32, 2], 2]`. -/
def ty22 : Ty := .arr (.arr .int 2) 2

/-- The initialiser `{ 1, 2, 3 }`. -/
def exInitFlow : InitVal := .list [.scalar (.imm 1), .scalar (.imm 2), .scalar (.imm 3)]

/-- The initialiser `{ {1}, {2}, {3} }`. -/
def exInitAligned : InitVal :=
  .list [.list [.scalar (.imm 1)], .list [.scalar (.imm 2)], .list [.scalar (.imm 3)]]

/-- The initialiser `{ {1, 2, 3} }` (a sub-list overfilling `[i32, 2]`). -/
def exInitSubExcess : InitVal :=
  .list [.list [.scalar (.imm 1), .scalar (.imm 2), .scalar (.imm 3)]]

/-! ## Expressions and symbols (include/ir/ast.hpp, include/ir/symbol_table.hpp) -/

/-- `ast::BinaryOp`. -/
inductive BinaryOp where
  | add | sub | mul | div | mod | lt | gt | le | ge | eq | ne | and | or
deriving DecidableEq, Repr

/-- `ast::UnaryOp`. -/
inductive UnaryOp where
  | neg | not
deriving DecidableEq, Repr

/-- `opToString` (ast.cpp:16). -/
def opToString : BinaryOp → String
  | .add => "add"
  | .sub => "sub"
  | .mul => "mul"
  | .div => "div"
  | .mod => "mod"
  | .lt => "lt"
  | .gt => "gt"
  | .le => "le"
  | .ge => "ge"
  | .eq => "eq"
  | .ne => "ne"
  | .and => "and"
  | .or => "or"

/-- The expression subtree of the AST: `NumberAST`, `LValAST` (with its index
expressions), `UnaryExprAST`, `BinaryExprAST`, `FuncCallAST`. -/
inductive Expr where
  | num (v : Int) : Expr
  | lval (ident : String) (indices : List Expr) : Expr
  | unary (op : UnaryOp) (rhs : Expr) : Expr
  | binary (op : BinaryOp) (lhs rhs : Expr) : Expr
  | call (ident : String) (args : List Expr) : Expr

/-- `detail::SymbolKind`. -/
inductive SymbolKind where
  | var | func
deriving DecidableEq, Repr

/-- `detail::Symbol`. -/
structure Symbol where
  name : String
  irName : Operand
  ty : Ty
  kind : SymbolKind
  isConst : Bool
  constValue : Int
deriving DecidableEq, Repr

/-- The view of `builder.symtab().lookup` at the instant an expression is
lowered: the innermost visible binding for each source name. -/
def Env : Type := String → Option Symbol

/-- Compile-time evaluation (`CalcValue`, codegen.cpp:954-1049), one Lean
function joining the per-node virtual methods.  It is defined (total) on
every expression form.  Note the source evaluates the *right* operand of a
binary expression before the left one, and ignores the index expressions of
an `LVal`. -/
def CalcValue (G : Env) : Expr → Except CErr Int
  | .num v => .ok v
  | .lval id _ =>
    match G id with
    | none => .error (.undefinedVar id)
    | some sym =>
      if sym.isConst then .ok sym.constValue else .error (.notConst id)
  | .call id _ => .error (.callNotConst id)
  | .unary op r => do
    let rv ← CalcValue G r
    match op with
    | .neg => .ok (-rv)
    | .not => .ok (if rv = 0 then 1 else 0)
  | .binary op l r => do
    let rv ← CalcValue G r
    let lv ← CalcValue G l
    match op with
    | .add => .ok (lv + rv)
    | .sub => .ok (lv - rv)
    | .mul => .ok (lv * rv)
    | .div => if rv = 0 then .error .divByZero else .ok (lv.tdiv rv)
    | .mod => if rv = 0 then .error .remByZero else .ok (lv.tmod rv)
    | .lt => .ok (if lv < rv then 1 else 0)
    | .gt => .ok (if lv > rv then 1 else 0)
    | .le => .ok (if lv ≤ rv then 1 else 0)
    | .ge => .ok (if lv ≥ rv then 1 else 0)
    | .eq => .ok (if lv = rv then 1 else 0)
    | .ne => .ok (if lv ≠ rv then 1 else 0)
    | .and => .ok (if lv ≠ 0 ∧ rv ≠ 0 then 1 else 0)
    | .or => .ok (if lv ≠ 0 ∨ rv ≠ 0 then 1 else 0)

/-! ## IR builder state (include/ir/ir_builder.hpp) and expression lowering -/

/-- The counters of `ir::KoopaBuilder` that expression lowering touches:
`count_reg`, `count_name`, `count_label`. -/
structure BuildSt where
  countReg : Nat
  countName : Nat
  countLabel : Nat
deriving DecidableEq, Repr

/-- `KoopaBuilder::newReg`: vend `%count_reg` and increment. -/
def BuildSt.newReg (st : BuildSt) : Operand × BuildSt :=
  (.reg st.countReg, { st with countReg := st.countReg + 1 })

/-- `KoopaBuilder::newVar`: vend `@ident_count_name` and increment. -/
def BuildSt.newVar (st : BuildSt) (ident : String) : Operand × BuildSt :=
  (.var ident st.countName, { st with countName := st.countName + 1 })

/-- `KoopaBuilder::allocLabelId`. -/
def BuildSt.allocLabelId (st : BuildSt) : Nat × BuildSt :=
  (st.countLabel, { st with countLabel := st.countLabel + 1 })

/-- Lower a list of expressions in order (the argument loop of
`FuncCallAST::codeGen`), concatenating their emissions. -/
def lowerList (f : Expr → BuildSt → Except CErr (BuildSt × List Line × Operand)) :
    List Expr → BuildSt → Except CErr (BuildSt × List Line × List Operand)
  | [], st => .ok (st, [], [])
  | e :: rest, st => do
    let (st1, c1, v1) ← f e st
    let (st2, c2, vs) ← lowerList f rest st1
    .ok (st2, c1 ++ c2, v1 :: vs)

/-- The pointer preload shared by `LValAST::codeGen` and
`AssignStmtAST::codeGen`: a pointer-typed symbol (an array parameter) is
first `load`ed, and the walked type becomes the pointer's target. -/
def ptrPreload (sym : Symbol) (st : BuildSt) : List Line × Operand × Ty × BuildSt :=
  match sym.ty with
  | .ptr target =>
    let (loaded, st0) := st.newReg
    ([.load loaded sym.irName], loaded, target, st0)
  | t => ([], sym.irName, t, st)

/-- The index walk of `LValAST::codeGen` (codegen.cpp:761-778): `first` is
`i == 0` and `symIsPtr` is `sym->type->is_ptr()`; their conjunction selects
`getptr`, every other index uses `getelemptr`.  The walked type advances to
the array base only in the `getelemptr` branch (and only when it is an
array), exactly as in the source. -/
def lvalWalk (f : Expr → BuildSt → Except CErr (BuildSt × List Line × Operand))
    (symIsPtr : Bool) :
    Bool → List Expr → Ty → Operand → BuildSt →
      Except CErr (BuildSt × List Line × Operand × Ty)
  | _, [], curTy, curPtr, st => .ok (st, [], curPtr, curTy)
  | first, e :: rest, curTy, curPtr, st => do
    let (st1, cI, idxVal) ← f e st
    let (nxt, st2) := st1.newReg
    if first && symIsPtr then do
      let (st3, cR, p, t) ← lvalWalk f symIsPtr false rest curTy nxt st2
      .ok (st3, cI ++ [.getptr nxt curPtr idxVal] ++ cR, p, t)
    else do
      let curTy' := match curTy with
        | .arr b _ => b
        | t => t
      let (st3, cR, p, t) ← lvalWalk f symIsPtr false rest curTy' nxt st2
      .ok (st3, cI ++ [.getelemptr nxt curPtr idxVal] ++ cR, p, t)

/-- `codeGen` for expressions (codegen.cpp:727-947), one Lean function
joining the per-node virtual methods, with explicit recursion fuel.  Returns
the updated builder counters, the emitted lines, and the operand the node's
lowering returns. -/
def codeGen (G : Env) : Nat → Expr → BuildSt →
    Except CErr (BuildSt × List Line × Operand)
  | 0, _, _ => .error .fuelOut
  | fuel + 1, e, st =>
    match e with
    | .num v => .ok (st, [], .imm v)
    | .unary op r => do
      let (st1, c, rres) ← codeGen G fuel r st
      let (ret, st2) := st1.newReg
      match op with
      | .neg => .ok (st2, c ++ [.binop ret "sub" (.imm 0) rres], ret)
      | .not => .ok (st2, c ++ [.binop ret "eq" (.imm 0) rres], ret)
    | .call id args =>
      match G id with
      | none => .error (.undefinedFunc id)
      | some sym => do
        let (st1, c, vals) ← lowerList (codeGen G fuel) args st
        if sym.ty.is_void then
          .ok (st1, c ++ [.callL none id vals], .null)
        else
          let (ret, st2) := st1.newReg
          .ok (st2, c ++ [.callL (some ret) id vals], ret)
    | .lval id idxs =>
      match G id with
      | none => .error (.undefinedVar id)
      | some sym =>
        if sym.isConst && idxs.isEmpty && sym.ty.is_int then
          .ok (st, [], .imm sym.constValue)
        else do
          let (preCode, curPtr, curTy, st0) := ptrPreload sym st
          let (st1, w, ptr, ty) ←
            lvalWalk (codeGen G fuel) sym.ty.is_ptr true idxs curTy curPtr st0
          let bare := sym.ty.is_ptr && idxs.isEmpty
          if ty.is_int && !bare then
            let (res, st2) := st1.newReg
            .ok (st2, preCode ++ w ++ [.load res ptr], res)
          else if bare then
            .ok (st1, preCode ++ w, ptr)
          else
            let (res, st2) := st1.newReg
            .ok (st2, preCode ++ w ++ [.getelemptr res ptr (.imm 0)], res)
    | .binary op l r =>
      match op with
      | .and => do
        let (tmp, stv) := st.newVar "and_res"
        let (st1, cL, lres) ← codeGen G fuel l stv
        let (id0, stl) := st1.allocLabelId
        let (lb, st2) := stl.newReg
        let (st3, cR, rres) ← codeGen G fuel r st2
        let (rb, st4) := st3.newReg
        let (ret, st5) := st4.newReg
        .ok (st5,
          [.alloc tmp .int] ++ cL ++
          [.binop lb "ne" lres (.imm 0),
           .br lb "and_true" id0 "and_false" id0,
           .label "and_true" id0] ++
          cR ++
          [.binop rb "ne" rres (.imm 0),
           .store rb tmp,
           .jump "and_end" id0,
           .label "and_false" id0,
           .store (.imm 0) tmp,
           .jump "and_end" id0,
           .label "and_end" id0,
           .load ret tmp], ret)
      | .or => do
        let (tmp, stv) := st.newVar "or_res"
        let (st1, cL, lres) ← codeGen G fuel l stv
        let (id0, stl) := st1.allocLabelId
        let (lb, st2) := stl.newReg
        let (st3, cR, rres) ← codeGen G fuel r st2
        let (rb, st4) := st3.newReg
        let (ret, st5) := st4.newReg
        .ok (st5,
          [.alloc tmp .int] ++ cL ++
          [.binop lb "ne" lres (.imm 0),
           .br lb "or_true" id0 "or_false" id0,
           .label "or_true" id0,
           .store (.imm 1) tmp,
           .jump "or_end" id0,
           .label "or_false" id0] ++
          cR ++
          [.binop rb "ne" rres (.imm 0),
           .store rb tmp,
           .jump "or_end" id0,
           .label "or_end" id0,
           .load ret tmp], ret)
      | _ => do
        let (st1, cL, lres) ← codeGen G fuel l st
        let (st2, cR, rres) ← codeGen G fuel r st1
        let (ret, st3) := st2.newReg
        .ok (st3, cL ++ cR ++ [.binop ret (opToString op) lres rres], ret)

/-- Machine state: the SSA register file (`%k`) and one memory cell per
`alloc`ed variable name (`@id_k`). -/
structure Mach where
  regs : Nat → Option Int
  mem : String → Nat → Option Int

/-- The machine with no registers or cells defined. -/
def Mach.empty : Mach := ⟨fun _ => none, fun _ _ => none⟩

/-- Write an SSA register. -/
def Mach.setReg (m : Mach) (k : Nat) (v : Int) : Mach :=
  { m with regs := fun j => if j = k then some v else m.regs j }

/-- Write a memory cell. -/
def Mach.setMem (m : Mach) (id : String) (k : Nat) (v : Int) : Mach :=
  { m with mem := fun s j => if s = id ∧ j = k then some v else m.mem s j }

/-- Value of an operand: literals denote themselves, registers read the
register file; a variable name used as a plain value (an address) and the
empty operand have no integer value in this fragment. -/
def Mach.evalOpnd (m : Mach) : Operand → Option Int
  | .imm v => some v
  | .reg k => m.regs k
  | .var _ _ => none
  | .null => none

/-- Semantics of the KoopaIR binary mnemonics the generator emits for C's
operators (`div`/`mod` are truncated, comparisons yield `0`/`1`); mnemonics
outside the arithmetic fragment have no semantics here. -/
def evalMn (op : String) (a b : Int) : Option Int :=
  if op = "add" then some (a + b)
  else if op = "sub" then some (a - b)
  else if op = "mul" then some (a * b)
  else if op = "div" then (if b = 0 then none else some (a.tdiv b))
  else if op = "mod" then (if b = 0 then none else some (a.tmod b))
  else if op = "lt" then some (if a < b then 1 else 0)
  else if op = "gt" then some (if a > b then 1 else 0)
  else if op = "le" then some (if a ≤ b then 1 else 0)
  else if op = "ge" then some (if a ≥ b then 1 else 0)
  else if op = "eq" then some (if a = b then 1 else 0)
  else if op = "ne" then some (if a ≠ b then 1 else 0)
  else none

/-- Position of the first line carrying label `%s_i`. -/
def labelPos (s : String) (i : Nat) : List Line → Option Nat
  | [] => none
  | l :: rest =>
    if l = Line.label s i then some 0
    else (labelPos s i rest).map (· + 1)

/-- One machine step at `pc`. -/
def step (prog : List Line) (pc : Nat) (m : Mach) : Option (Nat × Mach) :=
  match prog.get? pc with
  | none => none
  | some line =>
    match line with
    | .label _ _ => some (pc + 1, m)
    | .alloc (.var id k) _ => some (pc + 1, m.setMem id k 0)
    | .alloc _ _ => none
    | .binop (.reg k) op a b =>
      match m.evalOpnd a, m.evalOpnd b with
      | some va, some vb =>
        match evalMn op va vb with
        | some r => some (pc + 1, m.setReg k r)
        | none => none
      | _, _ => none
    | .binop _ _ _ _ => none
    | .store v (.var id k) =>
      match m.evalOpnd v with
      | some vv => some (pc + 1, m.setMem id k vv)
      | none => none
    | .store _ _ => none
    | .load (.reg k) (.var id j) =>
      match m.mem id j with
      | some v => some (pc + 1, m.setReg k v)
      | none => none
    | .load _ _ => none
    | .br c tn ti fn fi =>
      match m.evalOpnd c with
      | some vc =>
        match labelPos (if vc ≠ 0 then tn else fn) (if vc ≠ 0 then ti else fi) prog with
        | some pos => some (pos, m)
        | none => none
      | none => none
    | .jump s i =>
      match labelPos s i prog with
      | some pos => some (pos, m)
      | none => none
    | .getelemptr _ _ _ => none
    | .getptr _ _ _ => none
    | .callL _ _ _ => none
    | .retL _ => none

/-- `n` machine steps. -/
def stepN (prog : List Line) : Nat → Nat → Mach → Option (Nat × Mach)
  | 0, pc, m => some (pc, m)
  | n + 1, pc, m =>
    match step prog pc m with
    | some (pc', m') => stepN prog n pc' m'
    | none => none

/-! ## Predicates used by the statements -/

/-- All registers the machine defines lie below `n`. -/
def RegsBelow (m : Mach) (n : Nat) : Prop :=
  ∀ k, m.regs k ≠ none → k < n

/-- All memory cells the machine defines have name index below `n`. -/
def MemBelow (m : Mach) (n : Nat) : Prop :=
  ∀ id j, m.mem id j ≠ none → j < n

/-- Every label line in `c` has an id in `[lo, hi)`. -/
def LabelsIn (c : List Line) (lo hi : Nat) : Prop :=
  ∀ s i, Line.label s i ∈ c → lo ≤ i ∧ i < hi

/-- No label line in `c` has an id in `[lo, hi)`. -/
def LabelsOutside (c : List Line) (lo hi : Nat) : Prop :=
  ∀ s i, Line.label s i ∈ c → i < lo ∨ hi ≤ i

/-- The constant expressions: what a SysY constant expression elaborates to
(literals, scalar `int` constants, unary and binary operators) — no calls, no
subscripted and no non-const l-values. -/
inductive ConstExpr (G : Env) : Expr → Prop where
  | num (v : Int) : ConstExpr G (.num v)
  | lval (id : String) (sym : Symbol) :
      G id = some sym → sym.isConst = true → sym.ty = .int →
      ConstExpr G (.lval id [])
  | unary (op : UnaryOp) (r : Expr) :
      ConstExpr G r → ConstExpr G (.unary op r)
  | binary (op : BinaryOp) (l r : Expr) :
      ConstExpr G l → ConstExpr G r → ConstExpr G (.binary op l r)

/-- The exact line sequence `BinaryExprAST::codeGen` emits for `&&`
(codegen.cpp:866-899), given the sub-emissions: scratch cell, lhs code,
normalise-and-branch, the rhs code *in the true branch only*, the constant
`0` store in the false branch, and the final load at the join. -/
def andEmit (st st1 st3 : BuildSt) (cL cR : List Line) (lres rres : Operand) : List Line :=
  [.alloc (.var "and_res" st.countName) .int] ++ cL ++
  [.binop (.reg st1.countReg) "ne" lres (.imm 0),
   .br (.reg st1.countReg) "and_true" st1.countLabel "and_false" st1.countLabel,
   .label "and_true" st1.countLabel] ++ cR ++
  [.binop (.reg st3.countReg) "ne" rres (.imm 0),
   .store (.reg st3.countReg) (.var "and_res" st.countName),
   .jump "and_end" st1.countLabel,
   .label "and_false" st1.countLabel,
   .store (.imm 0) (.var "and_res" st.countName),
   .jump "and_end" st1.countLabel,
   .label "and_end" st1.countLabel,
   .load (.reg (st3.countReg + 1)) (.var "and_res" st.countName)]

/-- The exact line sequence `BinaryExprAST::codeGen` emits for `||`
(codegen.cpp:902-937): the rhs code sits *in the false branch only*, the
true branch stores the constant `1`. -/
def orEmit (st st1 st3 : BuildSt) (cL cR : List Line) (lres rres : Operand) : List Line :=
  [.alloc (.var "or_res" st.countName) .int] ++ cL ++
  [.binop (.reg st1.countReg) "ne" lres (.imm 0),
   .br (.reg st1.countReg) "or_true" st1.countLabel "or_false" st1.countLabel,
   .label "or_true" st1.countLabel,
   .store (.imm 1) (.var "or_res" st.countName),
   .jump "or_end" st1.countLabel,
   .label "or_false" st1.countLabel] ++ cR ++
  [.binop (.reg st3.countReg) "ne" rres (.imm 0),
   .store (.reg st3.countReg) (.var "or_res" st.countName),
   .jump "or_end" st1.countLabel,
   .label "or_end" st1.countLabel,
   .load (.reg (st3.countReg + 1)) (.var "or_res" st.countName)]

/-- Componentwise order on builder counters. -/
def BuildSt.le (a b : BuildSt) : Prop :=
  a.countReg ≤ b.countReg ∧ a.countName ≤ b.countName ∧ a.countLabel ≤ b.countLabel

/-- Bookkeeping tying an emission to the builder counters: counters only
grow, and every emitted label line carries an id allocated in between. -/
def EmitSpec (st st' : BuildSt) (code : List Line) : Prop :=
  BuildSt.le st st' ∧ LabelsIn code st.countLabel st'.countLabel

/-- A concrete environment for witnesses: one non-const `int` variable `x`
and nothing else. -/
def envX : Env := fun id =>
  if id = "x" then
    some { name := "x", irName := .var "x" 0, ty := .int, kind := .var,
           isConst := false, constValue := 0 }
  else none

/-- Shape of the run facts `codeGen_runs` establishes, abbreviated for reuse. -/
def RunsOk (G : Env) (e : Expr) : Prop :=
  ∀ (fuel : Nat) (v : Int) (st st' : BuildSt) (code : List Line) (res : Operand),
    CalcValue G e = .ok v →
    codeGen G fuel e st = .ok (st', code, res) →
    ∀ (P₁ P₂ : List Line) (m : Mach),
      LabelsOutside (P₁ ++ P₂) st.countLabel st'.countLabel →
      RegsBelow m st.countReg →
      MemBelow m st.countName →
      ∃ n m',
        stepN (P₁ ++ (code ++ P₂)) n P₁.length m = some (P₁.length + code.length, m') ∧
        m'.evalOpnd res = some v ∧
        (∀ k, k < st.countReg → m'.regs k = m.regs k) ∧
        RegsBelow m' st'.countReg ∧
        (∀ id j, j < st.countName → m'.mem id j = m.mem id j) ∧
        MemBelow m' st'.countName

/-- The empty environment: no symbol is defined. -/
def envEmpty : Env := fun _ => none

/-- Concrete fixture for witnesses: the constant expression
`(3 && 0) || (7 / 2 % 2)`. -/
def exC6 : Expr :=
  .binary .or (.binary .and (.num 3) (.num 0))
    (.binary .mod (.binary .div (.num 7) (.num 2)) (.num 2))

/-- A concrete environment for witnesses: a const `int` `c` (value `42`),
an array `a : [[i32, 2], 2]`, and an array parameter `p : *[i32, 2]`. -/
def envW : Env := fun id =>
  if id = "c" then
    some { name := "c", irName := .var "c" 0, ty := .int, kind := .var,
           isConst := true, constValue := 42 }
  else if id = "a" then
    some { name := "a", irName := .var "a" 0, ty := .arr (.arr .int 2) 2, kind := .var,
           isConst := false, constValue := 0 }
  else if id = "p" then
    some { name := "p", irName := .var "p" 0, ty := .ptr (.arr .int 2), kind := .var,
           isConst := false, constValue := 0 }
  else none

/-- Raw Koopa type tags as the backend reads them (`value->ty->tag`). -/
inductive KTy where
  | int32
  | unit
  | arr (base : KTy) (len : Nat)
  | ptr (base : KTy)
  | fn
deriving DecidableEq, Repr

/-- `get_type_size` (backend.cpp:139-151): 4 for `i32` and pointers,
`len * size(base)` for arrays, `0` for everything else. -/
def get_type_size : KTy → Nat
  | .int32 => 4
  | .ptr _ => 4
  | .arr base len => len * get_type_size base
  | _ => 0

/-- What the pre-pass inspects of `value->kind.tag`. -/
inductive KKind where
  | call (argc : Nat)
  | alloc
  | other
deriving DecidableEq, Repr

/-- An instruction as the frame pre-pass sees it: an identity (standing for
the `koopa_raw_value_t` pointer used as the `stkMap` key), the result type,
and the kind. -/
structure KInst where
  id : Nat
  ty : KTy
  kind : KKind
deriving DecidableEq, Repr

/-- The state the pre-pass threads (members of `TargetCodeGen`). -/
structure PreSt where
  hasCallee : Bool
  raSize : Nat
  argsMax : Nat
  localFrame : Nat
  stkMap : List (Nat × Nat)
deriving DecidableEq, Repr

/-- One instruction of the pre-pass loop (backend.cpp:216-241): calls are
detected and argument counts maxed *before* the Unit check; a non-Unit
instruction is recorded at the current `local_frame_size` *before* the size
grows by its reservation (pointee size for `alloc`, 4 otherwise). -/
def preStep (s : PreSt) (inst : KInst) : PreSt :=
  let s :=
    match inst.kind with
    | .call argc =>
      { s with hasCallee := true, raSize := 4, argsMax := max s.argsMax argc }
    | _ => s
  if inst.ty = .unit then s
  else
    let s := { s with stkMap := s.stkMap ++ [(inst.id, s.localFrame)] }
    match inst.kind with
    | .alloc =>
      { s with localFrame := s.localFrame +
          (match inst.ty with | .ptr b => get_type_size b | _ => 0) }
    | _ => { s with localFrame := s.localFrame + 4 }

/-- The whole pre-pass over a function's instructions in order. -/
def prepass (insts : List KInst) : PreSt :=
  insts.foldl preStep ⟨false, 0, 0, 0, []⟩

/-- `args_size = max(args_size - 8, 0) * 4` (backend.cpp:245): Nat
subtraction is exactly the clamped form. -/
def argsSizeOf (s : PreSt) : Nat := (s.argsMax - 8) * 4

/-- `stk_frame_size` after 16-byte alignment (backend.cpp:246-251). -/
def frameTotal (s : PreSt) : Nat :=
  let t := s.localFrame + s.raSize + argsSizeOf s
  if t % 16 = 0 then t else (t + 15) / 16 * 16

/-- The slot map after the shift `val += args_size` (backend.cpp:267-269). -/
def shiftedMap (s : PreSt) : List (Nat × Nat) :=
  s.stkMap.map (fun p => (p.1, p.2 + argsSizeOf s))

/-- The stack reservation one instruction adds: the pointee size for an
`alloc` (the backend reads `inst->ty->data.pointer.base`), 4 otherwise. -/
def instSize (i : KInst) : Nat :=
  match i.kind with
  | .alloc => match i.ty with | .ptr b => get_type_size b | _ => 0
  | _ => 4

/-- Expected slot assignment: each non-Unit instruction in order gets the
running offset, which then advances by its reservation. -/
def slotSpec : Nat → List KInst → List (Nat × Nat)
  | _, [] => []
  | off, i :: rest =>
    if i.ty = .unit then slotSpec off rest
    else (i.id, off) :: slotSpec (off + instSize i) rest

/-- Total reservation of the non-Unit instructions. -/
def sumSizes (insts : List KInst) : Nat :=
  ((insts.filter (fun i => ¬ i.ty = .unit)).map instSize).sum

/-- Running maximum of call argument counts (the `args_size` accumulation
before the clamp). -/
def maxArgc : List KInst → Nat → Nat
  | [], a => a
  | i :: rest, a =>
    match i.kind with
    | .call c => maxArgc rest (max a c)
    | _ => maxArgc rest a

/-- RISC-V assembly lines the embedded emitters produce. -/
inductive AsmLine where
  | text
  | globl (name : String)
  | label (name : String)
  | addi (rd rs : String) (imm : Int)
  | li (rd : String) (imm : Int)
  | add (rd rs1 rs2 : String)
  | lw (rd : String) (off : Int) (rs : String)
  | sw (src : String) (off : Int) (base : String)
deriving DecidableEq, Repr

/-- `isIn12BitRange` (backend.cpp:153). -/
def isIn12BitRange (v : Int) : Bool := -2048 ≤ v && v ≤ 2047

/-- `emitAddi` (backend.cpp:155-163). -/
def emitAddi (rd rs : String) (imm : Int) : List AsmLine :=
  if isIn12BitRange imm then [.addi rd rs imm]
  else [.li "t2" imm, .add rd rs "t2"]

/-- `emitLw` (backend.cpp:165-174). -/
def emitLw (rd rs : String) (off : Int) : List AsmLine :=
  if isIn12BitRange off then [.lw rd off rs]
  else [.li "t2" off, .add "t2" "t2" rs, .lw rd 0 "t2"]

/-- `emitSw` (backend.cpp:176-185). -/
def emitSw (src base : String) (off : Int) : List AsmLine :=
  if isIn12BitRange off then [.sw src off base]
  else [.li "t2" off, .add "t2" "t2" base, .sw src 0 "t2"]

/-- A basic block as `visit(function)` consumes it. -/
structure KBB where
  bname : Option String
  insts : List KInst
deriving Repr

/-- A function of the raw program: name, parameter count, basic blocks. -/
structure KFunc where
  fname : String
  nparams : Nat
  bbs : List KBB
deriving Repr

/-- All instructions of a function in visiting order. -/
def fnInsts (f : KFunc) : List KInst := (f.bbs.map KBB.insts).join

/-- The `a0..a7` parameter spills of the prologue (backend.cpp:273-287):
parameters 8 and beyond only record a slot and emit nothing. -/
def paramStores (n argsSize : Nat) : List AsmLine :=
  (((List.range n).filter (fun i => i < 8)).map
    (fun i => emitSw ("a" ++ toString i) "sp" ((i : Int) * 4 + (argsSize : Int)))).join

/-- `TargetCodeGen::visit(koopa_raw_function_t)` (backend.cpp:210-292) up to
the basic-block bodies, which the parameter `visitBB` produces: a function
with no basic blocks returns before emitting anything; otherwise the
directives, label, prologue, parameter spills and bodies are emitted. -/
def visitFunc (visitBB : KBB → List AsmLine) (f : KFunc) : List AsmLine :=
  if f.bbs.length = 0 then []
  else
    let s := prepass (fnInsts f)
    let total := frameTotal s
    [.text, .globl f.fname, .label f.fname]
    ++ (if 0 < total then emitAddi "sp" "sp" (-(total : Int)) else [])
    ++ (if s.hasCallee then emitSw "ra" "sp" ((total : Int) - 4) else [])
    ++ paramStores f.nparams (argsSizeOf s)
    ++ (f.bbs.map visitBB).join

/-! ## Command line (src/main.cpp) -/

/-- `Config` (main.cpp:29-33). -/
structure Config where
  mode : String
  inputFile : String
  outputFile : String
deriving DecidableEq, Repr

/-- How an invocation of `parseArgs` ends. -/
inductive ParseResult where
  | ok (c : Config)
  | helpExit
  | panicExit
deriving DecidableEq, Repr

/-- The argument loop of `parseArgs` (main.cpp:62-76): `-h`/`--help` exit
immediately; mode flags set `mode`; `-o` followed by another argument
consumes it as the output file; anything else (including a trailing `-o`)
becomes the input file. -/
def parseLoop : List String → Config → ParseResult
  | [], c => .ok c
  | [a], c =>
    if a = "-h" ∨ a = "--help" then .helpExit
    else if a = "-koopa" ∨ a = "-riscv" ∨ a = "-perf" then .ok { c with mode := a }
    else .ok { c with inputFile := a }
  | a :: b :: rest, c =>
    if a = "-h" ∨ a = "--help" then .helpExit
    else if a = "-koopa" ∨ a = "-riscv" ∨ a = "-perf" then
      parseLoop (b :: rest) { c with mode := a }
    else if a = "-o" then parseLoop rest { c with outputFile := b }
    else parseLoop (b :: rest) { c with inputFile := a }

/-- `parseArgs` (main.cpp:53-79): `argc` must be 2 or 5, i.e. one or four
arguments after the program name. -/
def parseArgs (args : List String) : ParseResult :=
  if args.length ≠ 1 ∧ args.length ≠ 4 then .panicExit
  else parseLoop args ⟨"", "", ""⟩

/-- Which outputs `main` writes (main.cpp:106-122): the IR text exactly for
mode `-koopa`, the assembly exactly for mode `-riscv`. -/
structure Writes where
  ir : Bool
  asmOut : Bool
deriving DecidableEq, Repr

/-- The two `config.mode == ...` guards of `main`. -/
def mainWrites (c : Config) : Writes :=
  ⟨c.mode = "-koopa", c.mode = "-riscv"⟩

/-- Concrete instruction list for witnesses: an `alloc` of an `i32` cell, a
Unit-typed call with ten arguments, an `i32` binary result, a Unit store. -/
def exInsts : List KInst :=
  [⟨0, .ptr .int32, .alloc⟩, ⟨1, .unit, .call 10⟩, ⟨2, .int32, .other⟩,
   ⟨3, .unit, .other⟩]

end SysY

/-! # Theorems -/

namespace SysY

/-- Inversion for monadic bind on `Except`, used throughout. -/
theorem bind_ok_iff {ε α β : Type _} {x : Except ε α} {g : α → Except ε β} {b : β} :
    (x >>= g) = .ok b ↔ ∃ a, x = .ok a ∧ g a = .ok b := by
  cases x with
  | error e => simp [Bind.bind, Except.bind]
  | ok a => simp [Bind.bind, Except.bind]

/-- A scalar slot always yields exactly one operand. -/
theorem flattenInt_length {list : List InitVal} {idx : Nat} {res : List Operand} {idx' : Nat}
    (h : flattenInt list idx = .ok (res, idx')) : res.length = 1 := by
  unfold flattenInt at h
  split at h
  · rw [Except.ok.injEq, Prod.mk.injEq] at h
    rw [← h.1]
    rfl
  · cases h
  · rw [Except.ok.injEq, Prod.mk.injEq] at h
    rw [← h.1]
    rfl

/-- The cell loop over an `n`-element dimension yields `n * c` operands
whenever the recursive call always yields `c`. -/
theorem flattenCells_length {f : List InitVal → Nat → Except CErr (List Operand × Nat)} {c : Nat}
    (hf : ∀ l i r i', f l i = .ok (r, i') → r.length = c) :
    ∀ n list idx res idx', flattenCells f n list idx = .ok (res, idx') →
      res.length = n * c := by
  intro n
  induction n with
  | zero =>
    intro list idx res idx' h
    unfold flattenCells at h
    rw [Except.ok.injEq, Prod.mk.injEq] at h
    rw [← h.1]
    simp
  | succ n ih =>
    intro list idx res idx' h
    unfold flattenCells at h
    split at h
    · simp only [bind_ok_iff, Except.ok.injEq, Prod.mk.injEq] at h
      obtain ⟨⟨zs, i0⟩, hz, ⟨rest, i1⟩, hr, hres, hidx⟩ := h
      rw [← hres, List.length_append, hf _ _ _ _ hz, ih _ _ _ _ hr]
      ring
    · simp only [bind_ok_iff, Except.ok.injEq, Prod.mk.injEq] at h
      obtain ⟨⟨zs, i0⟩, hz, ⟨rest, i1⟩, hr, hres, hidx⟩ := h
      rw [← hres, List.length_append, hf _ _ _ _ hz, ih _ _ _ _ hr]
      ring
    · simp only [bind_ok_iff, Except.ok.injEq, Prod.mk.injEq] at h
      obtain ⟨⟨zs, i0⟩, hz, h⟩ := h
      split at h
      · cases h
      · simp only [bind_ok_iff, Except.ok.injEq, Prod.mk.injEq] at h
        obtain ⟨⟨rest, i1⟩, hr, hres, hidx⟩ := h
        rw [← hres, List.length_append, hf _ _ _ _ hz, ih _ _ _ _ hr]
        ring

/-- Under a scalar-only target, `flatten_impl` yields exactly `capacity t`
operands. -/
theorem flatten_impl_length :
    ∀ t : Ty, scalarOnly t = true →
      ∀ list idx res idx', flatten_impl t list idx = .ok (res, idx') →
        res.length = capacity t := by
  intro t
  induction t with
  | int =>
    intro _ list idx res idx' h
    exact flattenInt_length h
  | void => intro h; cases h
  | bool => intro h; cases h
  | ptr _ _ => intro h; cases h
  | arr base n ih =>
    intro hs list idx res idx' h
    have hb : scalarOnly base = true := hs
    have := flattenCells_length (fun l i r i' hr => ih hb l i r i' hr) n list idx res idx' h
    simpa [capacity] using this

/-- C1: For every target array type `T` and initialiser node, `flatten`
returns a vector of IR operand strings whose length equals the total scalar
capacity of `T`, in row-major order, padding uncovered slots with `"0"`;
`{ 1, 2, 3 }` against `[[i32, 2], 2]` flattens to `[1, 2, 3, 0]`;
`{ {1}, {2}, {3} }` against the same type fails with the excess-elements
semantic error, as does a sub-list with more elements than its sub-aggregate
can hold. -/
theorem C1_initialiser_flattening :
    (∀ t iv res, scalarOnly t = true → flatten t iv = .ok res →
      res.length = capacity t)
    ∧ flatten ty22 exInitFlow = .ok [.imm 1, .imm 2, .imm 3, .imm 0]
    ∧ flatten ty22 exInitAligned = .error .excessInitTop
    ∧ flatten ty22 exInitSubExcess = .error .excessInitSub := by
  refine ⟨?_, rfl, rfl, rfl⟩
  intro t iv res hs h
  unfold flatten at h
  simp only [bind_ok_iff] at h
  obtain ⟨⟨r, idx⟩, hr, h⟩ := h
  split at h
  · cases h
  · rw [Except.ok.injEq] at h
    rw [← h]
    exact flatten_impl_length t hs _ _ _ _ hr

/-- Witness for C1: the universally quantified part applied at the concrete
type `[[i32, 2], 2]` and initialiser `{ 1, 2, 3 }`. -/
theorem C1_witness :
    scalarOnly ty22 = true
    ∧ flatten ty22 exInitFlow = .ok [.imm 1, .imm 2, .imm 3, .imm 0]
    ∧ ([Operand.imm 1, .imm 2, .imm 3, .imm 0] : List Operand).length = capacity ty22 :=
  ⟨rfl, rfl, C1_initialiser_flattening.1 ty22 exInitFlow _ rfl rfl⟩

/-- C5: compile-time evaluation is total on expression forms (it is a total
function by construction); it fails on every `Call` and on every `LVal`
naming a non-const symbol; `Div`/`Mod` whose right operand evaluates to `0`
fail with the division/remainder-by-zero semantic error (when the left
operand itself evaluates); and `&&`/`||` have C's `!= 0` logical semantics,
yielding `1` when the condition holds and `0` otherwise. -/
theorem C5_CalcValue_behaviour :
    (∀ (G : Env) id args, CalcValue G (.call id args) = .error (.callNotConst id))
    ∧ (∀ (G : Env) id idxs sym, G id = some sym → sym.isConst = false →
        CalcValue G (.lval id idxs) = .error (.notConst id))
    ∧ (∀ (G : Env) l r lv, CalcValue G r = .ok 0 → CalcValue G l = .ok lv →
        CalcValue G (.binary .div l r) = .error .divByZero)
    ∧ (∀ (G : Env) l r lv, CalcValue G r = .ok 0 → CalcValue G l = .ok lv →
        CalcValue G (.binary .mod l r) = .error .remByZero)
    ∧ (∀ (G : Env) l r lv rv, CalcValue G l = .ok lv → CalcValue G r = .ok rv →
        CalcValue G (.binary .and l r) = .ok (if lv ≠ 0 ∧ rv ≠ 0 then 1 else 0))
    ∧ (∀ (G : Env) l r lv rv, CalcValue G l = .ok lv → CalcValue G r = .ok rv →
        CalcValue G (.binary .or l r) = .ok (if lv ≠ 0 ∨ rv ≠ 0 then 1 else 0)) := by
  refine ⟨fun G id args => rfl, ?_, ?_, ?_, ?_, ?_⟩
  · intro G id idxs sym hG hc
    simp [CalcValue, hG, hc]
  · intro G l r lv hr hl
    simp [CalcValue, hr, hl, Bind.bind, Except.bind]
  · intro G l r lv hr hl
    simp [CalcValue, hr, hl, Bind.bind, Except.bind]
  · intro G l r lv rv hl hr
    simp [CalcValue, hr, hl, Bind.bind, Except.bind]
  · intro G l r lv rv hl hr
    simp [CalcValue, hr, hl, Bind.bind, Except.bind]

/-- Witness for C5: each hypothesis-bearing conjunct applied at concrete
inputs; in particular `2 && 1` evaluates to `1` (logical, not bit-and, which
would give `0`) and `1 || 2` to `1`. -/
theorem C5_witness :
    CalcValue envX (.call "f" []) = .error (.callNotConst "f")
    ∧ CalcValue envX (.lval "x" []) = .error (.notConst "x")
    ∧ CalcValue envX (.binary .div (.num 1) (.num 0)) = .error .divByZero
    ∧ CalcValue envX (.binary .mod (.num 1) (.num 0)) = .error .remByZero
    ∧ CalcValue envX (.binary .and (.num 2) (.num 1)) = .ok 1
    ∧ CalcValue envX (.binary .or (.num 1) (.num 2)) = .ok 1 := by
  obtain ⟨h1, h2, h3, h4, h5, h6⟩ := C5_CalcValue_behaviour
  refine ⟨h1 envX "f" [], h2 envX "x" [] _ rfl rfl,
    h3 envX (.num 1) (.num 0) 1 rfl rfl,
    h4 envX (.num 1) (.num 0) 1 rfl rfl, ?_, ?_⟩
  · have := h5 envX (.num 2) (.num 1) 2 1 rfl rfl
    simpa using this
  · have := h6 envX (.num 1) (.num 2) 1 2 rfl rfl
    simpa using this


/-! ## Machine-run machinery -/

/-- Runs compose. -/
theorem stepN_trans {prog : List Line} {a b pc pc1 pc2 : Nat} {m m1 m2 : Mach}
    (h1 : stepN prog a pc m = some (pc1, m1))
    (h2 : stepN prog b pc1 m1 = some (pc2, m2)) :
    stepN prog (a + b) pc m = some (pc2, m2) := by
  induction a generalizing pc m with
  | zero =>
    rw [Nat.zero_add]
    unfold stepN at h1
    rw [Option.some.injEq, Prod.mk.injEq] at h1
    rw [h1.1, h1.2]
    exact h2
  | succ a ih =>
    rw [Nat.succ_add]
    unfold stepN at h1
    rcases hs : step prog pc m with _ | ⟨pc', m'⟩
    · rw [hs] at h1
      cases h1
    · rw [hs] at h1
      have hrec := ih h1
      unfold stepN
      rw [hs]
      exact hrec

theorem step_at_label {prog : List Line} {pc : Nat} {m : Mach} {s : String} {i : Nat}
    (h : prog.get? pc = some (.label s i)) :
    step prog pc m = some (pc + 1, m) := by
  unfold step
  rw [h]

theorem step_at_alloc {prog : List Line} {pc : Nat} {m : Mach} {id : String} {k : Nat} {ty : Ty}
    (h : prog.get? pc = some (.alloc (.var id k) ty)) :
    step prog pc m = some (pc + 1, m.setMem id k 0) := by
  unfold step
  rw [h]

theorem step_at_binop {prog : List Line} {pc : Nat} {m : Mach} {k : Nat} {op : String}
    {a b : Operand} {va vb r : Int}
    (h : prog.get? pc = some (.binop (.reg k) op a b))
    (ha : m.evalOpnd a = some va) (hb : m.evalOpnd b = some vb)
    (hop : evalMn op va vb = some r) :
    step prog pc m = some (pc + 1, m.setReg k r) := by
  simp only [step, h, ha, hb, hop]

theorem step_at_store {prog : List Line} {pc : Nat} {m : Mach} {v : Operand}
    {id : String} {k : Nat} {vv : Int}
    (h : prog.get? pc = some (.store v (.var id k)))
    (hv : m.evalOpnd v = some vv) :
    step prog pc m = some (pc + 1, m.setMem id k vv) := by
  simp only [step, h, hv]

theorem step_at_load {prog : List Line} {pc : Nat} {m : Mach} {k : Nat}
    {id : String} {j : Nat} {v : Int}
    (h : prog.get? pc = some (.load (.reg k) (.var id j)))
    (hm : m.mem id j = some v) :
    step prog pc m = some (pc + 1, m.setReg k v) := by
  simp only [step, h, hm]

theorem step_at_jump {prog : List Line} {pc : Nat} {m : Mach} {s : String} {i pos : Nat}
    (h : prog.get? pc = some (.jump s i))
    (hl : labelPos s i prog = some pos) :
    step prog pc m = some (pos, m) := by
  simp only [step, h, hl]

theorem step_at_br_true {prog : List Line} {pc : Nat} {m : Mach} {c : Operand}
    {tn fn : String} {ti fi pos : Nat} {vc : Int}
    (h : prog.get? pc = some (.br c tn ti fn fi))
    (hc : m.evalOpnd c = some vc) (hvc : vc ≠ 0)
    (hl : labelPos tn ti prog = some pos) :
    step prog pc m = some (pos, m) := by
  simp only [step, h, hc, hvc, ne_eq, not_false_eq_true, if_true, hl]

theorem step_at_br_false {prog : List Line} {pc : Nat} {m : Mach} {c : Operand}
    {tn fn : String} {ti fi pos : Nat}
    (h : prog.get? pc = some (.br c tn ti fn fi))
    (hc : m.evalOpnd c = some 0)
    (hl : labelPos fn fi prog = some pos) :
    step prog pc m = some (pos, m) := by
  simp only [step, h, hc, ne_eq, not_true_eq_false, if_false, hl]

theorem labelPos_cons_self {s : String} {i : Nat} {rest : List Line} :
    labelPos s i (Line.label s i :: rest) = some 0 := by
  simp [labelPos]

theorem labelPos_cons_ne {l : Line} {s : String} {i : Nat} {rest : List Line}
    (h : ¬ l = Line.label s i) :
    labelPos s i (l :: rest) = (labelPos s i rest).map (· + 1) := by
  simp [labelPos, h]

theorem labelPos_append_of_not_mem {A B : List Line} {s : String} {i : Nat}
    (h : Line.label s i ∉ A) :
    labelPos s i (A ++ B) = (labelPos s i B).map (· + A.length) := by
  induction A with
  | nil => simp
  | cons l A ih =>
    have hne : ¬ l = Line.label s i := by
      intro he
      exact h (by rw [he]; exact List.mem_cons_self _ _)
    have hnm : Line.label s i ∉ A := fun hm => h (List.mem_cons_of_mem _ hm)
    rw [List.cons_append, labelPos_cons_ne hne, ih hnm]
    cases labelPos s i B with
    | none => rfl
    | some p =>
      simp [List.length_cons]
      omega

/-- The position of a label line standing right after a prefix free of it. -/
theorem labelPos_found {A B : List Line} {s : String} {i : Nat}
    (h : Line.label s i ∉ A) :
    labelPos s i (A ++ (Line.label s i :: B)) = some A.length := by
  rw [labelPos_append_of_not_mem h, labelPos_cons_self]
  simp

theorem get?_appL {C B : List Line} {k : Nat} (hk : k < C.length) :
    (C ++ B).get? k = C.get? k := by
  induction C generalizing k with
  | nil => simp at hk
  | cons c C ih =>
    cases k with
    | zero => rfl
    | succ k => exact ih (by simpa using hk)

/-- Reading inside the middle segment of a three-part program. -/
theorem get?_middle {A C B : List Line} {k : Nat} (hk : k < C.length) :
    (A ++ (C ++ B)).get? (A.length + k) = C.get? k := by
  induction A with
  | nil => simpa using get?_appL hk
  | cons a A ih =>
    have : (a :: A).length + k = (A.length + k) + 1 := by
      simp [List.length_cons]
      omega
    rw [this]
    exact ih


/-! ## Emission bookkeeping (counters and label ranges) -/

theorem BuildSt.le_rfl {st : BuildSt} : BuildSt.le st st :=
  ⟨Nat.le_refl _, Nat.le_refl _, Nat.le_refl _⟩

theorem BuildSt.le_trans {a b c : BuildSt} (h1 : BuildSt.le a b) (h2 : BuildSt.le b c) :
    BuildSt.le a c :=
  ⟨Nat.le_trans h1.1 h2.1, Nat.le_trans h1.2.1 h2.2.1, Nat.le_trans h1.2.2 h2.2.2⟩

theorem emitSpec_nil {st : BuildSt} : EmitSpec st st [] :=
  ⟨BuildSt.le_rfl, fun s i h => absurd h (List.not_mem_nil _)⟩

theorem emitSpec_append {st st1 st2 : BuildSt} {c1 c2 : List Line}
    (h1 : EmitSpec st st1 c1) (h2 : EmitSpec st1 st2 c2) :
    EmitSpec st st2 (c1 ++ c2) := by
  refine ⟨BuildSt.le_trans h1.1 h2.1, fun s i hm => ?_⟩
  rcases List.mem_append.1 hm with hm | hm
  · have := h1.2 s i hm
    have := h2.1.2.2
    constructor <;> omega
  · have := h2.2 s i hm
    have := h1.1.2.2
    constructor <;> omega

theorem emitSpec_nolabel {st : BuildSt} {l : Line}
    (h : ∀ s i, l ≠ Line.label s i) : EmitSpec st st [l] := by
  refine ⟨BuildSt.le_rfl, fun s i hm => ?_⟩
  rw [List.mem_singleton] at hm
  exact absurd hm.symm (h s i)

theorem emitSpec_weaken {st0 st1 st2 st3 : BuildSt} {c : List Line}
    (h : EmitSpec st1 st2 c) (hl : BuildSt.le st0 st1) (hr : BuildSt.le st2 st3) :
    EmitSpec st0 st3 c := by
  refine ⟨BuildSt.le_trans hl (BuildSt.le_trans h.1 hr), fun s i hm => ?_⟩
  have := h.2 s i hm
  have := hl.2.2
  have := hr.2.2
  constructor <;> omega

/-- One-step counter bumps are `le`. -/
theorem le_bumpReg {st : BuildSt} {n : Nat} (h : st.countReg ≤ n) :
    BuildSt.le st { st with countReg := n } :=
  ⟨h, Nat.le_refl _, Nat.le_refl _⟩

theorem lowerList_emitSpec {f : Expr → BuildSt → Except CErr (BuildSt × List Line × Operand)}
    (hf : ∀ e st st1 c r, f e st = .ok (st1, c, r) → EmitSpec st st1 c) :
    ∀ es st st' code vals, lowerList f es st = .ok (st', code, vals) →
      EmitSpec st st' code := by
  intro es
  induction es with
  | nil =>
    intro st st' code vals h
    unfold lowerList at h
    simp only [Except.ok.injEq, Prod.mk.injEq] at h
    rw [← h.1, ← h.2.1]
    exact emitSpec_nil
  | cons e rest ih =>
    intro st st' code vals h
    unfold lowerList at h
    simp only [bind_ok_iff, Except.ok.injEq, Prod.mk.injEq] at h
    obtain ⟨⟨st1, c1, v1⟩, h1, ⟨st2, c2, vs⟩, h2, hst, hc, hv⟩ := h
    rw [← hst, ← hc]
    exact emitSpec_append (hf _ _ _ _ _ h1) (ih _ _ _ _ h2)

theorem lvalWalk_emitSpec {f : Expr → BuildSt → Except CErr (BuildSt × List Line × Operand)}
    {symIsPtr : Bool}
    (hf : ∀ e st st1 c r, f e st = .ok (st1, c, r) → EmitSpec st st1 c) :
    ∀ idxs first curTy curPtr st st' code p t,
      lvalWalk f symIsPtr first idxs curTy curPtr st = .ok (st', code, p, t) →
      EmitSpec st st' code := by
  intro idxs
  induction idxs with
  | nil =>
    intro first curTy curPtr st st' code p t h
    unfold lvalWalk at h
    simp only [Except.ok.injEq, Prod.mk.injEq] at h
    rw [← h.1, ← h.2.1]
    exact emitSpec_nil
  | cons e rest ih =>
    intro first curTy curPtr st st' code p t h
    unfold lvalWalk at h
    simp only [bind_ok_iff, BuildSt.newReg, Except.ok.injEq, Prod.mk.injEq] at h
    obtain ⟨⟨st1, cI, iv⟩, h1, h⟩ := h
    split at h
    · simp only [bind_ok_iff, Except.ok.injEq, Prod.mk.injEq] at h
      obtain ⟨⟨st3, cR, p', t'⟩, h2, hst, hc, hp, ht⟩ := h
      dsimp only at h2 hst hc hp ht
      rw [← hst, ← hc]
      refine emitSpec_append (emitSpec_append (hf _ _ _ _ _ h1) ?_) (ih _ _ _ _ _ _ _ _ h2)
      exact emitSpec_weaken (emitSpec_nolabel (fun _ _ => by simp))
        (le_bumpReg (Nat.le_succ _)) BuildSt.le_rfl
    · simp only [bind_ok_iff, Except.ok.injEq, Prod.mk.injEq] at h
      obtain ⟨⟨st3, cR, p', t'⟩, h2, hst, hc, hp, ht⟩ := h
      dsimp only at h2 hst hc hp ht
      rw [← hst, ← hc]
      refine emitSpec_append (emitSpec_append (hf _ _ _ _ _ h1) ?_) (ih _ _ _ _ _ _ _ _ h2)
      exact emitSpec_weaken (emitSpec_nolabel (fun _ _ => by simp))
        (le_bumpReg (Nat.le_succ _)) BuildSt.le_rfl

/-- Counters only grow across `codeGen` and every emitted label id is
allocated in between (labels come only from `allocLabelId`). -/
theorem codeGen_emitSpec {G : Env} :
    ∀ fuel e st st' code res, codeGen G fuel e st = .ok (st', code, res) →
      EmitSpec st st' code := by
  intro fuel
  induction fuel with
  | zero => intro e st st' code res h; cases h
  | succ fuel ih =>
    intro e st st' code res h
    match e with
    | .num v =>
      simp only [codeGen, Except.ok.injEq, Prod.mk.injEq] at h
      rw [← h.1, ← h.2.1]
      exact emitSpec_nil
    | .unary op r =>
      simp only [codeGen, bind_ok_iff, BuildSt.newReg, Except.ok.injEq, Prod.mk.injEq] at h
      obtain ⟨⟨st1, c, rres⟩, h1, h⟩ := h
      have hs1 := ih r st st1 c rres h1
      cases op <;>
        simp only [Except.ok.injEq, Prod.mk.injEq] at h <;>
        obtain ⟨h2, h3, h4⟩ := h <;>
        rw [← h2, ← h3] <;>
        exact emitSpec_append hs1
          (emitSpec_weaken (emitSpec_nolabel (fun s i => by simp))
            (le_bumpReg (Nat.le_succ _)) BuildSt.le_rfl)
    | .call id args =>
      simp only [codeGen] at h
      split at h
      · cases h
      · simp only [bind_ok_iff, BuildSt.newReg, Except.ok.injEq, Prod.mk.injEq] at h
        obtain ⟨⟨st1, c, vals⟩, h1, h⟩ := h
        have hs1 := lowerList_emitSpec (fun e st st1 c r => ih e st st1 c r) args st st1 c vals h1
        split at h
        · simp only [Except.ok.injEq, Prod.mk.injEq] at h
          obtain ⟨h2, h3, h4⟩ := h
          rw [← h2, ← h3]
          exact emitSpec_append hs1 (emitSpec_nolabel (fun _ _ => by simp))
        · simp only [Except.ok.injEq, Prod.mk.injEq] at h
          obtain ⟨h2, h3, h4⟩ := h
          rw [← h2, ← h3]
          exact emitSpec_append hs1
            (emitSpec_weaken (emitSpec_nolabel (fun _ _ => by simp))
              (le_bumpReg (Nat.le_succ _)) BuildSt.le_rfl)
    | .lval id idxs =>
      simp only [codeGen] at h
      split at h
      · cases h
      · split at h
        · simp only [Except.ok.injEq, Prod.mk.injEq] at h
          rw [← h.1, ← h.2.1]
          exact emitSpec_nil
        · rename_i sym hG hnc
          simp only [bind_ok_iff, BuildSt.newReg, Except.ok.injEq, Prod.mk.injEq] at h
          obtain ⟨⟨st1, w, ptr, ty⟩, h1, h⟩ := h
          have hpre : EmitSpec st (ptrPreload sym st).2.2.2 (ptrPreload sym st).1 := by
            unfold ptrPreload
            split
            · exact emitSpec_weaken (emitSpec_nolabel (fun s i => by simp))
                BuildSt.le_rfl (le_bumpReg (Nat.le_succ _))
            · exact emitSpec_nil
          have hw : EmitSpec (ptrPreload sym st).2.2.2 st1 w :=
            lvalWalk_emitSpec (fun e st st1 c r => ih e st st1 c r)
              idxs true _ _ _ _ _ _ _ h1
          split at h
          · simp only [Except.ok.injEq, Prod.mk.injEq] at h
            obtain ⟨h2, h3, h4⟩ := h
            rw [← h2, ← h3]
            exact emitSpec_append (emitSpec_append hpre hw)
              (emitSpec_weaken (emitSpec_nolabel (fun _ _ => by simp))
                (le_bumpReg (Nat.le_succ _)) BuildSt.le_rfl)
          · split at h
            · simp only [Except.ok.injEq, Prod.mk.injEq] at h
              obtain ⟨h2, h3, h4⟩ := h
              rw [← h2, ← h3]
              exact emitSpec_append hpre hw
            · simp only [Except.ok.injEq, Prod.mk.injEq] at h
              obtain ⟨h2, h3, h4⟩ := h
              rw [← h2, ← h3]
              exact emitSpec_append (emitSpec_append hpre hw)
                (emitSpec_weaken (emitSpec_nolabel (fun _ _ => by simp))
                  (le_bumpReg (Nat.le_succ _)) BuildSt.le_rfl)
    | .binary op l r =>
      cases op
      case and =>
        simp only [codeGen, BuildSt.newVar, BuildSt.allocLabelId, BuildSt.newReg,
          bind_ok_iff, Except.ok.injEq, Prod.mk.injEq] at h
        obtain ⟨⟨st1, cL, lres⟩, h1, ⟨st3, cR, rres⟩, h2, hst, hcode, hres⟩ := h
        obtain ⟨⟨m1, m2, m3⟩, lab1⟩ := ih _ _ _ _ _ h1
        obtain ⟨⟨n1, n2, n3⟩, lab2⟩ := ih _ _ _ _ _ h2
        dsimp only at m1 m2 m3 n1 n2 n3
        rw [← hst, ← hcode]
        refine ⟨⟨?_, ?_, ?_⟩, ?_⟩
        · dsimp only; omega
        · dsimp only; omega
        · dsimp only; omega
        · intro s i hm
          dsimp only
          rcases List.mem_append.1 hm with hm | hm
          · rcases List.mem_append.1 hm with hm | hm
            · rcases List.mem_append.1 hm with hm | hm
              · rcases List.mem_append.1 hm with hm | hm
                · simp at hm
                · have := lab1 s i hm
                  dsimp only at this
                  omega
              · simp at hm
                omega
            · have := lab2 s i hm
              dsimp only at this
              omega
          · simp at hm
            rcases hm with ⟨_, hi⟩ | ⟨_, hi⟩ <;> omega
      case or =>
        simp only [codeGen, BuildSt.newVar, BuildSt.allocLabelId, BuildSt.newReg,
          bind_ok_iff, Except.ok.injEq, Prod.mk.injEq] at h
        obtain ⟨⟨st1, cL, lres⟩, h1, ⟨st3, cR, rres⟩, h2, hst, hcode, hres⟩ := h
        obtain ⟨⟨m1, m2, m3⟩, lab1⟩ := ih _ _ _ _ _ h1
        obtain ⟨⟨n1, n2, n3⟩, lab2⟩ := ih _ _ _ _ _ h2
        dsimp only at m1 m2 m3 n1 n2 n3
        rw [← hst, ← hcode]
        refine ⟨⟨?_, ?_, ?_⟩, ?_⟩
        · dsimp only; omega
        · dsimp only; omega
        · dsimp only; omega
        · intro s i hm
          dsimp only
          rcases List.mem_append.1 hm with hm | hm
          · rcases List.mem_append.1 hm with hm | hm
            · rcases List.mem_append.1 hm with hm | hm
              · rcases List.mem_append.1 hm with hm | hm
                · simp at hm
                · have := lab1 s i hm
                  dsimp only at this
                  omega
              · simp at hm
                rcases hm with ⟨_, hi⟩ | ⟨_, hi⟩ <;> omega
            · have := lab2 s i hm
              dsimp only at this
              omega
          · simp at hm
            rcases hm with ⟨_, hi⟩ | ⟨_, hi⟩ <;> omega
      all_goals
        simp only [codeGen, bind_ok_iff, BuildSt.newReg, Except.ok.injEq, Prod.mk.injEq] at h
      all_goals
        obtain ⟨⟨st1, cL, lres⟩, h1, ⟨st2, cR, rres⟩, h2, hst, hcode, hres⟩ := h
      all_goals
        try dsimp only at h2 hst hcode
      all_goals
        rw [← hst, ← hcode]
      all_goals
        exact emitSpec_append (emitSpec_append (ih _ _ _ _ _ h1) (ih _ _ _ _ _ h2))
          (emitSpec_weaken (emitSpec_nolabel (fun _ _ => by simp))
            (le_bumpReg (Nat.le_succ _)) BuildSt.le_rfl)


/-! ## Machine-state bookkeeping -/

theorem Mach.regs_setReg_self {m : Mach} {k : Nat} {v : Int} :
    (m.setReg k v).regs k = some v := by
  simp [Mach.setReg]

theorem Mach.regs_setReg_ne {m : Mach} {k j : Nat} {v : Int} (h : ¬ j = k) :
    (m.setReg k v).regs j = m.regs j := by
  simp [Mach.setReg, h]

theorem Mach.mem_setReg {m : Mach} {k : Nat} {v : Int} :
    (m.setReg k v).mem = m.mem := rfl

theorem Mach.mem_setMem_self {m : Mach} {id : String} {k : Nat} {v : Int} :
    (m.setMem id k v).mem id k = some v := by
  simp [Mach.setMem]

theorem Mach.mem_setMem_ne {m : Mach} {id s : String} {k j : Nat} {v : Int}
    (h : ¬ (s = id ∧ j = k)) :
    (m.setMem id k v).mem s j = m.mem s j := by
  simp only [Mach.setMem]
  rw [if_neg h]

theorem Mach.regs_setMem {m : Mach} {id : String} {k : Nat} {v : Int} :
    (m.setMem id k v).regs = m.regs := rfl

theorem regsBelow_setReg {m : Mach} {n k : Nat} {v : Int}
    (h : RegsBelow m n) (hk : k < n) : RegsBelow (m.setReg k v) n := by
  intro j hj
  by_cases hjk : j = k
  · omega
  · rw [Mach.regs_setReg_ne hjk] at hj
    exact h j hj

theorem memBelow_setMem {m : Mach} {n : Nat} {id : String} {k : Nat} {v : Int}
    (h : MemBelow m n) (hk : k < n) : MemBelow (m.setMem id k v) n := by
  intro s j hj
  by_cases hjk : s = id ∧ j = k
  · omega
  · rw [Mach.mem_setMem_ne hjk] at hj
    exact h s j hj

theorem regsBelow_setMem {m : Mach} {n : Nat} {id : String} {k : Nat} {v : Int}
    (h : RegsBelow m n) : RegsBelow (m.setMem id k v) n := by
  intro j hj
  rw [Mach.regs_setMem] at hj
  exact h j hj

theorem memBelow_setReg {m : Mach} {n k : Nat} {v : Int}
    (h : MemBelow m n) : MemBelow (m.setReg k v) n := by
  intro s j hj
  rw [Mach.mem_setReg] at hj
  exact h s j hj

theorem regsBelow_mono {m : Mach} {a b : Nat} (h : RegsBelow m a) (hab : a ≤ b) :
    RegsBelow m b := fun k hk => Nat.lt_of_lt_of_le (h k hk) hab

theorem memBelow_mono {m : Mach} {a b : Nat} (h : MemBelow m a) (hab : a ≤ b) :
    MemBelow m b := fun id j hj => Nat.lt_of_lt_of_le (h id j hj) hab

/-! ## List positioning helpers -/

theorem notMem_append {α : Type _} {l : α} {A B : List α}
    (ha : l ∉ A) (hb : l ∉ B) : l ∉ A ++ B := by
  intro h
  rcases List.mem_append.1 h with h | h
  · exact ha h
  · exact hb h

theorem notMem_cons {α : Type _} {l x : α} {rest : List α}
    (h1 : ¬ l = x) (h2 : l ∉ rest) : l ∉ x :: rest := by
  intro h
  rcases List.mem_cons.1 h with h | h
  · exact h1 h
  · exact h2 h

theorem notMem_of_labelsIn {c : List Line} {lo hi : Nat} {s : String} {i : Nat}
    (h : LabelsIn c lo hi) (hi0 : i < lo ∨ hi ≤ i) : Line.label s i ∉ c := by
  intro hm
  have := h s i hm
  omega

theorem notMem_of_labelsOutside {c : List Line} {lo hi : Nat} {s : String} {i : Nat}
    (h : LabelsOutside c lo hi) (hi0 : lo ≤ i ∧ i < hi) : Line.label s i ∉ c := by
  intro hm
  have := h s i hm
  omega

/-- Reading the line after a given prefix. -/
theorem get?_of_decomp {prog A B : List Line} {l : Line}
    (h : prog = A ++ (l :: B)) : prog.get? A.length = some l := by
  subst h
  induction A with
  | nil => rfl
  | cons a A ih => exact ih

/-- Locating a label line after a given prefix free of it. -/
theorem labelPos_of_decomp {prog A B : List Line} {s : String} {i : Nat}
    (h : prog = A ++ (Line.label s i :: B)) (hnm : Line.label s i ∉ A) :
    labelPos s i prog = some A.length := by
  subst h
  exact labelPos_found hnm


theorem stepN_one {prog : List Line} {pc : Nat} {m : Mach} {pc' : Nat} {m' : Mach}
    (h : step prog pc m = some (pc', m')) : stepN prog 1 pc m = some (pc', m') := by
  unfold stepN
  rw [h]
  rfl

/-- An operand with a value keeps it across steps that only add registers. -/
theorem evalOpnd_preserved {m1 m2 : Mach} {o : Operand} {v : Int} {n : Nat}
    (h1 : m1.evalOpnd o = some v) (hb : RegsBelow m1 n)
    (hpres : ∀ k, k < n → m2.regs k = m1.regs k) : m2.evalOpnd o = some v := by
  cases o with
  | imm w => exact h1
  | reg k =>
    have hk : k < n := hb k (by rw [show m1.regs k = m1.evalOpnd (.reg k) from rfl, h1]; simp)
    rw [show m2.evalOpnd (.reg k) = m2.regs k from rfl, hpres k hk]
    exact h1
  | var id j => cases h1
  | null => cases h1

/-- Glue for the non-short-circuit binary lowering: run `lhs`, run `rhs`,
then execute the single arithmetic line. -/
theorem runs_binop_glue {G : Env} {l r : Expr} {fuel : Nat}
    {st st1 st2 : BuildSt} {cL cR : List Line} {lres rres : Operand}
    {lv rv v : Int} {irop : String}
    (ihl : RunsOk G l) (ihr : RunsOk G r)
    (hlv : CalcValue G l = .ok lv) (hrv : CalcValue G r = .ok rv)
    (h1 : codeGen G fuel l st = .ok (st1, cL, lres))
    (h2 : codeGen G fuel r st1 = .ok (st2, cR, rres))
    (hmn : evalMn irop lv rv = some v) :
    ∀ (P1 P2 : List Line) (m : Mach),
      LabelsOutside (P1 ++ P2) st.countLabel st2.countLabel →
      RegsBelow m st.countReg → MemBelow m st.countName →
      ∃ n m',
        stepN (P1 ++ ((cL ++ cR ++ [Line.binop (.reg st2.countReg) irop lres rres]) ++ P2)) n
            P1.length m
          = some (P1.length +
              (cL ++ cR ++ [Line.binop (.reg st2.countReg) irop lres rres]).length, m') ∧
        m'.evalOpnd (.reg st2.countReg) = some v ∧
        (∀ k, k < st.countReg → m'.regs k = m.regs k) ∧
        RegsBelow m' (st2.countReg + 1) ∧
        (∀ id j, j < st.countName → m'.mem id j = m.mem id j) ∧
        MemBelow m' st2.countName := by
  intro P1 P2 m hfresh hreg hmem
  obtain ⟨⟨lr1, ln1, ll1⟩, labL⟩ := codeGen_emitSpec fuel l st st1 cL lres h1
  obtain ⟨⟨lr2, ln2, ll2⟩, labR⟩ := codeGen_emitSpec fuel r st1 st2 cR rres h2
  set bl : Line := Line.binop (.reg st2.countReg) irop lres rres with hbl
  have hprog : P1 ++ ((cL ++ cR ++ [bl]) ++ P2) = P1 ++ (cL ++ (cR ++ (bl :: P2))) := by
    simp [List.append_assoc]
  rw [hprog]
  have hfresh1 : LabelsOutside (P1 ++ (cR ++ (bl :: P2))) st.countLabel st1.countLabel := by
    intro s i hm
    rcases List.mem_append.1 hm with hm | hm
    · have := hfresh s i (List.mem_append_left _ hm)
      omega
    · rcases List.mem_append.1 hm with hm | hm
      · have := labR s i hm
        omega
      · rcases List.mem_cons.1 hm with hm | hm
        · rw [hbl] at hm
          cases hm
        · have := hfresh s i (List.mem_append_right _ hm)
          omega
  obtain ⟨n1, m1, hrun1, hval1, hpres1, hrb1, hmpres1, hmb1⟩ :=
    ihl fuel lv st st1 cL lres hlv h1 P1 (cR ++ (bl :: P2)) m hfresh1 hreg hmem
  have hfresh2 : LabelsOutside ((P1 ++ cL) ++ (bl :: P2)) st1.countLabel st2.countLabel := by
    intro s i hm
    rcases List.mem_append.1 hm with hm | hm
    · rcases List.mem_append.1 hm with hm | hm
      · have := hfresh s i (List.mem_append_left _ hm)
        omega
      · have := labL s i hm
        omega
    · rcases List.mem_cons.1 hm with hm | hm
      · rw [hbl] at hm
        cases hm
      · have := hfresh s i (List.mem_append_right _ hm)
        omega
  obtain ⟨n2, m2, hrun2, hval2, hpres2, hrb2, hmpres2, hmb2⟩ :=
    ihr fuel rv st1 st2 cR rres hrv h2 (P1 ++ cL) (bl :: P2) m1 hfresh2 hrb1 hmb1
  rw [show (P1 ++ cL) ++ (cR ++ (bl :: P2)) = P1 ++ (cL ++ (cR ++ (bl :: P2))) from by
        simp [List.append_assoc],
      List.length_append] at hrun2
  have hvalL : m2.evalOpnd lres = some lv := evalOpnd_preserved hval1 hrb1 hpres2
  have hget : (P1 ++ (cL ++ (cR ++ (bl :: P2)))).get?
      (P1.length + cL.length + cR.length) = some bl := by
    have hd : P1 ++ (cL ++ (cR ++ (bl :: P2))) = ((P1 ++ cL) ++ cR) ++ (bl :: P2) := by
      simp [List.append_assoc]
    have := get?_of_decomp hd
    rwa [List.length_append, List.length_append] at this
  have hstep : step (P1 ++ (cL ++ (cR ++ (bl :: P2)))) (P1.length + cL.length + cR.length) m2 =
      some (P1.length + cL.length + cR.length + 1, m2.setReg st2.countReg v) :=
    step_at_binop hget hvalL hval2 hmn
  refine ⟨n1 + (n2 + 1), m2.setReg st2.countReg v, ?_, ?_, ?_, ?_, ?_, ?_⟩
  · have hr2 := stepN_trans hrun2 (stepN_one hstep)
    have := stepN_trans hrun1 hr2
    have hlen : P1.length + (cL ++ cR ++ [bl]).length =
        P1.length + cL.length + cR.length + 1 := by
      simp only [List.length_append, List.length_singleton]
      omega
    rw [hlen]
    exact this
  · rw [Mach.evalOpnd, Mach.regs_setReg_self]
  · intro k hk
    rw [Mach.regs_setReg_ne (by omega)]
    rw [hpres2 k (by omega), hpres1 k hk]
  · exact regsBelow_setReg (regsBelow_mono hrb2 (Nat.le_succ _)) (Nat.lt_succ_self _)
  · intro id j hj
    rw [Mach.mem_setReg]
    rw [hmpres2 id j (by omega), hmpres1 id j hj]
  · exact memBelow_setReg hmb2

/-- Running the `&&` diamond (codegen.cpp:866-899): the left operand's code
runs first; when its value is non-zero control passes through the true
branch, which runs the right operand's code and stores its normalised
boolean; when the left value is zero control passes through the false
branch, which stores `0` — no line of the right operand's code executes.
Either way control reaches the join label and loads the scratch cell. -/
theorem runs_and_glue {G : Env} {l r : Expr} {fuel : Nat}
    {st st1 st3 : BuildSt} {cL cR : List Line} {lres rres : Operand} {lv rv : Int}
    (ihl : RunsOk G l) (ihr : RunsOk G r)
    (hlv : CalcValue G l = .ok lv) (hrv : CalcValue G r = .ok rv)
    (h1 : codeGen G fuel l ⟨st.countReg, st.countName + 1, st.countLabel⟩ = .ok (st1, cL, lres))
    (h2 : codeGen G fuel r ⟨st1.countReg + 1, st1.countName, st1.countLabel + 1⟩
            = .ok (st3, cR, rres)) :
    ∀ (P1 P2 : List Line) (m : Mach),
      LabelsOutside (P1 ++ P2) st.countLabel st3.countLabel →
      RegsBelow m st.countReg → MemBelow m st.countName →
      ∃ n m',
        stepN (P1 ++ (andEmit st st1 st3 cL cR lres rres ++ P2)) n P1.length m
          = some (P1.length + (andEmit st st1 st3 cL cR lres rres).length, m') ∧
        m'.evalOpnd (.reg (st3.countReg + 1)) = some (if lv ≠ 0 ∧ rv ≠ 0 then 1 else 0) ∧
        (∀ k, k < st.countReg → m'.regs k = m.regs k) ∧
        RegsBelow m' (st3.countReg + 2) ∧
        (∀ id j, j < st.countName → m'.mem id j = m.mem id j) ∧
        MemBelow m' st3.countName := by
  intro P1 P2 m hfresh hreg hmem
  obtain ⟨⟨lr1, ln1, ll1⟩, labL⟩ := codeGen_emitSpec fuel l _ st1 cL lres h1
  obtain ⟨⟨lr2, ln2, ll2⟩, labR⟩ := codeGen_emitSpec fuel r _ st3 cR rres h2
  dsimp only at lr1 ln1 ll1 lr2 ln2 ll2 labL labR
  have hlenF : P1.length + (andEmit st st1 st3 cL cR lres rres).length =
      P1.length + 1 + cL.length + 1 + 1 + 1 + cR.length + 1 + 1 + 1 + 1 + 1 + 1 + 1 + 1 := by
    simp only [andEmit, List.length_append, List.length_cons, List.length_nil,
      List.singleton_append]
    omega
  rw [hlenF]
  have hget0 : (P1 ++ (andEmit st st1 st3 cL cR lres rres ++ P2)).get? (P1.length) = some (Line.alloc (Operand.var "and_res" st.countName) Ty.int) := by
    have hd : P1 ++ (andEmit st st1 st3 cL cR lres rres ++ P2) = (P1) ++ (Line.alloc (Operand.var "and_res" st.countName) Ty.int ::
        (cL ++ (Line.binop (Operand.reg st1.countReg) "ne" lres (Operand.imm 0) ::
        Line.br (Operand.reg st1.countReg) "and_true" st1.countLabel "and_false" st1.countLabel ::
        Line.label "and_true" st1.countLabel ::
        (cR ++ (Line.binop (Operand.reg st3.countReg) "ne" rres (Operand.imm 0) ::
        Line.store (Operand.reg st3.countReg) (Operand.var "and_res" st.countName) ::
        Line.jump "and_end" st1.countLabel ::
        Line.label "and_false" st1.countLabel ::
        Line.store (Operand.imm 0) (Operand.var "and_res" st.countName) ::
        Line.jump "and_end" st1.countLabel ::
        Line.label "and_end" st1.countLabel ::
        Line.load (Operand.reg (st3.countReg + 1)) (Operand.var "and_res" st.countName) ::
        P2))))) := by
      simp [andEmit, List.append_assoc]
    have hx := get?_of_decomp hd
    rwa [show (P1).length = P1.length from by
      first
      | rfl
      | (simp only [List.length_append, List.length_cons, List.length_nil]
         try omega)] at hx
  have hstep0 : step (P1 ++ (andEmit st st1 st3 cL cR lres rres ++ P2)) P1.length m =
      some (P1.length + 1, m.setMem "and_res" st.countName 0) :=
    step_at_alloc hget0
  have hfreshL : LabelsOutside ((P1 ++ [Line.alloc (Operand.var "and_res" st.countName) Ty.int]) ++ (Line.binop (Operand.reg st1.countReg) "ne" lres (Operand.imm 0) ::
      Line.br (Operand.reg st1.countReg) "and_true" st1.countLabel "and_false" st1.countLabel ::
      Line.label "and_true" st1.countLabel ::
      (cR ++ (Line.binop (Operand.reg st3.countReg) "ne" rres (Operand.imm 0) ::
        Line.store (Operand.reg st3.countReg) (Operand.var "and_res" st.countName) ::
        Line.jump "and_end" st1.countLabel ::
        Line.label "and_false" st1.countLabel ::
        Line.store (Operand.imm 0) (Operand.var "and_res" st.countName) ::
        Line.jump "and_end" st1.countLabel ::
        Line.label "and_end" st1.countLabel ::
        Line.load (Operand.reg (st3.countReg + 1)) (Operand.var "and_res" st.countName) ::
        P2)))) st.countLabel st1.countLabel := by
    intro s i hm
    rcases List.mem_append.1 hm with hm | hm
    · rcases List.mem_append.1 hm with hm | hm
      · have := hfresh s i (List.mem_append_left _ hm)
        omega
      · simp at hm
    · rcases List.mem_cons.1 hm with hm | hm
      · cases hm
      · rcases List.mem_cons.1 hm with hm | hm
        · cases hm
        · rcases List.mem_cons.1 hm with hm | hm
          · rw [Line.label.injEq] at hm
            obtain ⟨hs, hi⟩ := hm
            omega
          · rcases List.mem_append.1 hm with hm | hm
            · have := labR s i hm
              omega
            · simp only [List.mem_cons] at hm
              rcases hm with hm | hm | hm | hm | hm | hm | hm | hm | hm
              · cases hm
              · cases hm
              · cases hm
              · rw [Line.label.injEq] at hm
                obtain ⟨hs, hi⟩ := hm
                omega
              · cases hm
              · cases hm
              · rw [Line.label.injEq] at hm
                obtain ⟨hs, hi⟩ := hm
                omega
              · cases hm
              · have := hfresh s i (List.mem_append_right _ hm)
                omega
  obtain ⟨n1, m2, hrun1, hval1, hpres1, hrbL, hmpres1, hmbL⟩ :=
    ihl fuel lv ⟨st.countReg, st.countName + 1, st.countLabel⟩ st1 cL lres hlv h1
      (P1 ++ [Line.alloc (Operand.var "and_res" st.countName) Ty.int])
      (Line.binop (Operand.reg st1.countReg) "ne" lres (Operand.imm 0) ::
       Line.br (Operand.reg st1.countReg) "and_true" st1.countLabel "and_false" st1.countLabel ::
       Line.label "and_true" st1.countLabel ::
       (cR ++ (Line.binop (Operand.reg st3.countReg) "ne" rres (Operand.imm 0) ::
        Line.store (Operand.reg st3.countReg) (Operand.var "and_res" st.countName) ::
        Line.jump "and_end" st1.countLabel ::
        Line.label "and_false" st1.countLabel ::
        Line.store (Operand.imm 0) (Operand.var "and_res" st.countName) ::
        Line.jump "and_end" st1.countLabel ::
        Line.label "and_end" st1.countLabel ::
        Line.load (Operand.reg (st3.countReg + 1)) (Operand.var "and_res" st.countName) ::
        P2)))
      (m.setMem "and_res" st.countName 0)
      hfreshL
      (regsBelow_setMem hreg)
      (memBelow_setMem (memBelow_mono hmem (Nat.le_succ _)) (Nat.lt_succ_self _))
  rw [show (P1 ++ [Line.alloc (Operand.var "and_res" st.countName) Ty.int]) ++ (cL ++ (Line.binop (Operand.reg st1.countReg) "ne" lres (Operand.imm 0) ::
       Line.br (Operand.reg st1.countReg) "and_true" st1.countLabel "and_false" st1.countLabel ::
       Line.label "and_true" st1.countLabel ::
       (cR ++ (Line.binop (Operand.reg st3.countReg) "ne" rres (Operand.imm 0) ::
        Line.store (Operand.reg st3.countReg) (Operand.var "and_res" st.countName) ::
        Line.jump "and_end" st1.countLabel ::
        Line.label "and_false" st1.countLabel ::
        Line.store (Operand.imm 0) (Operand.var "and_res" st.countName) ::
        Line.jump "and_end" st1.countLabel ::
        Line.label "and_end" st1.countLabel ::
        Line.load (Operand.reg (st3.countReg + 1)) (Operand.var "and_res" st.countName) ::
        P2)))) = P1 ++ (andEmit st st1 st3 cL cR lres rres ++ P2) from by
      simp [andEmit, List.append_assoc]] at hrun1
  rw [show (P1 ++ [Line.alloc (Operand.var "and_res" st.countName) Ty.int]).length = P1.length + 1 from by simp] at hrun1
  dsimp only at hval1 hpres1 hrbL hmpres1 hmbL
  have hget_ne : (P1 ++ (andEmit st st1 st3 cL cR lres rres ++ P2)).get? (P1.length + 1 + cL.length) = some (Line.binop (Operand.reg st1.countReg) "ne" lres (Operand.imm 0)) := by
    have hd : P1 ++ (andEmit st st1 st3 cL cR lres rres ++ P2) = (((P1 ++ [Line.alloc (Operand.var "and_res" st.countName) Ty.int]) ++ cL)) ++ (Line.binop (Operand.reg st1.countReg) "ne" lres (Operand.imm 0) ::
        Line.br (Operand.reg st1.countReg) "and_true" st1.countLabel "and_false" st1.countLabel ::
        Line.label "and_true" st1.countLabel ::
        (cR ++ (Line.binop (Operand.reg st3.countReg) "ne" rres (Operand.imm 0) ::
        Line.store (Operand.reg st3.countReg) (Operand.var "and_res" st.countName) ::
        Line.jump "and_end" st1.countLabel ::
        Line.label "and_false" st1.countLabel ::
        Line.store (Operand.imm 0) (Operand.var "and_res" st.countName) ::
        Line.jump "and_end" st1.countLabel ::
        Line.label "and_end" st1.countLabel ::
        Line.load (Operand.reg (st3.countReg + 1)) (Operand.var "and_res" st.countName) ::
        P2))) := by
      simp [andEmit, List.append_assoc]
    have hx := get?_of_decomp hd
    rwa [show (((P1 ++ [Line.alloc (Operand.var "and_res" st.countName) Ty.int]) ++ cL)).length = P1.length + 1 + cL.length from by
      first
      | rfl
      | (simp only [List.length_append, List.length_cons, List.length_nil]
         try omega)] at hx
  have hget_br : (P1 ++ (andEmit st st1 st3 cL cR lres rres ++ P2)).get? (P1.length + 1 + cL.length + 1) = some (Line.br (Operand.reg st1.countReg) "and_true" st1.countLabel "and_false" st1.countLabel) := by
    have hd : P1 ++ (andEmit st st1 st3 cL cR lres rres ++ P2) = (((P1 ++ [Line.alloc (Operand.var "and_res" st.countName) Ty.int]) ++ cL) ++ [Line.binop (Operand.reg st1.countReg) "ne" lres (Operand.imm 0)]) ++ (Line.br (Operand.reg st1.countReg) "and_true" st1.countLabel "and_false" st1.countLabel ::
        Line.label "and_true" st1.countLabel ::
        (cR ++ (Line.binop (Operand.reg st3.countReg) "ne" rres (Operand.imm 0) ::
        Line.store (Operand.reg st3.countReg) (Operand.var "and_res" st.countName) ::
        Line.jump "and_end" st1.countLabel ::
        Line.label "and_false" st1.countLabel ::
        Line.store (Operand.imm 0) (Operand.var "and_res" st.countName) ::
        Line.jump "and_end" st1.countLabel ::
        Line.label "and_end" st1.countLabel ::
        Line.load (Operand.reg (st3.countReg + 1)) (Operand.var "and_res" st.countName) ::
        P2))) := by
      simp [andEmit, List.append_assoc]
    have hx := get?_of_decomp hd
    rwa [show (((P1 ++ [Line.alloc (Operand.var "and_res" st.countName) Ty.int]) ++ cL) ++ [Line.binop (Operand.reg st1.countReg) "ne" lres (Operand.imm 0)]).length = P1.length + 1 + cL.length + 1 from by
      first
      | rfl
      | (simp only [List.length_append, List.length_cons, List.length_nil]
         try omega)] at hx
  have hlab_t : labelPos "and_true" st1.countLabel (P1 ++ (andEmit st st1 st3 cL cR lres rres ++ P2)) = some (P1.length + 1 + cL.length + 1 + 1) := by
    have hd : P1 ++ (andEmit st st1 st3 cL cR lres rres ++ P2) = (((P1 ++ [Line.alloc (Operand.var "and_res" st.countName) Ty.int]) ++ cL) ++ [Line.binop (Operand.reg st1.countReg) "ne" lres (Operand.imm 0), Line.br (Operand.reg st1.countReg) "and_true" st1.countLabel "and_false" st1.countLabel]) ++ (Line.label "and_true" st1.countLabel ::
        (cR ++ (Line.binop (Operand.reg st3.countReg) "ne" rres (Operand.imm 0) ::
        Line.store (Operand.reg st3.countReg) (Operand.var "and_res" st.countName) ::
        Line.jump "and_end" st1.countLabel ::
        Line.label "and_false" st1.countLabel ::
        Line.store (Operand.imm 0) (Operand.var "and_res" st.countName) ::
        Line.jump "and_end" st1.countLabel ::
        Line.label "and_end" st1.countLabel ::
        Line.load (Operand.reg (st3.countReg + 1)) (Operand.var "and_res" st.countName) ::
        P2))) := by
      simp [andEmit, List.append_assoc]
    have hx := labelPos_of_decomp hd (by
      refine notMem_append (notMem_append (notMem_append ?_ ?_) ?_) ?_
      · exact fun hm => by have := hfresh _ _ (List.mem_append_left _ hm); omega
      · simp
      · exact fun hm => by have := labL _ _ hm; omega
      · simp)
    rwa [show (((P1 ++ [Line.alloc (Operand.var "and_res" st.countName) Ty.int]) ++ cL) ++ [Line.binop (Operand.reg st1.countReg) "ne" lres (Operand.imm 0), Line.br (Operand.reg st1.countReg) "and_true" st1.countLabel "and_false" st1.countLabel]).length = P1.length + 1 + cL.length + 1 + 1 from by
      first
      | rfl
      | (simp only [List.length_append, List.length_cons, List.length_nil]
         try omega)] at hx
  have hlab_f : labelPos "and_false" st1.countLabel (P1 ++ (andEmit st st1 st3 cL cR lres rres ++ P2)) = some (P1.length + 1 + cL.length + 1 + 1 + 1 + cR.length + 1 + 1 + 1) := by
    have hd : P1 ++ (andEmit st st1 st3 cL cR lres rres ++ P2) = ((((P1 ++ [Line.alloc (Operand.var "and_res" st.countName) Ty.int]) ++ cL) ++ [Line.binop (Operand.reg st1.countReg) "ne" lres (Operand.imm 0), Line.br (Operand.reg st1.countReg) "and_true" st1.countLabel "and_false" st1.countLabel, Line.label "and_true" st1.countLabel]) ++ cR ++ [Line.binop (Operand.reg st3.countReg) "ne" rres (Operand.imm 0), Line.store (Operand.reg st3.countReg) (Operand.var "and_res" st.countName), Line.jump "and_end" st1.countLabel]) ++ (Line.label "and_false" st1.countLabel ::
        Line.store (Operand.imm 0) (Operand.var "and_res" st.countName) ::
        Line.jump "and_end" st1.countLabel ::
        Line.label "and_end" st1.countLabel ::
        Line.load (Operand.reg (st3.countReg + 1)) (Operand.var "and_res" st.countName) ::
        P2) := by
      simp [andEmit, List.append_assoc]
    have hx := labelPos_of_decomp hd (by
      refine notMem_append (notMem_append (notMem_append (notMem_append
        (notMem_append ?_ ?_) ?_) ?_) ?_) ?_
      · exact fun hm => by have := hfresh _ _ (List.mem_append_left _ hm); omega
      · simp
      · exact fun hm => by have := labL _ _ hm; omega
      · simp
      · exact fun hm => by have := labR _ _ hm; omega
      · simp)
    rwa [show ((((P1 ++ [Line.alloc (Operand.var "and_res" st.countName) Ty.int]) ++ cL) ++ [Line.binop (Operand.reg st1.countReg) "ne" lres (Operand.imm 0), Line.br (Operand.reg st1.countReg) "and_true" st1.countLabel "and_false" st1.countLabel, Line.label "and_true" st1.countLabel]) ++ cR ++ [Line.binop (Operand.reg st3.countReg) "ne" rres (Operand.imm 0), Line.store (Operand.reg st3.countReg) (Operand.var "and_res" st.countName), Line.jump "and_end" st1.countLabel]).length = P1.length + 1 + cL.length + 1 + 1 + 1 + cR.length + 1 + 1 + 1 from by
      first
      | rfl
      | (simp only [List.length_append, List.length_cons, List.length_nil]
         try omega)] at hx
  have hlab_e : labelPos "and_end" st1.countLabel (P1 ++ (andEmit st st1 st3 cL cR lres rres ++ P2)) = some (P1.length + 1 + cL.length + 1 + 1 + 1 + cR.length + 1 + 1 + 1 + 1 + 1 + 1) := by
    have hd : P1 ++ (andEmit st st1 st3 cL cR lres rres ++ P2) = ((((P1 ++ [Line.alloc (Operand.var "and_res" st.countName) Ty.int]) ++ cL) ++ [Line.binop (Operand.reg st1.countReg) "ne" lres (Operand.imm 0), Line.br (Operand.reg st1.countReg) "and_true" st1.countLabel "and_false" st1.countLabel, Line.label "and_true" st1.countLabel]) ++ cR ++ [Line.binop (Operand.reg st3.countReg) "ne" rres (Operand.imm 0), Line.store (Operand.reg st3.countReg) (Operand.var "and_res" st.countName), Line.jump "and_end" st1.countLabel, Line.label "and_false" st1.countLabel, Line.store (Operand.imm 0) (Operand.var "and_res" st.countName), Line.jump "and_end" st1.countLabel]) ++ (Line.label "and_end" st1.countLabel ::
        Line.load (Operand.reg (st3.countReg + 1)) (Operand.var "and_res" st.countName) ::
        P2) := by
      simp [andEmit, List.append_assoc]
    have hx := labelPos_of_decomp hd (by
      refine notMem_append (notMem_append (notMem_append (notMem_append
        (notMem_append ?_ ?_) ?_) ?_) ?_) ?_
      · exact fun hm => by have := hfresh _ _ (List.mem_append_left _ hm); omega
      · simp
      · exact fun hm => by have := labL _ _ hm; omega
      · simp
      · exact fun hm => by have := labR _ _ hm; omega
      · simp)
    rwa [show ((((P1 ++ [Line.alloc (Operand.var "and_res" st.countName) Ty.int]) ++ cL) ++ [Line.binop (Operand.reg st1.countReg) "ne" lres (Operand.imm 0), Line.br (Operand.reg st1.countReg) "and_true" st1.countLabel "and_false" st1.countLabel, Line.label "and_true" st1.countLabel]) ++ cR ++ [Line.binop (Operand.reg st3.countReg) "ne" rres (Operand.imm 0), Line.store (Operand.reg st3.countReg) (Operand.var "and_res" st.countName), Line.jump "and_end" st1.countLabel, Line.label "and_false" st1.countLabel, Line.store (Operand.imm 0) (Operand.var "and_res" st.countName), Line.jump "and_end" st1.countLabel]).length = P1.length + 1 + cL.length + 1 + 1 + 1 + cR.length + 1 + 1 + 1 + 1 + 1 + 1 from by
      first
      | rfl
      | (simp only [List.length_append, List.length_cons, List.length_nil]
         try omega)] at hx
  have hget_lt : (P1 ++ (andEmit st st1 st3 cL cR lres rres ++ P2)).get? (P1.length + 1 + cL.length + 1 + 1) = some (Line.label "and_true" st1.countLabel) := by
    have hd : P1 ++ (andEmit st st1 st3 cL cR lres rres ++ P2) = (((P1 ++ [Line.alloc (Operand.var "and_res" st.countName) Ty.int]) ++ cL) ++ [Line.binop (Operand.reg st1.countReg) "ne" lres (Operand.imm 0), Line.br (Operand.reg st1.countReg) "and_true" st1.countLabel "and_false" st1.countLabel]) ++ (Line.label "and_true" st1.countLabel ::
        (cR ++ (Line.binop (Operand.reg st3.countReg) "ne" rres (Operand.imm 0) ::
        Line.store (Operand.reg st3.countReg) (Operand.var "and_res" st.countName) ::
        Line.jump "and_end" st1.countLabel ::
        Line.label "and_false" st1.countLabel ::
        Line.store (Operand.imm 0) (Operand.var "and_res" st.countName) ::
        Line.jump "and_end" st1.countLabel ::
        Line.label "and_end" st1.countLabel ::
        Line.load (Operand.reg (st3.countReg + 1)) (Operand.var "and_res" st.countName) ::
        P2))) := by
      simp [andEmit, List.append_assoc]
    have hx := get?_of_decomp hd
    rwa [show (((P1 ++ [Line.alloc (Operand.var "and_res" st.countName) Ty.int]) ++ cL) ++ [Line.binop (Operand.reg st1.countReg) "ne" lres (Operand.imm 0), Line.br (Operand.reg st1.countReg) "and_true" st1.countLabel "and_false" st1.countLabel]).length = P1.length + 1 + cL.length + 1 + 1 from by
      first
      | rfl
      | (simp only [List.length_append, List.length_cons, List.length_nil]
         try omega)] at hx
  have hget_b0 : (P1 ++ (andEmit st st1 st3 cL cR lres rres ++ P2)).get? (P1.length + 1 + cL.length + 1 + 1 + 1 + cR.length) = some (Line.binop (Operand.reg st3.countReg) "ne" rres (Operand.imm 0)) := by
    have hd : P1 ++ (andEmit st st1 st3 cL cR lres rres ++ P2) = ((((P1 ++ [Line.alloc (Operand.var "and_res" st.countName) Ty.int]) ++ cL) ++ [Line.binop (Operand.reg st1.countReg) "ne" lres (Operand.imm 0), Line.br (Operand.reg st1.countReg) "and_true" st1.countLabel "and_false" st1.countLabel, Line.label "and_true" st1.countLabel]) ++ cR) ++ (Line.binop (Operand.reg st3.countReg) "ne" rres (Operand.imm 0) ::
        Line.store (Operand.reg st3.countReg) (Operand.var "and_res" st.countName) ::
        Line.jump "and_end" st1.countLabel ::
        Line.label "and_false" st1.countLabel ::
        Line.store (Operand.imm 0) (Operand.var "and_res" st.countName) ::
        Line.jump "and_end" st1.countLabel ::
        Line.label "and_end" st1.countLabel ::
        Line.load (Operand.reg (st3.countReg + 1)) (Operand.var "and_res" st.countName) ::
        P2) := by
      simp [andEmit, List.append_assoc]
    have hx := get?_of_decomp hd
    rwa [show ((((P1 ++ [Line.alloc (Operand.var "and_res" st.countName) Ty.int]) ++ cL) ++ [Line.binop (Operand.reg st1.countReg) "ne" lres (Operand.imm 0), Line.br (Operand.reg st1.countReg) "and_true" st1.countLabel "and_false" st1.countLabel, Line.label "and_true" st1.countLabel]) ++ cR).length = P1.length + 1 + cL.length + 1 + 1 + 1 + cR.length from by
      first
      | rfl
      | (simp only [List.length_append, List.length_cons, List.length_nil]
         try omega)] at hx
  have hget_b1 : (P1 ++ (andEmit st st1 st3 cL cR lres rres ++ P2)).get? (P1.length + 1 + cL.length + 1 + 1 + 1 + cR.length + 1) = some (Line.store (Operand.reg st3.countReg) (Operand.var "and_res" st.countName)) := by
    have hd : P1 ++ (andEmit st st1 st3 cL cR lres rres ++ P2) = ((((P1 ++ [Line.alloc (Operand.var "and_res" st.countName) Ty.int]) ++ cL) ++ [Line.binop (Operand.reg st1.countReg) "ne" lres (Operand.imm 0), Line.br (Operand.reg st1.countReg) "and_true" st1.countLabel "and_false" st1.countLabel, Line.label "and_true" st1.countLabel]) ++ cR ++ [Line.binop (Operand.reg st3.countReg) "ne" rres (Operand.imm 0)]) ++ (Line.store (Operand.reg st3.countReg) (Operand.var "and_res" st.countName) ::
        Line.jump "and_end" st1.countLabel ::
        Line.label "and_false" st1.countLabel ::
        Line.store (Operand.imm 0) (Operand.var "and_res" st.countName) ::
        Line.jump "and_end" st1.countLabel ::
        Line.label "and_end" st1.countLabel ::
        Line.load (Operand.reg (st3.countReg + 1)) (Operand.var "and_res" st.countName) ::
        P2) := by
      simp [andEmit, List.append_assoc]
    have hx := get?_of_decomp hd
    rwa [show ((((P1 ++ [Line.alloc (Operand.var "and_res" st.countName) Ty.int]) ++ cL) ++ [Line.binop (Operand.reg st1.countReg) "ne" lres (Operand.imm 0), Line.br (Operand.reg st1.countReg) "and_true" st1.countLabel "and_false" st1.countLabel, Line.label "and_true" st1.countLabel]) ++ cR ++ [Line.binop (Operand.reg st3.countReg) "ne" rres (Operand.imm 0)]).length = P1.length + 1 + cL.length + 1 + 1 + 1 + cR.length + 1 from by
      first
      | rfl
      | (simp only [List.length_append, List.length_cons, List.length_nil]
         try omega)] at hx
  have hget_b2 : (P1 ++ (andEmit st st1 st3 cL cR lres rres ++ P2)).get? (P1.length + 1 + cL.length + 1 + 1 + 1 + cR.length + 1 + 1) = some (Line.jump "and_end" st1.countLabel) := by
    have hd : P1 ++ (andEmit st st1 st3 cL cR lres rres ++ P2) = ((((P1 ++ [Line.alloc (Operand.var "and_res" st.countName) Ty.int]) ++ cL) ++ [Line.binop (Operand.reg st1.countReg) "ne" lres (Operand.imm 0), Line.br (Operand.reg st1.countReg) "and_true" st1.countLabel "and_false" st1.countLabel, Line.label "and_true" st1.countLabel]) ++ cR ++ [Line.binop (Operand.reg st3.countReg) "ne" rres (Operand.imm 0), Line.store (Operand.reg st3.countReg) (Operand.var "and_res" st.countName)]) ++ (Line.jump "and_end" st1.countLabel ::
        Line.label "and_false" st1.countLabel ::
        Line.store (Operand.imm 0) (Operand.var "and_res" st.countName) ::
        Line.jump "and_end" st1.countLabel ::
        Line.label "and_end" st1.countLabel ::
        Line.load (Operand.reg (st3.countReg + 1)) (Operand.var "and_res" st.countName) ::
        P2) := by
      simp [andEmit, List.append_assoc]
    have hx := get?_of_decomp hd
    rwa [show ((((P1 ++ [Line.alloc (Operand.var "and_res" st.countName) Ty.int]) ++ cL) ++ [Line.binop (Operand.reg st1.countReg) "ne" lres (Operand.imm 0), Line.br (Operand.reg st1.countReg) "and_true" st1.countLabel "and_false" st1.countLabel, Line.label "and_true" st1.countLabel]) ++ cR ++ [Line.binop (Operand.reg st3.countReg) "ne" rres (Operand.imm 0), Line.store (Operand.reg st3.countReg) (Operand.var "and_res" st.countName)]).length = P1.length + 1 + cL.length + 1 + 1 + 1 + cR.length + 1 + 1 from by
      first
      | rfl
      | (simp only [List.length_append, List.length_cons, List.length_nil]
         try omega)] at hx
  have hget_b3 : (P1 ++ (andEmit st st1 st3 cL cR lres rres ++ P2)).get? (P1.length + 1 + cL.length + 1 + 1 + 1 + cR.length + 1 + 1 + 1) = some (Line.label "and_false" st1.countLabel) := by
    have hd : P1 ++ (andEmit st st1 st3 cL cR lres rres ++ P2) = ((((P1 ++ [Line.alloc (Operand.var "and_res" st.countName) Ty.int]) ++ cL) ++ [Line.binop (Operand.reg st1.countReg) "ne" lres (Operand.imm 0), Line.br (Operand.reg st1.countReg) "and_true" st1.countLabel "and_false" st1.countLabel, Line.label "and_true" st1.countLabel]) ++ cR ++ [Line.binop (Operand.reg st3.countReg) "ne" rres (Operand.imm 0), Line.store (Operand.reg st3.countReg) (Operand.var "and_res" st.countName), Line.jump "and_end" st1.countLabel]) ++ (Line.label "and_false" st1.countLabel ::
        Line.store (Operand.imm 0) (Operand.var "and_res" st.countName) ::
        Line.jump "and_end" st1.countLabel ::
        Line.label "and_end" st1.countLabel ::
        Line.load (Operand.reg (st3.countReg + 1)) (Operand.var "and_res" st.countName) ::
        P2) := by
      simp [andEmit, List.append_assoc]
    have hx := get?_of_decomp hd
    rwa [show ((((P1 ++ [Line.alloc (Operand.var "and_res" st.countName) Ty.int]) ++ cL) ++ [Line.binop (Operand.reg st1.countReg) "ne" lres (Operand.imm 0), Line.br (Operand.reg st1.countReg) "and_true" st1.countLabel "and_false" st1.countLabel, Line.label "and_true" st1.countLabel]) ++ cR ++ [Line.binop (Operand.reg st3.countReg) "ne" rres (Operand.imm 0), Line.store (Operand.reg st3.countReg) (Operand.var "and_res" st.countName), Line.jump "and_end" st1.countLabel]).length = P1.length + 1 + cL.length + 1 + 1 + 1 + cR.length + 1 + 1 + 1 from by
      first
      | rfl
      | (simp only [List.length_append, List.length_cons, List.length_nil]
         try omega)] at hx
  have hget_b4 : (P1 ++ (andEmit st st1 st3 cL cR lres rres ++ P2)).get? (P1.length + 1 + cL.length + 1 + 1 + 1 + cR.length + 1 + 1 + 1 + 1) = some (Line.store (Operand.imm 0) (Operand.var "and_res" st.countName)) := by
    have hd : P1 ++ (andEmit st st1 st3 cL cR lres rres ++ P2) = ((((P1 ++ [Line.alloc (Operand.var "and_res" st.countName) Ty.int]) ++ cL) ++ [Line.binop (Operand.reg st1.countReg) "ne" lres (Operand.imm 0), Line.br (Operand.reg st1.countReg) "and_true" st1.countLabel "and_false" st1.countLabel, Line.label "and_true" st1.countLabel]) ++ cR ++ [Line.binop (Operand.reg st3.countReg) "ne" rres (Operand.imm 0), Line.store (Operand.reg st3.countReg) (Operand.var "and_res" st.countName), Line.jump "and_end" st1.countLabel, Line.label "and_false" st1.countLabel]) ++ (Line.store (Operand.imm 0) (Operand.var "and_res" st.countName) ::
        Line.jump "and_end" st1.countLabel ::
        Line.label "and_end" st1.countLabel ::
        Line.load (Operand.reg (st3.countReg + 1)) (Operand.var "and_res" st.countName) ::
        P2) := by
      simp [andEmit, List.append_assoc]
    have hx := get?_of_decomp hd
    rwa [show ((((P1 ++ [Line.alloc (Operand.var "and_res" st.countName) Ty.int]) ++ cL) ++ [Line.binop (Operand.reg st1.countReg) "ne" lres (Operand.imm 0), Line.br (Operand.reg st1.countReg) "and_true" st1.countLabel "and_false" st1.countLabel, Line.label "and_true" st1.countLabel]) ++ cR ++ [Line.binop (Operand.reg st3.countReg) "ne" rres (Operand.imm 0), Line.store (Operand.reg st3.countReg) (Operand.var "and_res" st.countName), Line.jump "and_end" st1.countLabel, Line.label "and_false" st1.countLabel]).length = P1.length + 1 + cL.length + 1 + 1 + 1 + cR.length + 1 + 1 + 1 + 1 from by
      first
      | rfl
      | (simp only [List.length_append, List.length_cons, List.length_nil]
         try omega)] at hx
  have hget_b5 : (P1 ++ (andEmit st st1 st3 cL cR lres rres ++ P2)).get? (P1.length + 1 + cL.length + 1 + 1 + 1 + cR.length + 1 + 1 + 1 + 1 + 1) = some (Line.jump "and_end" st1.countLabel) := by
    have hd : P1 ++ (andEmit st st1 st3 cL cR lres rres ++ P2) = ((((P1 ++ [Line.alloc (Operand.var "and_res" st.countName) Ty.int]) ++ cL) ++ [Line.binop (Operand.reg st1.countReg) "ne" lres (Operand.imm 0), Line.br (Operand.reg st1.countReg) "and_true" st1.countLabel "and_false" st1.countLabel, Line.label "and_true" st1.countLabel]) ++ cR ++ [Line.binop (Operand.reg st3.countReg) "ne" rres (Operand.imm 0), Line.store (Operand.reg st3.countReg) (Operand.var "and_res" st.countName), Line.jump "and_end" st1.countLabel, Line.label "and_false" st1.countLabel, Line.store (Operand.imm 0) (Operand.var "and_res" st.countName)]) ++ (Line.jump "and_end" st1.countLabel ::
        Line.label "and_end" st1.countLabel ::
        Line.load (Operand.reg (st3.countReg + 1)) (Operand.var "and_res" st.countName) ::
        P2) := by
      simp [andEmit, List.append_assoc]
    have hx := get?_of_decomp hd
    rwa [show ((((P1 ++ [Line.alloc (Operand.var "and_res" st.countName) Ty.int]) ++ cL) ++ [Line.binop (Operand.reg st1.countReg) "ne" lres (Operand.imm 0), Line.br (Operand.reg st1.countReg) "and_true" st1.countLabel "and_false" st1.countLabel, Line.label "and_true" st1.countLabel]) ++ cR ++ [Line.binop (Operand.reg st3.countReg) "ne" rres (Operand.imm 0), Line.store (Operand.reg st3.countReg) (Operand.var "and_res" st.countName), Line.jump "and_end" st1.countLabel, Line.label "and_false" st1.countLabel, Line.store (Operand.imm 0) (Operand.var "and_res" st.countName)]).length = P1.length + 1 + cL.length + 1 + 1 + 1 + cR.length + 1 + 1 + 1 + 1 + 1 from by
      first
      | rfl
      | (simp only [List.length_append, List.length_cons, List.length_nil]
         try omega)] at hx
  have hget_b6 : (P1 ++ (andEmit st st1 st3 cL cR lres rres ++ P2)).get? (P1.length + 1 + cL.length + 1 + 1 + 1 + cR.length + 1 + 1 + 1 + 1 + 1 + 1) = some (Line.label "and_end" st1.countLabel) := by
    have hd : P1 ++ (andEmit st st1 st3 cL cR lres rres ++ P2) = ((((P1 ++ [Line.alloc (Operand.var "and_res" st.countName) Ty.int]) ++ cL) ++ [Line.binop (Operand.reg st1.countReg) "ne" lres (Operand.imm 0), Line.br (Operand.reg st1.countReg) "and_true" st1.countLabel "and_false" st1.countLabel, Line.label "and_true" st1.countLabel]) ++ cR ++ [Line.binop (Operand.reg st3.countReg) "ne" rres (Operand.imm 0), Line.store (Operand.reg st3.countReg) (Operand.var "and_res" st.countName), Line.jump "and_end" st1.countLabel, Line.label "and_false" st1.countLabel, Line.store (Operand.imm 0) (Operand.var "and_res" st.countName), Line.jump "and_end" st1.countLabel]) ++ (Line.label "and_end" st1.countLabel ::
        Line.load (Operand.reg (st3.countReg + 1)) (Operand.var "and_res" st.countName) ::
        P2) := by
      simp [andEmit, List.append_assoc]
    have hx := get?_of_decomp hd
    rwa [show ((((P1 ++ [Line.alloc (Operand.var "and_res" st.countName) Ty.int]) ++ cL) ++ [Line.binop (Operand.reg st1.countReg) "ne" lres (Operand.imm 0), Line.br (Operand.reg st1.countReg) "and_true" st1.countLabel "and_false" st1.countLabel, Line.label "and_true" st1.countLabel]) ++ cR ++ [Line.binop (Operand.reg st3.countReg) "ne" rres (Operand.imm 0), Line.store (Operand.reg st3.countReg) (Operand.var "and_res" st.countName), Line.jump "and_end" st1.countLabel, Line.label "and_false" st1.countLabel, Line.store (Operand.imm 0) (Operand.var "and_res" st.countName), Line.jump "and_end" st1.countLabel]).length = P1.length + 1 + cL.length + 1 + 1 + 1 + cR.length + 1 + 1 + 1 + 1 + 1 + 1 from by
      first
      | rfl
      | (simp only [List.length_append, List.length_cons, List.length_nil]
         try omega)] at hx
  have hget_b7 : (P1 ++ (andEmit st st1 st3 cL cR lres rres ++ P2)).get? (P1.length + 1 + cL.length + 1 + 1 + 1 + cR.length + 1 + 1 + 1 + 1 + 1 + 1 + 1) = some (Line.load (Operand.reg (st3.countReg + 1)) (Operand.var "and_res" st.countName)) := by
    have hd : P1 ++ (andEmit st st1 st3 cL cR lres rres ++ P2) = ((((P1 ++ [Line.alloc (Operand.var "and_res" st.countName) Ty.int]) ++ cL) ++ [Line.binop (Operand.reg st1.countReg) "ne" lres (Operand.imm 0), Line.br (Operand.reg st1.countReg) "and_true" st1.countLabel "and_false" st1.countLabel, Line.label "and_true" st1.countLabel]) ++ cR ++ [Line.binop (Operand.reg st3.countReg) "ne" rres (Operand.imm 0), Line.store (Operand.reg st3.countReg) (Operand.var "and_res" st.countName), Line.jump "and_end" st1.countLabel, Line.label "and_false" st1.countLabel, Line.store (Operand.imm 0) (Operand.var "and_res" st.countName), Line.jump "and_end" st1.countLabel, Line.label "and_end" st1.countLabel]) ++ (Line.load (Operand.reg (st3.countReg + 1)) (Operand.var "and_res" st.countName) ::
        P2) := by
      simp [andEmit, List.append_assoc]
    have hx := get?_of_decomp hd
    rwa [show ((((P1 ++ [Line.alloc (Operand.var "and_res" st.countName) Ty.int]) ++ cL) ++ [Line.binop (Operand.reg st1.countReg) "ne" lres (Operand.imm 0), Line.br (Operand.reg st1.countReg) "and_true" st1.countLabel "and_false" st1.countLabel, Line.label "and_true" st1.countLabel]) ++ cR ++ [Line.binop (Operand.reg st3.countReg) "ne" rres (Operand.imm 0), Line.store (Operand.reg st3.countReg) (Operand.var "and_res" st.countName), Line.jump "and_end" st1.countLabel, Line.label "and_false" st1.countLabel, Line.store (Operand.imm 0) (Operand.var "and_res" st.countName), Line.jump "and_end" st1.countLabel, Line.label "and_end" st1.countLabel]).length = P1.length + 1 + cL.length + 1 + 1 + 1 + cR.length + 1 + 1 + 1 + 1 + 1 + 1 + 1 from by
      first
      | rfl
      | (simp only [List.length_append, List.length_cons, List.length_nil]
         try omega)] at hx
  by_cases hlv0 : lv = 0
  · have hne1 : evalMn "ne" lv 0 = some 0 := by
      simp [evalMn, hlv0]
    have hbrval : (m2.setReg st1.countReg 0).evalOpnd (Operand.reg st1.countReg) = some 0 := by
      rw [Mach.evalOpnd, Mach.regs_setReg_self]
    refine ⟨_, _, stepN_trans (stepN_one hstep0) (stepN_trans hrun1 (stepN_trans
      (stepN_one (step_at_binop hget_ne hval1 rfl hne1))
      (stepN_trans (stepN_one (step_at_br_false hget_br hbrval hlab_f))
      (stepN_trans (stepN_one (step_at_label hget_b3))
      (stepN_trans (stepN_one (step_at_store hget_b4 rfl))
      (stepN_trans (stepN_one (step_at_jump hget_b5 hlab_e))
      (stepN_trans (stepN_one (step_at_label hget_b6))
      (stepN_one (step_at_load hget_b7 Mach.mem_setMem_self))))))))), ?_, ?_, ?_, ?_, ?_⟩
    · rw [Mach.evalOpnd, Mach.regs_setReg_self]
      simp [hlv0]
    · intro k hk
      rw [Mach.regs_setReg_ne (by omega), Mach.regs_setMem,
        Mach.regs_setReg_ne (by omega), hpres1 k hk, Mach.regs_setMem]
    · exact regsBelow_setReg (regsBelow_setMem (regsBelow_setReg (regsBelow_mono hrbL (by omega))
        (by omega))) (by omega)
    · intro id j hj
      have hne_cell : ¬ (id = "and_res" ∧ j = st.countName) :=
        fun hc => absurd hc.2 (by omega)
      rw [Mach.mem_setReg, Mach.mem_setMem_ne hne_cell, Mach.mem_setReg,
        hmpres1 id j (by omega), Mach.mem_setMem_ne hne_cell]
    · exact memBelow_setReg (memBelow_setMem (memBelow_mono (memBelow_setReg hmbL) (by omega))
        (by omega))
  · have hne1 : evalMn "ne" lv 0 = some 1 := by
      simp [evalMn, hlv0]
    have hbrval : (m2.setReg st1.countReg 1).evalOpnd (Operand.reg st1.countReg) = some 1 := by
      rw [Mach.evalOpnd, Mach.regs_setReg_self]
    have hfreshR : LabelsOutside ((((P1 ++ [Line.alloc (Operand.var "and_res" st.countName) Ty.int]) ++ cL) ++
        [Line.binop (Operand.reg st1.countReg) "ne" lres (Operand.imm 0),
         Line.br (Operand.reg st1.countReg) "and_true" st1.countLabel "and_false" st1.countLabel,
         Line.label "and_true" st1.countLabel]) ++
        (Line.binop (Operand.reg st3.countReg) "ne" rres (Operand.imm 0) ::
         Line.store (Operand.reg st3.countReg) (Operand.var "and_res" st.countName) ::
         Line.jump "and_end" st1.countLabel ::
         Line.label "and_false" st1.countLabel ::
         Line.store (Operand.imm 0) (Operand.var "and_res" st.countName) ::
         Line.jump "and_end" st1.countLabel ::
         Line.label "and_end" st1.countLabel ::
         Line.load (Operand.reg (st3.countReg + 1)) (Operand.var "and_res" st.countName) ::
         P2)) (st1.countLabel + 1) st3.countLabel := by
      intro s i hm
      rcases List.mem_append.1 hm with hm | hm
      · rcases List.mem_append.1 hm with hm | hm
        · rcases List.mem_append.1 hm with hm | hm
          · rcases List.mem_append.1 hm with hm | hm
            · have := hfresh s i (List.mem_append_left _ hm)
              omega
            · simp at hm
          · have := labL s i hm
            omega
        · simp only [List.mem_cons, List.not_mem_nil, or_false] at hm
          rcases hm with hm | hm | hm
          · cases hm
          · cases hm
          · rw [Line.label.injEq] at hm
            obtain ⟨hs, hi⟩ := hm
            omega
      · simp only [List.mem_cons] at hm
        rcases hm with hm | hm | hm | hm | hm | hm | hm | hm | hm
        · cases hm
        · cases hm
        · cases hm
        · rw [Line.label.injEq] at hm
          obtain ⟨hs, hi⟩ := hm
          omega
        · cases hm
        · cases hm
        · rw [Line.label.injEq] at hm
          obtain ⟨hs, hi⟩ := hm
          omega
        · cases hm
        · have := hfresh s i (List.mem_append_right _ hm)
          omega
    obtain ⟨n2, m4, hrun2, hval2, hpres2, hrb2, hmpres2, hmb2⟩ :=
      ihr fuel rv ⟨st1.countReg + 1, st1.countName, st1.countLabel + 1⟩ st3 cR rres hrv h2
        (((P1 ++ [Line.alloc (Operand.var "and_res" st.countName) Ty.int]) ++ cL) ++
          [Line.binop (Operand.reg st1.countReg) "ne" lres (Operand.imm 0),
           Line.br (Operand.reg st1.countReg) "and_true" st1.countLabel "and_false" st1.countLabel,
           Line.label "and_true" st1.countLabel])
        (Line.binop (Operand.reg st3.countReg) "ne" rres (Operand.imm 0) ::
         Line.store (Operand.reg st3.countReg) (Operand.var "and_res" st.countName) ::
         Line.jump "and_end" st1.countLabel ::
         Line.label "and_false" st1.countLabel ::
         Line.store (Operand.imm 0) (Operand.var "and_res" st.countName) ::
         Line.jump "and_end" st1.countLabel ::
         Line.label "and_end" st1.countLabel ::
         Line.load (Operand.reg (st3.countReg + 1)) (Operand.var "and_res" st.countName) ::
         P2)
        (m2.setReg st1.countReg 1)
        hfreshR
        (regsBelow_setReg (regsBelow_mono hrbL (Nat.le_succ _)) (Nat.lt_succ_self _))
        (memBelow_setReg hmbL)
    dsimp only at hval2 hpres2 hrb2 hmpres2 hmb2
    rw [show (((P1 ++ [Line.alloc (Operand.var "and_res" st.countName) Ty.int]) ++ cL) ++
          [Line.binop (Operand.reg st1.countReg) "ne" lres (Operand.imm 0),
           Line.br (Operand.reg st1.countReg) "and_true" st1.countLabel "and_false" st1.countLabel,
           Line.label "and_true" st1.countLabel]) ++
          (cR ++ (Line.binop (Operand.reg st3.countReg) "ne" rres (Operand.imm 0) ::
           Line.store (Operand.reg st3.countReg) (Operand.var "and_res" st.countName) ::
           Line.jump "and_end" st1.countLabel ::
           Line.label "and_false" st1.countLabel ::
           Line.store (Operand.imm 0) (Operand.var "and_res" st.countName) ::
           Line.jump "and_end" st1.countLabel ::
           Line.label "and_end" st1.countLabel ::
           Line.load (Operand.reg (st3.countReg + 1)) (Operand.var "and_res" st.countName) ::
           P2)) = P1 ++ (andEmit st st1 st3 cL cR lres rres ++ P2) from by
        simp [andEmit, List.append_assoc]] at hrun2
    rw [show (((P1 ++ [Line.alloc (Operand.var "and_res" st.countName) Ty.int]) ++ cL) ++
          [Line.binop (Operand.reg st1.countReg) "ne" lres (Operand.imm 0),
           Line.br (Operand.reg st1.countReg) "and_true" st1.countLabel "and_false" st1.countLabel,
           Line.label "and_true" st1.countLabel]).length = P1.length + 1 + cL.length + 1 + 1 + 1 from by
        simp only [List.length_append, List.length_cons, List.length_nil]
        try omega] at hrun2
    have hne2 : evalMn "ne" rv 0 = some (if rv ≠ 0 then (1:Int) else 0) := by
      simp [evalMn]
    have hb1v : (m4.setReg st3.countReg (if rv ≠ 0 then (1:Int) else 0)).evalOpnd
        (Operand.reg st3.countReg) = some (if rv ≠ 0 then (1:Int) else 0) := by
      rw [Mach.evalOpnd, Mach.regs_setReg_self]
    refine ⟨_, _, stepN_trans (stepN_one hstep0) (stepN_trans hrun1 (stepN_trans
      (stepN_one (step_at_binop hget_ne hval1 rfl hne1))
      (stepN_trans (stepN_one (step_at_br_true hget_br hbrval (by decide) hlab_t))
      (stepN_trans (stepN_one (step_at_label hget_lt))
      (stepN_trans hrun2
      (stepN_trans (stepN_one (step_at_binop hget_b0 hval2 rfl hne2))
      (stepN_trans (stepN_one (step_at_store hget_b1 hb1v))
      (stepN_trans (stepN_one (step_at_jump hget_b2 hlab_e))
      (stepN_trans (stepN_one (step_at_label hget_b6))
      (stepN_one (step_at_load hget_b7 Mach.mem_setMem_self))))))))))),
      ?_, ?_, ?_, ?_, ?_⟩
    · rw [Mach.evalOpnd, Mach.regs_setReg_self]
      simp [hlv0]
    · intro k hk
      rw [Mach.regs_setReg_ne (by omega), Mach.regs_setMem,
        Mach.regs_setReg_ne (by omega), hpres2 k (by omega),
        Mach.regs_setReg_ne (by omega), hpres1 k hk, Mach.regs_setMem]
    · exact regsBelow_setReg (regsBelow_setMem (regsBelow_setReg (regsBelow_mono hrb2 (by omega))
        (by omega))) (by omega)
    · intro id j hj
      have hne_cell : ¬ (id = "and_res" ∧ j = st.countName) :=
        fun hc => absurd hc.2 (by omega)
      rw [Mach.mem_setReg, Mach.mem_setMem_ne hne_cell, Mach.mem_setReg,
        hmpres2 id j (by omega), Mach.mem_setReg, hmpres1 id j (by omega),
        Mach.mem_setMem_ne hne_cell]
    · exact memBelow_setReg (memBelow_setMem (memBelow_setReg hmb2) (by omega))


/-- Running the `||` diamond (codegen.cpp:902-937): the left operand's code
runs first; when its value is non-zero control passes through the true
branch, which stores `1` — no line of the right operand's code executes;
when the left value is zero control passes through the false branch, which
runs the right operand's code and stores its normalised boolean. Either way
control reaches the join label and loads the scratch cell. -/
theorem runs_or_glue {G : Env} {l r : Expr} {fuel : Nat}
    {st st1 st3 : BuildSt} {cL cR : List Line} {lres rres : Operand} {lv rv : Int}
    (ihl : RunsOk G l) (ihr : RunsOk G r)
    (hlv : CalcValue G l = .ok lv) (hrv : CalcValue G r = .ok rv)
    (h1 : codeGen G fuel l ⟨st.countReg, st.countName + 1, st.countLabel⟩ = .ok (st1, cL, lres))
    (h2 : codeGen G fuel r ⟨st1.countReg + 1, st1.countName, st1.countLabel + 1⟩
            = .ok (st3, cR, rres)) :
    ∀ (P1 P2 : List Line) (m : Mach),
      LabelsOutside (P1 ++ P2) st.countLabel st3.countLabel →
      RegsBelow m st.countReg → MemBelow m st.countName →
      ∃ n m',
        stepN (P1 ++ (orEmit st st1 st3 cL cR lres rres ++ P2)) n P1.length m
          = some (P1.length + (orEmit st st1 st3 cL cR lres rres).length, m') ∧
        m'.evalOpnd (.reg (st3.countReg + 1)) = some (if lv ≠ 0 ∨ rv ≠ 0 then 1 else 0) ∧
        (∀ k, k < st.countReg → m'.regs k = m.regs k) ∧
        RegsBelow m' (st3.countReg + 2) ∧
        (∀ id j, j < st.countName → m'.mem id j = m.mem id j) ∧
        MemBelow m' st3.countName := by
  intro P1 P2 m hfresh hreg hmem
  obtain ⟨⟨lr1, ln1, ll1⟩, labL⟩ := codeGen_emitSpec fuel l _ st1 cL lres h1
  obtain ⟨⟨lr2, ln2, ll2⟩, labR⟩ := codeGen_emitSpec fuel r _ st3 cR rres h2
  dsimp only at lr1 ln1 ll1 lr2 ln2 ll2 labL labR
  have hlenF : P1.length + (orEmit st st1 st3 cL cR lres rres).length =
      P1.length + 1 + cL.length + 1 + 1 + 1 + 1 + 1 + 1 + cR.length + 1 + 1 + 1 + 1 + 1 := by
    simp only [orEmit, List.length_append, List.length_cons, List.length_nil,
      List.singleton_append]
    omega
  rw [hlenF]
  have hget0 : (P1 ++ (orEmit st st1 st3 cL cR lres rres ++ P2)).get? (P1.length) = some (Line.alloc (Operand.var "or_res" st.countName) Ty.int) := by
    have hd : P1 ++ (orEmit st st1 st3 cL cR lres rres ++ P2) = (P1) ++ (Line.alloc (Operand.var "or_res" st.countName) Ty.int ::
        (cL ++ (Line.binop (Operand.reg st1.countReg) "ne" lres (Operand.imm 0) ::
        Line.br (Operand.reg st1.countReg) "or_true" st1.countLabel "or_false" st1.countLabel ::
        Line.label "or_true" st1.countLabel ::
        Line.store (Operand.imm 1) (Operand.var "or_res" st.countName) ::
        Line.jump "or_end" st1.countLabel ::
        Line.label "or_false" st1.countLabel ::
        (cR ++ (Line.binop (Operand.reg st3.countReg) "ne" rres (Operand.imm 0) ::
        Line.store (Operand.reg st3.countReg) (Operand.var "or_res" st.countName) ::
        Line.jump "or_end" st1.countLabel ::
        Line.label "or_end" st1.countLabel ::
        Line.load (Operand.reg (st3.countReg + 1)) (Operand.var "or_res" st.countName) ::
        P2))))) := by
      simp [orEmit, List.append_assoc]
    have hx := get?_of_decomp hd
    rwa [show (P1).length = P1.length from by
      first
      | rfl
      | (simp only [List.length_append, List.length_cons, List.length_nil]
         try omega)] at hx
  have hstep0 : step (P1 ++ (orEmit st st1 st3 cL cR lres rres ++ P2)) P1.length m =
      some (P1.length + 1, m.setMem "or_res" st.countName 0) :=
    step_at_alloc hget0
  have hfreshL : LabelsOutside ((P1 ++ [Line.alloc (Operand.var "or_res" st.countName) Ty.int]) ++ (Line.binop (Operand.reg st1.countReg) "ne" lres (Operand.imm 0) ::
        Line.br (Operand.reg st1.countReg) "or_true" st1.countLabel "or_false" st1.countLabel ::
        Line.label "or_true" st1.countLabel ::
        Line.store (Operand.imm 1) (Operand.var "or_res" st.countName) ::
        Line.jump "or_end" st1.countLabel ::
        Line.label "or_false" st1.countLabel ::
        (cR ++ (Line.binop (Operand.reg st3.countReg) "ne" rres (Operand.imm 0) ::
        Line.store (Operand.reg st3.countReg) (Operand.var "or_res" st.countName) ::
        Line.jump "or_end" st1.countLabel ::
        Line.label "or_end" st1.countLabel ::
        Line.load (Operand.reg (st3.countReg + 1)) (Operand.var "or_res" st.countName) ::
        P2)))) st.countLabel st1.countLabel := by
    intro s i hm
    rcases List.mem_append.1 hm with hm | hm
    · rcases List.mem_append.1 hm with hm | hm
      · have := hfresh s i (List.mem_append_left _ hm)
        omega
      · simp at hm
    · rcases List.mem_cons.1 hm with hm | hm
      · cases hm
      · rcases List.mem_cons.1 hm with hm | hm
        · cases hm
        · rcases List.mem_cons.1 hm with hm | hm
          · rw [Line.label.injEq] at hm
            obtain ⟨hs, hi⟩ := hm
            omega
          · rcases List.mem_cons.1 hm with hm | hm
            · cases hm
            · rcases List.mem_cons.1 hm with hm | hm
              · cases hm
              · rcases List.mem_cons.1 hm with hm | hm
                · rw [Line.label.injEq] at hm
                  obtain ⟨hs, hi⟩ := hm
                  omega
                · rcases List.mem_append.1 hm with hm | hm
                  · have := labR s i hm
                    omega
                  · simp only [List.mem_cons] at hm
                    rcases hm with hm | hm | hm | hm | hm | hm
                    · cases hm
                    · cases hm
                    · cases hm
                    · rw [Line.label.injEq] at hm
                      obtain ⟨hs, hi⟩ := hm
                      omega
                    · cases hm
                    · have := hfresh s i (List.mem_append_right _ hm)
                      omega
  obtain ⟨n1, m2, hrun1, hval1, hpres1, hrbL, hmpres1, hmbL⟩ :=
    ihl fuel lv ⟨st.countReg, st.countName + 1, st.countLabel⟩ st1 cL lres hlv h1
      (P1 ++ [Line.alloc (Operand.var "or_res" st.countName) Ty.int])
      (Line.binop (Operand.reg st1.countReg) "ne" lres (Operand.imm 0) ::
        Line.br (Operand.reg st1.countReg) "or_true" st1.countLabel "or_false" st1.countLabel ::
        Line.label "or_true" st1.countLabel ::
        Line.store (Operand.imm 1) (Operand.var "or_res" st.countName) ::
        Line.jump "or_end" st1.countLabel ::
        Line.label "or_false" st1.countLabel ::
        (cR ++ (Line.binop (Operand.reg st3.countReg) "ne" rres (Operand.imm 0) ::
        Line.store (Operand.reg st3.countReg) (Operand.var "or_res" st.countName) ::
        Line.jump "or_end" st1.countLabel ::
        Line.label "or_end" st1.countLabel ::
        Line.load (Operand.reg (st3.countReg + 1)) (Operand.var "or_res" st.countName) ::
        P2)))
      (m.setMem "or_res" st.countName 0)
      hfreshL
      (regsBelow_setMem hreg)
      (memBelow_setMem (memBelow_mono hmem (Nat.le_succ _)) (Nat.lt_succ_self _))
  rw [show (P1 ++ [Line.alloc (Operand.var "or_res" st.countName) Ty.int]) ++ (cL ++ (Line.binop (Operand.reg st1.countReg) "ne" lres (Operand.imm 0) ::
        Line.br (Operand.reg st1.countReg) "or_true" st1.countLabel "or_false" st1.countLabel ::
        Line.label "or_true" st1.countLabel ::
        Line.store (Operand.imm 1) (Operand.var "or_res" st.countName) ::
        Line.jump "or_end" st1.countLabel ::
        Line.label "or_false" st1.countLabel ::
        (cR ++ (Line.binop (Operand.reg st3.countReg) "ne" rres (Operand.imm 0) ::
        Line.store (Operand.reg st3.countReg) (Operand.var "or_res" st.countName) ::
        Line.jump "or_end" st1.countLabel ::
        Line.label "or_end" st1.countLabel ::
        Line.load (Operand.reg (st3.countReg + 1)) (Operand.var "or_res" st.countName) ::
        P2)))) = P1 ++ (orEmit st st1 st3 cL cR lres rres ++ P2) from by
      simp [orEmit, List.append_assoc]] at hrun1
  rw [show (P1 ++ [Line.alloc (Operand.var "or_res" st.countName) Ty.int]).length = P1.length + 1 from by simp] at hrun1
  dsimp only at hval1 hpres1 hrbL hmpres1 hmbL
  have hget_ne : (P1 ++ (orEmit st st1 st3 cL cR lres rres ++ P2)).get? (P1.length + 1 + cL.length) = some (Line.binop (Operand.reg st1.countReg) "ne" lres (Operand.imm 0)) := by
    have hd : P1 ++ (orEmit st st1 st3 cL cR lres rres ++ P2) = (((P1 ++ [Line.alloc (Operand.var "or_res" st.countName) Ty.int]) ++ cL)) ++ (Line.binop (Operand.reg st1.countReg) "ne" lres (Operand.imm 0) ::
        Line.br (Operand.reg st1.countReg) "or_true" st1.countLabel "or_false" st1.countLabel ::
        Line.label "or_true" st1.countLabel ::
        Line.store (Operand.imm 1) (Operand.var "or_res" st.countName) ::
        Line.jump "or_end" st1.countLabel ::
        Line.label "or_false" st1.countLabel ::
        (cR ++ (Line.binop (Operand.reg st3.countReg) "ne" rres (Operand.imm 0) ::
        Line.store (Operand.reg st3.countReg) (Operand.var "or_res" st.countName) ::
        Line.jump "or_end" st1.countLabel ::
        Line.label "or_end" st1.countLabel ::
        Line.load (Operand.reg (st3.countReg + 1)) (Operand.var "or_res" st.countName) ::
        P2))) := by
      simp [orEmit, List.append_assoc]
    have hx := get?_of_decomp hd
    rwa [show (((P1 ++ [Line.alloc (Operand.var "or_res" st.countName) Ty.int]) ++ cL)).length = P1.length + 1 + cL.length from by
      first
      | rfl
      | (simp only [List.length_append, List.length_cons, List.length_nil]
         try omega)] at hx
  have hget_br : (P1 ++ (orEmit st st1 st3 cL cR lres rres ++ P2)).get? (P1.length + 1 + cL.length + 1) = some (Line.br (Operand.reg st1.countReg) "or_true" st1.countLabel "or_false" st1.countLabel) := by
    have hd : P1 ++ (orEmit st st1 st3 cL cR lres rres ++ P2) = ((((P1 ++ [Line.alloc (Operand.var "or_res" st.countName) Ty.int]) ++ cL) ++ [Line.binop (Operand.reg st1.countReg) "ne" lres (Operand.imm 0)])) ++ (Line.br (Operand.reg st1.countReg) "or_true" st1.countLabel "or_false" st1.countLabel ::
        Line.label "or_true" st1.countLabel ::
        Line.store (Operand.imm 1) (Operand.var "or_res" st.countName) ::
        Line.jump "or_end" st1.countLabel ::
        Line.label "or_false" st1.countLabel ::
        (cR ++ (Line.binop (Operand.reg st3.countReg) "ne" rres (Operand.imm 0) ::
        Line.store (Operand.reg st3.countReg) (Operand.var "or_res" st.countName) ::
        Line.jump "or_end" st1.countLabel ::
        Line.label "or_end" st1.countLabel ::
        Line.load (Operand.reg (st3.countReg + 1)) (Operand.var "or_res" st.countName) ::
        P2))) := by
      simp [orEmit, List.append_assoc]
    have hx := get?_of_decomp hd
    rwa [show ((((P1 ++ [Line.alloc (Operand.var "or_res" st.countName) Ty.int]) ++ cL) ++ [Line.binop (Operand.reg st1.countReg) "ne" lres (Operand.imm 0)])).length = P1.length + 1 + cL.length + 1 from by
      first
      | rfl
      | (simp only [List.length_append, List.length_cons, List.length_nil]
         try omega)] at hx
  have hlab_t : labelPos "or_true" st1.countLabel (P1 ++ (orEmit st st1 st3 cL cR lres rres ++ P2)) = some (P1.length + 1 + cL.length + 1 + 1) := by
    have hd : P1 ++ (orEmit st st1 st3 cL cR lres rres ++ P2) = ((((P1 ++ [Line.alloc (Operand.var "or_res" st.countName) Ty.int]) ++ cL) ++ [Line.binop (Operand.reg st1.countReg) "ne" lres (Operand.imm 0), Line.br (Operand.reg st1.countReg) "or_true" st1.countLabel "or_false" st1.countLabel])) ++ (Line.label "or_true" st1.countLabel ::
        Line.store (Operand.imm 1) (Operand.var "or_res" st.countName) ::
        Line.jump "or_end" st1.countLabel ::
        Line.label "or_false" st1.countLabel ::
        (cR ++ (Line.binop (Operand.reg st3.countReg) "ne" rres (Operand.imm 0) ::
        Line.store (Operand.reg st3.countReg) (Operand.var "or_res" st.countName) ::
        Line.jump "or_end" st1.countLabel ::
        Line.label "or_end" st1.countLabel ::
        Line.load (Operand.reg (st3.countReg + 1)) (Operand.var "or_res" st.countName) ::
        P2))) := by
      simp [orEmit, List.append_assoc]
    have hx := labelPos_of_decomp hd (by
      refine notMem_append (notMem_append (notMem_append ?_ ?_) ?_) ?_
      · exact fun hm => by have := hfresh _ _ (List.mem_append_left _ hm); omega
      · simp
      · exact fun hm => by have := labL _ _ hm; omega
      · simp)
    rwa [show ((((P1 ++ [Line.alloc (Operand.var "or_res" st.countName) Ty.int]) ++ cL) ++ [Line.binop (Operand.reg st1.countReg) "ne" lres (Operand.imm 0), Line.br (Operand.reg st1.countReg) "or_true" st1.countLabel "or_false" st1.countLabel])).length = P1.length + 1 + cL.length + 1 + 1 from by
      first
      | rfl
      | (simp only [List.length_append, List.length_cons, List.length_nil]
         try omega)] at hx
  have hget_lt : (P1 ++ (orEmit st st1 st3 cL cR lres rres ++ P2)).get? (P1.length + 1 + cL.length + 1 + 1) = some (Line.label "or_true" st1.countLabel) := by
    have hd : P1 ++ (orEmit st st1 st3 cL cR lres rres ++ P2) = ((((P1 ++ [Line.alloc (Operand.var "or_res" st.countName) Ty.int]) ++ cL) ++ [Line.binop (Operand.reg st1.countReg) "ne" lres (Operand.imm 0), Line.br (Operand.reg st1.countReg) "or_true" st1.countLabel "or_false" st1.countLabel])) ++ (Line.label "or_true" st1.countLabel ::
        Line.store (Operand.imm 1) (Operand.var "or_res" st.countName) ::
        Line.jump "or_end" st1.countLabel ::
        Line.label "or_false" st1.countLabel ::
        (cR ++ (Line.binop (Operand.reg st3.countReg) "ne" rres (Operand.imm 0) ::
        Line.store (Operand.reg st3.countReg) (Operand.var "or_res" st.countName) ::
        Line.jump "or_end" st1.countLabel ::
        Line.label "or_end" st1.countLabel ::
        Line.load (Operand.reg (st3.countReg + 1)) (Operand.var "or_res" st.countName) ::
        P2))) := by
      simp [orEmit, List.append_assoc]
    have hx := get?_of_decomp hd
    rwa [show ((((P1 ++ [Line.alloc (Operand.var "or_res" st.countName) Ty.int]) ++ cL) ++ [Line.binop (Operand.reg st1.countReg) "ne" lres (Operand.imm 0), Line.br (Operand.reg st1.countReg) "or_true" st1.countLabel "or_false" st1.countLabel])).length = P1.length + 1 + cL.length + 1 + 1 from by
      first
      | rfl
      | (simp only [List.length_append, List.length_cons, List.length_nil]
         try omega)] at hx
  have hget_a4 : (P1 ++ (orEmit st st1 st3 cL cR lres rres ++ P2)).get? (P1.length + 1 + cL.length + 1 + 1 + 1) = some (Line.store (Operand.imm 1) (Operand.var "or_res" st.countName)) := by
    have hd : P1 ++ (orEmit st st1 st3 cL cR lres rres ++ P2) = ((((P1 ++ [Line.alloc (Operand.var "or_res" st.countName) Ty.int]) ++ cL) ++ [Line.binop (Operand.reg st1.countReg) "ne" lres (Operand.imm 0), Line.br (Operand.reg st1.countReg) "or_true" st1.countLabel "or_false" st1.countLabel, Line.label "or_true" st1.countLabel])) ++ (Line.store (Operand.imm 1) (Operand.var "or_res" st.countName) ::
        Line.jump "or_end" st1.countLabel ::
        Line.label "or_false" st1.countLabel ::
        (cR ++ (Line.binop (Operand.reg st3.countReg) "ne" rres (Operand.imm 0) ::
        Line.store (Operand.reg st3.countReg) (Operand.var "or_res" st.countName) ::
        Line.jump "or_end" st1.countLabel ::
        Line.label "or_end" st1.countLabel ::
        Line.load (Operand.reg (st3.countReg + 1)) (Operand.var "or_res" st.countName) ::
        P2))) := by
      simp [orEmit, List.append_assoc]
    have hx := get?_of_decomp hd
    rwa [show ((((P1 ++ [Line.alloc (Operand.var "or_res" st.countName) Ty.int]) ++ cL) ++ [Line.binop (Operand.reg st1.countReg) "ne" lres (Operand.imm 0), Line.br (Operand.reg st1.countReg) "or_true" st1.countLabel "or_false" st1.countLabel, Line.label "or_true" st1.countLabel])).length = P1.length + 1 + cL.length + 1 + 1 + 1 from by
      first
      | rfl
      | (simp only [List.length_append, List.length_cons, List.length_nil]
         try omega)] at hx
  have hget_a5 : (P1 ++ (orEmit st st1 st3 cL cR lres rres ++ P2)).get? (P1.length + 1 + cL.length + 1 + 1 + 1 + 1) = some (Line.jump "or_end" st1.countLabel) := by
    have hd : P1 ++ (orEmit st st1 st3 cL cR lres rres ++ P2) = ((((P1 ++ [Line.alloc (Operand.var "or_res" st.countName) Ty.int]) ++ cL) ++ [Line.binop (Operand.reg st1.countReg) "ne" lres (Operand.imm 0), Line.br (Operand.reg st1.countReg) "or_true" st1.countLabel "or_false" st1.countLabel, Line.label "or_true" st1.countLabel, Line.store (Operand.imm 1) (Operand.var "or_res" st.countName)])) ++ (Line.jump "or_end" st1.countLabel ::
        Line.label "or_false" st1.countLabel ::
        (cR ++ (Line.binop (Operand.reg st3.countReg) "ne" rres (Operand.imm 0) ::
        Line.store (Operand.reg st3.countReg) (Operand.var "or_res" st.countName) ::
        Line.jump "or_end" st1.countLabel ::
        Line.label "or_end" st1.countLabel ::
        Line.load (Operand.reg (st3.countReg + 1)) (Operand.var "or_res" st.countName) ::
        P2))) := by
      simp [orEmit, List.append_assoc]
    have hx := get?_of_decomp hd
    rwa [show ((((P1 ++ [Line.alloc (Operand.var "or_res" st.countName) Ty.int]) ++ cL) ++ [Line.binop (Operand.reg st1.countReg) "ne" lres (Operand.imm 0), Line.br (Operand.reg st1.countReg) "or_true" st1.countLabel "or_false" st1.countLabel, Line.label "or_true" st1.countLabel, Line.store (Operand.imm 1) (Operand.var "or_res" st.countName)])).length = P1.length + 1 + cL.length + 1 + 1 + 1 + 1 from by
      first
      | rfl
      | (simp only [List.length_append, List.length_cons, List.length_nil]
         try omega)] at hx
  have hlab_f : labelPos "or_false" st1.countLabel (P1 ++ (orEmit st st1 st3 cL cR lres rres ++ P2)) = some (P1.length + 1 + cL.length + 1 + 1 + 1 + 1 + 1) := by
    have hd : P1 ++ (orEmit st st1 st3 cL cR lres rres ++ P2) = ((((P1 ++ [Line.alloc (Operand.var "or_res" st.countName) Ty.int]) ++ cL) ++ [Line.binop (Operand.reg st1.countReg) "ne" lres (Operand.imm 0), Line.br (Operand.reg st1.countReg) "or_true" st1.countLabel "or_false" st1.countLabel, Line.label "or_true" st1.countLabel, Line.store (Operand.imm 1) (Operand.var "or_res" st.countName), Line.jump "or_end" st1.countLabel])) ++ (Line.label "or_false" st1.countLabel ::
        (cR ++ (Line.binop (Operand.reg st3.countReg) "ne" rres (Operand.imm 0) ::
        Line.store (Operand.reg st3.countReg) (Operand.var "or_res" st.countName) ::
        Line.jump "or_end" st1.countLabel ::
        Line.label "or_end" st1.countLabel ::
        Line.load (Operand.reg (st3.countReg + 1)) (Operand.var "or_res" st.countName) ::
        P2))) := by
      simp [orEmit, List.append_assoc]
    have hx := labelPos_of_decomp hd (by
      refine notMem_append (notMem_append (notMem_append ?_ ?_) ?_) ?_
      · exact fun hm => by have := hfresh _ _ (List.mem_append_left _ hm); omega
      · simp
      · exact fun hm => by have := labL _ _ hm; omega
      · simp)
    rwa [show ((((P1 ++ [Line.alloc (Operand.var "or_res" st.countName) Ty.int]) ++ cL) ++ [Line.binop (Operand.reg st1.countReg) "ne" lres (Operand.imm 0), Line.br (Operand.reg st1.countReg) "or_true" st1.countLabel "or_false" st1.countLabel, Line.label "or_true" st1.countLabel, Line.store (Operand.imm 1) (Operand.var "or_res" st.countName), Line.jump "or_end" st1.countLabel])).length = P1.length + 1 + cL.length + 1 + 1 + 1 + 1 + 1 from by
      first
      | rfl
      | (simp only [List.length_append, List.length_cons, List.length_nil]
         try omega)] at hx
  have hget_lf : (P1 ++ (orEmit st st1 st3 cL cR lres rres ++ P2)).get? (P1.length + 1 + cL.length + 1 + 1 + 1 + 1 + 1) = some (Line.label "or_false" st1.countLabel) := by
    have hd : P1 ++ (orEmit st st1 st3 cL cR lres rres ++ P2) = ((((P1 ++ [Line.alloc (Operand.var "or_res" st.countName) Ty.int]) ++ cL) ++ [Line.binop (Operand.reg st1.countReg) "ne" lres (Operand.imm 0), Line.br (Operand.reg st1.countReg) "or_true" st1.countLabel "or_false" st1.countLabel, Line.label "or_true" st1.countLabel, Line.store (Operand.imm 1) (Operand.var "or_res" st.countName), Line.jump "or_end" st1.countLabel])) ++ (Line.label "or_false" st1.countLabel ::
        (cR ++ (Line.binop (Operand.reg st3.countReg) "ne" rres (Operand.imm 0) ::
        Line.store (Operand.reg st3.countReg) (Operand.var "or_res" st.countName) ::
        Line.jump "or_end" st1.countLabel ::
        Line.label "or_end" st1.countLabel ::
        Line.load (Operand.reg (st3.countReg + 1)) (Operand.var "or_res" st.countName) ::
        P2))) := by
      simp [orEmit, List.append_assoc]
    have hx := get?_of_decomp hd
    rwa [show ((((P1 ++ [Line.alloc (Operand.var "or_res" st.countName) Ty.int]) ++ cL) ++ [Line.binop (Operand.reg st1.countReg) "ne" lres (Operand.imm 0), Line.br (Operand.reg st1.countReg) "or_true" st1.countLabel "or_false" st1.countLabel, Line.label "or_true" st1.countLabel, Line.store (Operand.imm 1) (Operand.var "or_res" st.countName), Line.jump "or_end" st1.countLabel])).length = P1.length + 1 + cL.length + 1 + 1 + 1 + 1 + 1 from by
      first
      | rfl
      | (simp only [List.length_append, List.length_cons, List.length_nil]
         try omega)] at hx
  have hlab_e : labelPos "or_end" st1.countLabel (P1 ++ (orEmit st st1 st3 cL cR lres rres ++ P2)) = some (P1.length + 1 + cL.length + 1 + 1 + 1 + 1 + 1 + 1 + cR.length + 1 + 1 + 1) := by
    have hd : P1 ++ (orEmit st st1 st3 cL cR lres rres ++ P2) = (((((P1 ++ [Line.alloc (Operand.var "or_res" st.countName) Ty.int]) ++ cL) ++ [Line.binop (Operand.reg st1.countReg) "ne" lres (Operand.imm 0), Line.br (Operand.reg st1.countReg) "or_true" st1.countLabel "or_false" st1.countLabel, Line.label "or_true" st1.countLabel, Line.store (Operand.imm 1) (Operand.var "or_res" st.countName), Line.jump "or_end" st1.countLabel, Line.label "or_false" st1.countLabel]) ++ cR ++ [Line.binop (Operand.reg st3.countReg) "ne" rres (Operand.imm 0), Line.store (Operand.reg st3.countReg) (Operand.var "or_res" st.countName), Line.jump "or_end" st1.countLabel])) ++ (Line.label "or_end" st1.countLabel ::
        Line.load (Operand.reg (st3.countReg + 1)) (Operand.var "or_res" st.countName) ::
        P2) := by
      simp [orEmit, List.append_assoc]
    have hx := labelPos_of_decomp hd (by
      refine notMem_append (notMem_append (notMem_append (notMem_append
        (notMem_append ?_ ?_) ?_) ?_) ?_) ?_
      · exact fun hm => by have := hfresh _ _ (List.mem_append_left _ hm); omega
      · simp
      · exact fun hm => by have := labL _ _ hm; omega
      · simp
      · exact fun hm => by have := labR _ _ hm; omega
      · simp)
    rwa [show (((((P1 ++ [Line.alloc (Operand.var "or_res" st.countName) Ty.int]) ++ cL) ++ [Line.binop (Operand.reg st1.countReg) "ne" lres (Operand.imm 0), Line.br (Operand.reg st1.countReg) "or_true" st1.countLabel "or_false" st1.countLabel, Line.label "or_true" st1.countLabel, Line.store (Operand.imm 1) (Operand.var "or_res" st.countName), Line.jump "or_end" st1.countLabel, Line.label "or_false" st1.countLabel]) ++ cR ++ [Line.binop (Operand.reg st3.countReg) "ne" rres (Operand.imm 0), Line.store (Operand.reg st3.countReg) (Operand.var "or_res" st.countName), Line.jump "or_end" st1.countLabel])).length = P1.length + 1 + cL.length + 1 + 1 + 1 + 1 + 1 + 1 + cR.length + 1 + 1 + 1 from by
      first
      | rfl
      | (simp only [List.length_append, List.length_cons, List.length_nil]
         try omega)] at hx
  have hget_b0 : (P1 ++ (orEmit st st1 st3 cL cR lres rres ++ P2)).get? (P1.length + 1 + cL.length + 1 + 1 + 1 + 1 + 1 + 1 + cR.length) = some (Line.binop (Operand.reg st3.countReg) "ne" rres (Operand.imm 0)) := by
    have hd : P1 ++ (orEmit st st1 st3 cL cR lres rres ++ P2) = (((((P1 ++ [Line.alloc (Operand.var "or_res" st.countName) Ty.int]) ++ cL) ++ [Line.binop (Operand.reg st1.countReg) "ne" lres (Operand.imm 0), Line.br (Operand.reg st1.countReg) "or_true" st1.countLabel "or_false" st1.countLabel, Line.label "or_true" st1.countLabel, Line.store (Operand.imm 1) (Operand.var "or_res" st.countName), Line.jump "or_end" st1.countLabel, Line.label "or_false" st1.countLabel]) ++ cR)) ++ (Line.binop (Operand.reg st3.countReg) "ne" rres (Operand.imm 0) ::
        Line.store (Operand.reg st3.countReg) (Operand.var "or_res" st.countName) ::
        Line.jump "or_end" st1.countLabel ::
        Line.label "or_end" st1.countLabel ::
        Line.load (Operand.reg (st3.countReg + 1)) (Operand.var "or_res" st.countName) ::
        P2) := by
      simp [orEmit, List.append_assoc]
    have hx := get?_of_decomp hd
    rwa [show (((((P1 ++ [Line.alloc (Operand.var "or_res" st.countName) Ty.int]) ++ cL) ++ [Line.binop (Operand.reg st1.countReg) "ne" lres (Operand.imm 0), Line.br (Operand.reg st1.countReg) "or_true" st1.countLabel "or_false" st1.countLabel, Line.label "or_true" st1.countLabel, Line.store (Operand.imm 1) (Operand.var "or_res" st.countName), Line.jump "or_end" st1.countLabel, Line.label "or_false" st1.countLabel]) ++ cR)).length = P1.length + 1 + cL.length + 1 + 1 + 1 + 1 + 1 + 1 + cR.length from by
      first
      | rfl
      | (simp only [List.length_append, List.length_cons, List.length_nil]
         try omega)] at hx
  have hget_b1 : (P1 ++ (orEmit st st1 st3 cL cR lres rres ++ P2)).get? (P1.length + 1 + cL.length + 1 + 1 + 1 + 1 + 1 + 1 + cR.length + 1) = some (Line.store (Operand.reg st3.countReg) (Operand.var "or_res" st.countName)) := by
    have hd : P1 ++ (orEmit st st1 st3 cL cR lres rres ++ P2) = (((((P1 ++ [Line.alloc (Operand.var "or_res" st.countName) Ty.int]) ++ cL) ++ [Line.binop (Operand.reg st1.countReg) "ne" lres (Operand.imm 0), Line.br (Operand.reg st1.countReg) "or_true" st1.countLabel "or_false" st1.countLabel, Line.label "or_true" st1.countLabel, Line.store (Operand.imm 1) (Operand.var "or_res" st.countName), Line.jump "or_end" st1.countLabel, Line.label "or_false" st1.countLabel]) ++ cR ++ [Line.binop (Operand.reg st3.countReg) "ne" rres (Operand.imm 0)])) ++ (Line.store (Operand.reg st3.countReg) (Operand.var "or_res" st.countName) ::
        Line.jump "or_end" st1.countLabel ::
        Line.label "or_end" st1.countLabel ::
        Line.load (Operand.reg (st3.countReg + 1)) (Operand.var "or_res" st.countName) ::
        P2) := by
      simp [orEmit, List.append_assoc]
    have hx := get?_of_decomp hd
    rwa [show (((((P1 ++ [Line.alloc (Operand.var "or_res" st.countName) Ty.int]) ++ cL) ++ [Line.binop (Operand.reg st1.countReg) "ne" lres (Operand.imm 0), Line.br (Operand.reg st1.countReg) "or_true" st1.countLabel "or_false" st1.countLabel, Line.label "or_true" st1.countLabel, Line.store (Operand.imm 1) (Operand.var "or_res" st.countName), Line.jump "or_end" st1.countLabel, Line.label "or_false" st1.countLabel]) ++ cR ++ [Line.binop (Operand.reg st3.countReg) "ne" rres (Operand.imm 0)])).length = P1.length + 1 + cL.length + 1 + 1 + 1 + 1 + 1 + 1 + cR.length + 1 from by
      first
      | rfl
      | (simp only [List.length_append, List.length_cons, List.length_nil]
         try omega)] at hx
  have hget_b2 : (P1 ++ (orEmit st st1 st3 cL cR lres rres ++ P2)).get? (P1.length + 1 + cL.length + 1 + 1 + 1 + 1 + 1 + 1 + cR.length + 1 + 1) = some (Line.jump "or_end" st1.countLabel) := by
    have hd : P1 ++ (orEmit st st1 st3 cL cR lres rres ++ P2) = (((((P1 ++ [Line.alloc (Operand.var "or_res" st.countName) Ty.int]) ++ cL) ++ [Line.binop (Operand.reg st1.countReg) "ne" lres (Operand.imm 0), Line.br (Operand.reg st1.countReg) "or_true" st1.countLabel "or_false" st1.countLabel, Line.label "or_true" st1.countLabel, Line.store (Operand.imm 1) (Operand.var "or_res" st.countName), Line.jump "or_end" st1.countLabel, Line.label "or_false" st1.countLabel]) ++ cR ++ [Line.binop (Operand.reg st3.countReg) "ne" rres (Operand.imm 0), Line.store (Operand.reg st3.countReg) (Operand.var "or_res" st.countName)])) ++ (Line.jump "or_end" st1.countLabel ::
        Line.label "or_end" st1.countLabel ::
        Line.load (Operand.reg (st3.countReg + 1)) (Operand.var "or_res" st.countName) ::
        P2) := by
      simp [orEmit, List.append_assoc]
    have hx := get?_of_decomp hd
    rwa [show (((((P1 ++ [Line.alloc (Operand.var "or_res" st.countName) Ty.int]) ++ cL) ++ [Line.binop (Operand.reg st1.countReg) "ne" lres (Operand.imm 0), Line.br (Operand.reg st1.countReg) "or_true" st1.countLabel "or_false" st1.countLabel, Line.label "or_true" st1.countLabel, Line.store (Operand.imm 1) (Operand.var "or_res" st.countName), Line.jump "or_end" st1.countLabel, Line.label "or_false" st1.countLabel]) ++ cR ++ [Line.binop (Operand.reg st3.countReg) "ne" rres (Operand.imm 0), Line.store (Operand.reg st3.countReg) (Operand.var "or_res" st.countName)])).length = P1.length + 1 + cL.length + 1 + 1 + 1 + 1 + 1 + 1 + cR.length + 1 + 1 from by
      first
      | rfl
      | (simp only [List.length_append, List.length_cons, List.length_nil]
         try omega)] at hx
  have hget_b3 : (P1 ++ (orEmit st st1 st3 cL cR lres rres ++ P2)).get? (P1.length + 1 + cL.length + 1 + 1 + 1 + 1 + 1 + 1 + cR.length + 1 + 1 + 1) = some (Line.label "or_end" st1.countLabel) := by
    have hd : P1 ++ (orEmit st st1 st3 cL cR lres rres ++ P2) = (((((P1 ++ [Line.alloc (Operand.var "or_res" st.countName) Ty.int]) ++ cL) ++ [Line.binop (Operand.reg st1.countReg) "ne" lres (Operand.imm 0), Line.br (Operand.reg st1.countReg) "or_true" st1.countLabel "or_false" st1.countLabel, Line.label "or_true" st1.countLabel, Line.store (Operand.imm 1) (Operand.var "or_res" st.countName), Line.jump "or_end" st1.countLabel, Line.label "or_false" st1.countLabel]) ++ cR ++ [Line.binop (Operand.reg st3.countReg) "ne" rres (Operand.imm 0), Line.store (Operand.reg st3.countReg) (Operand.var "or_res" st.countName), Line.jump "or_end" st1.countLabel])) ++ (Line.label "or_end" st1.countLabel ::
        Line.load (Operand.reg (st3.countReg + 1)) (Operand.var "or_res" st.countName) ::
        P2) := by
      simp [orEmit, List.append_assoc]
    have hx := get?_of_decomp hd
    rwa [show (((((P1 ++ [Line.alloc (Operand.var "or_res" st.countName) Ty.int]) ++ cL) ++ [Line.binop (Operand.reg st1.countReg) "ne" lres (Operand.imm 0), Line.br (Operand.reg st1.countReg) "or_true" st1.countLabel "or_false" st1.countLabel, Line.label "or_true" st1.countLabel, Line.store (Operand.imm 1) (Operand.var "or_res" st.countName), Line.jump "or_end" st1.countLabel, Line.label "or_false" st1.countLabel]) ++ cR ++ [Line.binop (Operand.reg st3.countReg) "ne" rres (Operand.imm 0), Line.store (Operand.reg st3.countReg) (Operand.var "or_res" st.countName), Line.jump "or_end" st1.countLabel])).length = P1.length + 1 + cL.length + 1 + 1 + 1 + 1 + 1 + 1 + cR.length + 1 + 1 + 1 from by
      first
      | rfl
      | (simp only [List.length_append, List.length_cons, List.length_nil]
         try omega)] at hx
  have hget_b4 : (P1 ++ (orEmit st st1 st3 cL cR lres rres ++ P2)).get? (P1.length + 1 + cL.length + 1 + 1 + 1 + 1 + 1 + 1 + cR.length + 1 + 1 + 1 + 1) = some (Line.load (Operand.reg (st3.countReg + 1)) (Operand.var "or_res" st.countName)) := by
    have hd : P1 ++ (orEmit st st1 st3 cL cR lres rres ++ P2) = (((((P1 ++ [Line.alloc (Operand.var "or_res" st.countName) Ty.int]) ++ cL) ++ [Line.binop (Operand.reg st1.countReg) "ne" lres (Operand.imm 0), Line.br (Operand.reg st1.countReg) "or_true" st1.countLabel "or_false" st1.countLabel, Line.label "or_true" st1.countLabel, Line.store (Operand.imm 1) (Operand.var "or_res" st.countName), Line.jump "or_end" st1.countLabel, Line.label "or_false" st1.countLabel]) ++ cR ++ [Line.binop (Operand.reg st3.countReg) "ne" rres (Operand.imm 0), Line.store (Operand.reg st3.countReg) (Operand.var "or_res" st.countName), Line.jump "or_end" st1.countLabel, Line.label "or_end" st1.countLabel])) ++ (Line.load (Operand.reg (st3.countReg + 1)) (Operand.var "or_res" st.countName) ::
        P2) := by
      simp [orEmit, List.append_assoc]
    have hx := get?_of_decomp hd
    rwa [show (((((P1 ++ [Line.alloc (Operand.var "or_res" st.countName) Ty.int]) ++ cL) ++ [Line.binop (Operand.reg st1.countReg) "ne" lres (Operand.imm 0), Line.br (Operand.reg st1.countReg) "or_true" st1.countLabel "or_false" st1.countLabel, Line.label "or_true" st1.countLabel, Line.store (Operand.imm 1) (Operand.var "or_res" st.countName), Line.jump "or_end" st1.countLabel, Line.label "or_false" st1.countLabel]) ++ cR ++ [Line.binop (Operand.reg st3.countReg) "ne" rres (Operand.imm 0), Line.store (Operand.reg st3.countReg) (Operand.var "or_res" st.countName), Line.jump "or_end" st1.countLabel, Line.label "or_end" st1.countLabel])).length = P1.length + 1 + cL.length + 1 + 1 + 1 + 1 + 1 + 1 + cR.length + 1 + 1 + 1 + 1 from by
      first
      | rfl
      | (simp only [List.length_append, List.length_cons, List.length_nil]
         try omega)] at hx
  by_cases hlv0 : lv = 0
  · have hne1 : evalMn "ne" lv 0 = some 0 := by
      simp [evalMn, hlv0]
    have hbrval : (m2.setReg st1.countReg 0).evalOpnd (Operand.reg st1.countReg) = some 0 := by
      rw [Mach.evalOpnd, Mach.regs_setReg_self]
    have hfreshR : LabelsOutside ((((P1 ++ [Line.alloc (Operand.var "or_res" st.countName) Ty.int]) ++ cL) ++
        [Line.binop (Operand.reg st1.countReg) "ne" lres (Operand.imm 0),
         Line.br (Operand.reg st1.countReg) "or_true" st1.countLabel "or_false" st1.countLabel,
         Line.label "or_true" st1.countLabel,
         Line.store (Operand.imm 1) (Operand.var "or_res" st.countName),
         Line.jump "or_end" st1.countLabel,
         Line.label "or_false" st1.countLabel]) ++
        (Line.binop (Operand.reg st3.countReg) "ne" rres (Operand.imm 0) ::
         Line.store (Operand.reg st3.countReg) (Operand.var "or_res" st.countName) ::
         Line.jump "or_end" st1.countLabel ::
         Line.label "or_end" st1.countLabel ::
         Line.load (Operand.reg (st3.countReg + 1)) (Operand.var "or_res" st.countName) ::
         P2)) (st1.countLabel + 1) st3.countLabel := by
      intro s i hm
      rcases List.mem_append.1 hm with hm | hm
      · rcases List.mem_append.1 hm with hm | hm
        · rcases List.mem_append.1 hm with hm | hm
          · rcases List.mem_append.1 hm with hm | hm
            · have := hfresh s i (List.mem_append_left _ hm)
              omega
            · simp at hm
          · have := labL s i hm
            omega
        · simp only [List.mem_cons, List.not_mem_nil, or_false] at hm
          rcases hm with hm | hm | hm | hm | hm | hm
          · cases hm
          · cases hm
          · rw [Line.label.injEq] at hm
            obtain ⟨hs, hi⟩ := hm
            omega
          · cases hm
          · cases hm
          · rw [Line.label.injEq] at hm
            obtain ⟨hs, hi⟩ := hm
            omega
      · simp only [List.mem_cons] at hm
        rcases hm with hm | hm | hm | hm | hm | hm
        · cases hm
        · cases hm
        · cases hm
        · rw [Line.label.injEq] at hm
          obtain ⟨hs, hi⟩ := hm
          omega
        · cases hm
        · have := hfresh s i (List.mem_append_right _ hm)
          omega
    obtain ⟨n2, m4, hrun2, hval2, hpres2, hrb2, hmpres2, hmb2⟩ :=
      ihr fuel rv ⟨st1.countReg + 1, st1.countName, st1.countLabel + 1⟩ st3 cR rres hrv h2
        (((P1 ++ [Line.alloc (Operand.var "or_res" st.countName) Ty.int]) ++ cL) ++
          [Line.binop (Operand.reg st1.countReg) "ne" lres (Operand.imm 0),
           Line.br (Operand.reg st1.countReg) "or_true" st1.countLabel "or_false" st1.countLabel,
           Line.label "or_true" st1.countLabel,
           Line.store (Operand.imm 1) (Operand.var "or_res" st.countName),
           Line.jump "or_end" st1.countLabel,
           Line.label "or_false" st1.countLabel])
        (Line.binop (Operand.reg st3.countReg) "ne" rres (Operand.imm 0) ::
         Line.store (Operand.reg st3.countReg) (Operand.var "or_res" st.countName) ::
         Line.jump "or_end" st1.countLabel ::
         Line.label "or_end" st1.countLabel ::
         Line.load (Operand.reg (st3.countReg + 1)) (Operand.var "or_res" st.countName) ::
         P2)
        (m2.setReg st1.countReg 0)
        hfreshR
        (regsBelow_setReg (regsBelow_mono hrbL (Nat.le_succ _)) (Nat.lt_succ_self _))
        (memBelow_setReg hmbL)
    dsimp only at hval2 hpres2 hrb2 hmpres2 hmb2
    rw [show (((P1 ++ [Line.alloc (Operand.var "or_res" st.countName) Ty.int]) ++ cL) ++
          [Line.binop (Operand.reg st1.countReg) "ne" lres (Operand.imm 0),
           Line.br (Operand.reg st1.countReg) "or_true" st1.countLabel "or_false" st1.countLabel,
           Line.label "or_true" st1.countLabel,
           Line.store (Operand.imm 1) (Operand.var "or_res" st.countName),
           Line.jump "or_end" st1.countLabel,
           Line.label "or_false" st1.countLabel]) ++
          (cR ++ (Line.binop (Operand.reg st3.countReg) "ne" rres (Operand.imm 0) ::
           Line.store (Operand.reg st3.countReg) (Operand.var "or_res" st.countName) ::
           Line.jump "or_end" st1.countLabel ::
           Line.label "or_end" st1.countLabel ::
           Line.load (Operand.reg (st3.countReg + 1)) (Operand.var "or_res" st.countName) ::
           P2)) = P1 ++ (orEmit st st1 st3 cL cR lres rres ++ P2) from by
        simp [orEmit, List.append_assoc]] at hrun2
    rw [show (((P1 ++ [Line.alloc (Operand.var "or_res" st.countName) Ty.int]) ++ cL) ++
          [Line.binop (Operand.reg st1.countReg) "ne" lres (Operand.imm 0),
           Line.br (Operand.reg st1.countReg) "or_true" st1.countLabel "or_false" st1.countLabel,
           Line.label "or_true" st1.countLabel,
           Line.store (Operand.imm 1) (Operand.var "or_res" st.countName),
           Line.jump "or_end" st1.countLabel,
           Line.label "or_false" st1.countLabel]).length
          = P1.length + 1 + cL.length + 1 + 1 + 1 + 1 + 1 + 1 from by
        simp only [List.length_append, List.length_cons, List.length_nil]
        try omega] at hrun2
    have hne2 : evalMn "ne" rv 0 = some (if rv ≠ 0 then (1:Int) else 0) := by
      simp [evalMn]
    have hb1v : (m4.setReg st3.countReg (if rv ≠ 0 then (1:Int) else 0)).evalOpnd
        (Operand.reg st3.countReg) = some (if rv ≠ 0 then (1:Int) else 0) := by
      rw [Mach.evalOpnd, Mach.regs_setReg_self]
    refine ⟨_, _, stepN_trans (stepN_one hstep0) (stepN_trans hrun1 (stepN_trans
      (stepN_one (step_at_binop hget_ne hval1 rfl hne1))
      (stepN_trans (stepN_one (step_at_br_false hget_br hbrval hlab_f))
      (stepN_trans (stepN_one (step_at_label hget_lf))
      (stepN_trans hrun2
      (stepN_trans (stepN_one (step_at_binop hget_b0 hval2 rfl hne2))
      (stepN_trans (stepN_one (step_at_store hget_b1 hb1v))
      (stepN_trans (stepN_one (step_at_jump hget_b2 hlab_e))
      (stepN_trans (stepN_one (step_at_label hget_b3))
      (stepN_one (step_at_load hget_b4 Mach.mem_setMem_self))))))))))),
      ?_, ?_, ?_, ?_, ?_⟩
    · rw [Mach.evalOpnd, Mach.regs_setReg_self]
      simp [hlv0]
    · intro k hk
      rw [Mach.regs_setReg_ne (by omega), Mach.regs_setMem,
        Mach.regs_setReg_ne (by omega), hpres2 k (by omega),
        Mach.regs_setReg_ne (by omega), hpres1 k hk, Mach.regs_setMem]
    · exact regsBelow_setReg (regsBelow_setMem (regsBelow_setReg (regsBelow_mono hrb2 (by omega))
        (by omega))) (by omega)
    · intro id j hj
      have hne_cell : ¬ (id = "or_res" ∧ j = st.countName) :=
        fun hc => absurd hc.2 (by omega)
      rw [Mach.mem_setReg, Mach.mem_setMem_ne hne_cell, Mach.mem_setReg,
        hmpres2 id j (by omega), Mach.mem_setReg, hmpres1 id j (by omega),
        Mach.mem_setMem_ne hne_cell]
    · exact memBelow_setReg (memBelow_setMem (memBelow_setReg hmb2) (by omega))
  · have hne1 : evalMn "ne" lv 0 = some 1 := by
      simp [evalMn, hlv0]
    have hbrval : (m2.setReg st1.countReg 1).evalOpnd (Operand.reg st1.countReg) = some 1 := by
      rw [Mach.evalOpnd, Mach.regs_setReg_self]
    refine ⟨_, _, stepN_trans (stepN_one hstep0) (stepN_trans hrun1 (stepN_trans
      (stepN_one (step_at_binop hget_ne hval1 rfl hne1))
      (stepN_trans (stepN_one (step_at_br_true hget_br hbrval (by decide) hlab_t))
      (stepN_trans (stepN_one (step_at_label hget_lt))
      (stepN_trans (stepN_one (step_at_store hget_a4 rfl))
      (stepN_trans (stepN_one (step_at_jump hget_a5 hlab_e))
      (stepN_trans (stepN_one (step_at_label hget_b3))
      (stepN_one (step_at_load hget_b4 Mach.mem_setMem_self))))))))), ?_, ?_, ?_, ?_, ?_⟩
    · rw [Mach.evalOpnd, Mach.regs_setReg_self]
      simp [hlv0]
    · intro k hk
      rw [Mach.regs_setReg_ne (by omega), Mach.regs_setMem,
        Mach.regs_setReg_ne (by omega), hpres1 k hk, Mach.regs_setMem]
    · exact regsBelow_setReg (regsBelow_setMem (regsBelow_setReg (regsBelow_mono hrbL (by omega))
        (by omega))) (by omega)
    · intro id j hj
      have hne_cell : ¬ (id = "or_res" ∧ j = st.countName) :=
        fun hc => absurd hc.2 (by omega)
      rw [Mach.mem_setReg, Mach.mem_setMem_ne hne_cell, Mach.mem_setReg,
        hmpres1 id j (by omega), Mach.mem_setMem_ne hne_cell]
    · exact memBelow_setReg (memBelow_setMem (memBelow_mono (memBelow_setReg hmbL) (by omega))
        (by omega))

/-- Interpreting the code emitted for a constant expression: from the start
of the emission, execution reaches its end, and the returned operand carries
the compile-time value. -/
theorem codeGen_runs {G : Env} {e : Expr} (hc : ConstExpr G e) :
    ∀ (fuel : Nat) (v : Int) (st st' : BuildSt) (code : List Line) (res : Operand),
      CalcValue G e = .ok v →
      codeGen G fuel e st = .ok (st', code, res) →
      ∀ (P₁ P₂ : List Line) (m : Mach),
        LabelsOutside (P₁ ++ P₂) st.countLabel st'.countLabel →
        RegsBelow m st.countReg →
        MemBelow m st.countName →
        ∃ n m',
          stepN (P₁ ++ (code ++ P₂)) n P₁.length m = some (P₁.length + code.length, m') ∧
          m'.evalOpnd res = some v ∧
          (∀ k, k < st.countReg → m'.regs k = m.regs k) ∧
          RegsBelow m' st'.countReg ∧
          (∀ id j, j < st.countName → m'.mem id j = m.mem id j) ∧
          MemBelow m' st'.countName := by
  induction hc with
  | num v0 =>
    intro fuel v st st' code res hv hcg P1 P2 m hfresh hreg hmem
    cases fuel with
    | zero => cases hcg
    | succ fuel =>
      simp only [codeGen, Except.ok.injEq, Prod.mk.injEq] at hcg
      obtain ⟨h1, h2, h3⟩ := hcg
      simp only [CalcValue, Except.ok.injEq] at hv
      refine ⟨0, m, ?_, ?_, fun k _ => rfl, ?_, fun id j _ => rfl, ?_⟩
      · rw [← h2]
        rfl
      · rw [← h3, hv]
        rfl
      · rw [← h1]
        exact hreg
      · rw [← h1]
        exact hmem
  | lval id sym hG hconst hty =>
    intro fuel v st st' code res hv hcg P1 P2 m hfresh hreg hmem
    cases fuel with
    | zero => cases hcg
    | succ fuel =>
      simp only [codeGen, hG, hconst, hty, Ty.is_int, List.isEmpty_nil, Bool.and_true,
        Bool.and_self, if_true, Except.ok.injEq, Prod.mk.injEq] at hcg
      obtain ⟨h1, h2, h3⟩ := hcg
      simp only [CalcValue, hG, hconst, if_true, Except.ok.injEq] at hv
      refine ⟨0, m, ?_, ?_, fun k _ => rfl, ?_, fun id j _ => rfl, ?_⟩
      · rw [← h2]
        rfl
      · rw [← h3, hv]
        rfl
      · rw [← h1]
        exact hreg
      · rw [← h1]
        exact hmem
  | unary op r hr ih =>
    intro fuel v st st' code res hv hcg P1 P2 m hfresh hreg hmem
    cases fuel with
    | zero => cases hcg
    | succ fuel =>
      simp only [CalcValue, bind_ok_iff] at hv
      obtain ⟨rv, hrv, hv⟩ := hv
      simp only [codeGen, bind_ok_iff, BuildSt.newReg, Except.ok.injEq, Prod.mk.injEq] at hcg
      obtain ⟨⟨st1, c, rres⟩, h1, hcg⟩ := hcg
      obtain ⟨⟨mr, mn, ml⟩, _⟩ := codeGen_emitSpec fuel r st st1 c rres h1
      cases op with
      | neg =>
        simp only [Except.ok.injEq, Prod.mk.injEq] at hcg hv
        obtain ⟨hst, hcode, hres⟩ := hcg
        rw [← hst, ← hcode, ← hres]
        rw [← hst] at hfresh
        dsimp only at hfresh ⊢
        set bl : Line := Line.binop (.reg st1.countReg) "sub" (.imm 0) rres with hbl
        have hfresh' : LabelsOutside (P1 ++ (bl :: P2)) st.countLabel st1.countLabel := by
          intro s i hm
          rcases List.mem_append.1 hm with hm | hm
          · exact hfresh s i (List.mem_append_left _ hm)
          · rcases List.mem_cons.1 hm with hm | hm
            · rw [hbl] at hm
              cases hm
            · exact hfresh s i (List.mem_append_right _ hm)
        obtain ⟨n1, m1, hrun1, hval1, hpres1, hrb1, hmpres1, hmb1⟩ :=
          ih fuel rv st st1 c rres hrv h1 P1 (bl :: P2) m hfresh' hreg hmem
        have hget : (P1 ++ (c ++ (bl :: P2))).get? (P1.length + c.length) = some bl := by
          have hd : P1 ++ (c ++ (bl :: P2)) = (P1 ++ c) ++ (bl :: P2) := by
            simp [List.append_assoc]
          have := get?_of_decomp hd
          rwa [List.length_append] at this
        have hstep : step (P1 ++ (c ++ (bl :: P2))) (P1.length + c.length) m1 =
            some (P1.length + c.length + 1, m1.setReg st1.countReg (0 - rv)) :=
          step_at_binop hget rfl hval1 rfl
        refine ⟨n1 + 1, m1.setReg st1.countReg (0 - rv),
          ?_, ?_, ?_, ?_, ?_, ?_⟩
        · have hrun := stepN_trans hrun1 (stepN_one hstep)
          have hlen : P1.length + (c ++ [bl]).length = P1.length + c.length + 1 := by
            simp only [List.length_append, List.length_singleton]
            omega
          rw [hlen]
          simpa [List.append_assoc] using hrun
        · rw [Mach.evalOpnd, Mach.regs_setReg_self, ← hv]
          congr 1
          omega
        · intro k hk
          rw [Mach.regs_setReg_ne (by omega)]
          exact hpres1 k hk
        · exact regsBelow_setReg (regsBelow_mono hrb1 (Nat.le_succ _)) (Nat.lt_succ_self _)
        · intro id j hj
          rw [Mach.mem_setReg]
          exact hmpres1 id j hj
        · exact memBelow_setReg hmb1
      | not =>
        simp only [Except.ok.injEq, Prod.mk.injEq] at hcg hv
        obtain ⟨hst, hcode, hres⟩ := hcg
        rw [← hst, ← hcode, ← hres]
        rw [← hst] at hfresh
        dsimp only at hfresh ⊢
        set bl : Line := Line.binop (.reg st1.countReg) "eq" (.imm 0) rres with hbl
        have hfresh' : LabelsOutside (P1 ++ (bl :: P2)) st.countLabel st1.countLabel := by
          intro s i hm
          rcases List.mem_append.1 hm with hm | hm
          · exact hfresh s i (List.mem_append_left _ hm)
          · rcases List.mem_cons.1 hm with hm | hm
            · rw [hbl] at hm
              cases hm
            · exact hfresh s i (List.mem_append_right _ hm)
        obtain ⟨n1, m1, hrun1, hval1, hpres1, hrb1, hmpres1, hmb1⟩ :=
          ih fuel rv st st1 c rres hrv h1 P1 (bl :: P2) m hfresh' hreg hmem
        have hget : (P1 ++ (c ++ (bl :: P2))).get? (P1.length + c.length) = some bl := by
          have hd : P1 ++ (c ++ (bl :: P2)) = (P1 ++ c) ++ (bl :: P2) := by
            simp [List.append_assoc]
          have := get?_of_decomp hd
          rwa [List.length_append] at this
        have hev : evalMn "eq" 0 rv = some (if (0 : Int) = rv then 1 else 0) := rfl
        have hstep : step (P1 ++ (c ++ (bl :: P2))) (P1.length + c.length) m1 =
            some (P1.length + c.length + 1,
              m1.setReg st1.countReg (if (0 : Int) = rv then 1 else 0)) :=
          step_at_binop hget rfl hval1 hev
        refine ⟨n1 + 1, m1.setReg st1.countReg (if (0 : Int) = rv then 1 else 0),
          ?_, ?_, ?_, ?_, ?_, ?_⟩
        · have hrun := stepN_trans hrun1 (stepN_one hstep)
          have hlen : P1.length + (c ++ [bl]).length = P1.length + c.length + 1 := by
            simp only [List.length_append, List.length_singleton]
            omega
          rw [hlen]
          simpa [List.append_assoc] using hrun
        · rw [Mach.evalOpnd, Mach.regs_setReg_self, ← hv]
          congr 1
          by_cases h0 : rv = 0 <;> simp [h0, eq_comm]
        · intro k hk
          rw [Mach.regs_setReg_ne (by omega)]
          exact hpres1 k hk
        · exact regsBelow_setReg (regsBelow_mono hrb1 (Nat.le_succ _)) (Nat.lt_succ_self _)
        · intro id j hj
          rw [Mach.mem_setReg]
          exact hmpres1 id j hj
        · exact memBelow_setReg hmb1
  | binary op l r hl hr ihl ihr =>
    intro fuel v st st' code res hv hcg P1 P2 m hfresh hreg hmem
    cases fuel with
    | zero => cases hcg
    | succ fuel =>
      cases op
      case add =>
        simp only [codeGen, opToString, bind_ok_iff, BuildSt.newReg, Except.ok.injEq,
          Prod.mk.injEq] at hcg
        obtain ⟨⟨st1, cL, lres⟩, h1, ⟨st2, cR, rres⟩, h2, hst, hcode, hres⟩ := hcg
        simp only [CalcValue, bind_ok_iff, Except.ok.injEq] at hv
        obtain ⟨rv, hrv, lv, hlv, hveq⟩ := hv
        rw [← hst, ← hcode, ← hres]
        rw [← hst] at hfresh
        dsimp only at hfresh ⊢
        exact runs_binop_glue ihl ihr hlv hrv h1 h2
          (by rw [← hveq]; simp [evalMn]) P1 P2 m hfresh hreg hmem
      case sub =>
        simp only [codeGen, opToString, bind_ok_iff, BuildSt.newReg, Except.ok.injEq,
          Prod.mk.injEq] at hcg
        obtain ⟨⟨st1, cL, lres⟩, h1, ⟨st2, cR, rres⟩, h2, hst, hcode, hres⟩ := hcg
        simp only [CalcValue, bind_ok_iff, Except.ok.injEq] at hv
        obtain ⟨rv, hrv, lv, hlv, hveq⟩ := hv
        rw [← hst, ← hcode, ← hres]
        rw [← hst] at hfresh
        dsimp only at hfresh ⊢
        exact runs_binop_glue ihl ihr hlv hrv h1 h2
          (by rw [← hveq]; simp [evalMn]) P1 P2 m hfresh hreg hmem
      case mul =>
        simp only [codeGen, opToString, bind_ok_iff, BuildSt.newReg, Except.ok.injEq,
          Prod.mk.injEq] at hcg
        obtain ⟨⟨st1, cL, lres⟩, h1, ⟨st2, cR, rres⟩, h2, hst, hcode, hres⟩ := hcg
        simp only [CalcValue, bind_ok_iff, Except.ok.injEq] at hv
        obtain ⟨rv, hrv, lv, hlv, hveq⟩ := hv
        rw [← hst, ← hcode, ← hres]
        rw [← hst] at hfresh
        dsimp only at hfresh ⊢
        exact runs_binop_glue ihl ihr hlv hrv h1 h2
          (by rw [← hveq]; simp [evalMn]) P1 P2 m hfresh hreg hmem
      case lt =>
        simp only [codeGen, opToString, bind_ok_iff, BuildSt.newReg, Except.ok.injEq,
          Prod.mk.injEq] at hcg
        obtain ⟨⟨st1, cL, lres⟩, h1, ⟨st2, cR, rres⟩, h2, hst, hcode, hres⟩ := hcg
        simp only [CalcValue, bind_ok_iff, Except.ok.injEq] at hv
        obtain ⟨rv, hrv, lv, hlv, hveq⟩ := hv
        rw [← hst, ← hcode, ← hres]
        rw [← hst] at hfresh
        dsimp only at hfresh ⊢
        exact runs_binop_glue ihl ihr hlv hrv h1 h2
          (by rw [← hveq]; simp [evalMn]) P1 P2 m hfresh hreg hmem
      case gt =>
        simp only [codeGen, opToString, bind_ok_iff, BuildSt.newReg, Except.ok.injEq,
          Prod.mk.injEq] at hcg
        obtain ⟨⟨st1, cL, lres⟩, h1, ⟨st2, cR, rres⟩, h2, hst, hcode, hres⟩ := hcg
        simp only [CalcValue, bind_ok_iff, Except.ok.injEq] at hv
        obtain ⟨rv, hrv, lv, hlv, hveq⟩ := hv
        rw [← hst, ← hcode, ← hres]
        rw [← hst] at hfresh
        dsimp only at hfresh ⊢
        exact runs_binop_glue ihl ihr hlv hrv h1 h2
          (by rw [← hveq]; simp [evalMn]) P1 P2 m hfresh hreg hmem
      case le =>
        simp only [codeGen, opToString, bind_ok_iff, BuildSt.newReg, Except.ok.injEq,
          Prod.mk.injEq] at hcg
        obtain ⟨⟨st1, cL, lres⟩, h1, ⟨st2, cR, rres⟩, h2, hst, hcode, hres⟩ := hcg
        simp only [CalcValue, bind_ok_iff, Except.ok.injEq] at hv
        obtain ⟨rv, hrv, lv, hlv, hveq⟩ := hv
        rw [← hst, ← hcode, ← hres]
        rw [← hst] at hfresh
        dsimp only at hfresh ⊢
        exact runs_binop_glue ihl ihr hlv hrv h1 h2
          (by rw [← hveq]; simp [evalMn]) P1 P2 m hfresh hreg hmem
      case ge =>
        simp only [codeGen, opToString, bind_ok_iff, BuildSt.newReg, Except.ok.injEq,
          Prod.mk.injEq] at hcg
        obtain ⟨⟨st1, cL, lres⟩, h1, ⟨st2, cR, rres⟩, h2, hst, hcode, hres⟩ := hcg
        simp only [CalcValue, bind_ok_iff, Except.ok.injEq] at hv
        obtain ⟨rv, hrv, lv, hlv, hveq⟩ := hv
        rw [← hst, ← hcode, ← hres]
        rw [← hst] at hfresh
        dsimp only at hfresh ⊢
        exact runs_binop_glue ihl ihr hlv hrv h1 h2
          (by rw [← hveq]; simp [evalMn]) P1 P2 m hfresh hreg hmem
      case eq =>
        simp only [codeGen, opToString, bind_ok_iff, BuildSt.newReg, Except.ok.injEq,
          Prod.mk.injEq] at hcg
        obtain ⟨⟨st1, cL, lres⟩, h1, ⟨st2, cR, rres⟩, h2, hst, hcode, hres⟩ := hcg
        simp only [CalcValue, bind_ok_iff, Except.ok.injEq] at hv
        obtain ⟨rv, hrv, lv, hlv, hveq⟩ := hv
        rw [← hst, ← hcode, ← hres]
        rw [← hst] at hfresh
        dsimp only at hfresh ⊢
        exact runs_binop_glue ihl ihr hlv hrv h1 h2
          (by rw [← hveq]; simp [evalMn]) P1 P2 m hfresh hreg hmem
      case ne =>
        simp only [codeGen, opToString, bind_ok_iff, BuildSt.newReg, Except.ok.injEq,
          Prod.mk.injEq] at hcg
        obtain ⟨⟨st1, cL, lres⟩, h1, ⟨st2, cR, rres⟩, h2, hst, hcode, hres⟩ := hcg
        simp only [CalcValue, bind_ok_iff, Except.ok.injEq] at hv
        obtain ⟨rv, hrv, lv, hlv, hveq⟩ := hv
        rw [← hst, ← hcode, ← hres]
        rw [← hst] at hfresh
        dsimp only at hfresh ⊢
        exact runs_binop_glue ihl ihr hlv hrv h1 h2
          (by rw [← hveq]; simp [evalMn]) P1 P2 m hfresh hreg hmem
      case div =>
        simp only [codeGen, opToString, bind_ok_iff, BuildSt.newReg, Except.ok.injEq,
          Prod.mk.injEq] at hcg
        obtain ⟨⟨st1, cL, lres⟩, h1, ⟨st2, cR, rres⟩, h2, hst, hcode, hres⟩ := hcg
        simp only [CalcValue, bind_ok_iff] at hv
        obtain ⟨rv, hrv, lv, hlv, hveq⟩ := hv
        by_cases hrv0 : rv = 0
        · rw [if_pos hrv0] at hveq
          cases hveq
        · rw [if_neg hrv0, Except.ok.injEq] at hveq
          rw [← hst, ← hcode, ← hres]
          rw [← hst] at hfresh
          dsimp only at hfresh ⊢
          exact runs_binop_glue ihl ihr hlv hrv h1 h2
            (by rw [← hveq]; simp [evalMn, hrv0]) P1 P2 m hfresh hreg hmem
      case mod =>
        simp only [codeGen, opToString, bind_ok_iff, BuildSt.newReg, Except.ok.injEq,
          Prod.mk.injEq] at hcg
        obtain ⟨⟨st1, cL, lres⟩, h1, ⟨st2, cR, rres⟩, h2, hst, hcode, hres⟩ := hcg
        simp only [CalcValue, bind_ok_iff] at hv
        obtain ⟨rv, hrv, lv, hlv, hveq⟩ := hv
        by_cases hrv0 : rv = 0
        · rw [if_pos hrv0] at hveq
          cases hveq
        · rw [if_neg hrv0, Except.ok.injEq] at hveq
          rw [← hst, ← hcode, ← hres]
          rw [← hst] at hfresh
          dsimp only at hfresh ⊢
          exact runs_binop_glue ihl ihr hlv hrv h1 h2
            (by rw [← hveq]; simp [evalMn, hrv0]) P1 P2 m hfresh hreg hmem
      case and =>
        simp only [codeGen, BuildSt.newVar, BuildSt.allocLabelId, BuildSt.newReg,
          bind_ok_iff, Except.ok.injEq, Prod.mk.injEq] at hcg
        obtain ⟨⟨st1, cL, lres⟩, h1, ⟨st3, cR, rres⟩, h2, hst, hcode, hres⟩ := hcg
        simp only [CalcValue, bind_ok_iff, Except.ok.injEq] at hv
        obtain ⟨rv, hrv, lv, hlv, hveq⟩ := hv
        rw [← hst, ← hcode, ← hres]
        rw [← hst] at hfresh
        dsimp only at hfresh ⊢
        rw [← hveq]
        exact runs_and_glue ihl ihr hlv hrv h1 h2 P1 P2 m hfresh hreg hmem
      case or =>
        simp only [codeGen, BuildSt.newVar, BuildSt.allocLabelId, BuildSt.newReg,
          bind_ok_iff, Except.ok.injEq, Prod.mk.injEq] at hcg
        obtain ⟨⟨st1, cL, lres⟩, h1, ⟨st3, cR, rres⟩, h2, hst, hcode, hres⟩ := hcg
        simp only [CalcValue, bind_ok_iff, Except.ok.injEq] at hv
        obtain ⟨rv, hrv, lv, hlv, hveq⟩ := hv
        rw [← hst, ← hcode, ← hres]
        rw [← hst] at hfresh
        dsimp only at hfresh ⊢
        rw [← hveq]
        exact runs_or_glue ihl ihr hlv hrv h1 h2 P1 P2 m hfresh hreg hmem

/-- C6: for every constant expression (built without function calls), the
value computed by compile-time evaluation (`CalcValue`) equals the value
obtained by lowering the expression (`codeGen`) and interpreting the emitted
instructions: running the emitted code from its first line reaches its end,
and the returned operand then evaluates to `CalcValue`'s result. -/
theorem C6_lower_interpret_agree {G : Env} {e : Expr} (hc : ConstExpr G e)
    {fuel : Nat} {v : Int} {st st' : BuildSt} {code : List Line} {res : Operand}
    (hv : CalcValue G e = .ok v)
    (hcg : codeGen G fuel e st = .ok (st', code, res))
    {m : Mach} (hreg : RegsBelow m st.countReg) (hmem : MemBelow m st.countName) :
    ∃ n m', stepN code n 0 m = some (code.length, m') ∧ m'.evalOpnd res = some v := by
  obtain ⟨n, m', hrun, hval, _⟩ :=
    codeGen_runs hc fuel v st st' code res hv hcg [] [] m
      (fun s i hm => by cases hm) hreg hmem
  refine ⟨n, m', ?_, hval⟩
  simpa using hrun

/-- Witness for C6 at a concrete constant expression exercising `&&`, `||`,
`div` and `mod`: `(3 && 0) || (7 / 2 % 2)` evaluates to `1` at compile time,
lowering succeeds, and interpreting the emitted code yields `1` as well. -/
theorem C6_witness :
    CalcValue envEmpty exC6 = .ok 1 ∧
    ∃ st' code res,
      codeGen envEmpty 9 exC6 ⟨0, 0, 0⟩ = .ok (st', code, res) ∧
      ∃ n m', stepN code n 0 Mach.empty = some (code.length, m') ∧
        m'.evalOpnd res = some 1 := by
  have hc : ConstExpr envEmpty exC6 :=
    ConstExpr.binary _ _ _
      (ConstExpr.binary _ _ _ (ConstExpr.num _) (ConstExpr.num _))
      (ConstExpr.binary _ _ _
        (ConstExpr.binary _ _ _ (ConstExpr.num _) (ConstExpr.num _))
        (ConstExpr.num _))
  refine ⟨rfl, _, _, _, rfl, ?_⟩
  exact C6_lower_interpret_agree hc rfl
    (rfl : codeGen envEmpty 9 exC6 ⟨0, 0, 0⟩ = codeGen envEmpty 9 exC6 ⟨0, 0, 0⟩)
    (fun k hk => absurd rfl hk)
    (fun id j hj => absurd rfl hj)

/-- With the left operand of `&&` evaluating to zero, the emitted diamond
runs to completion through the false branch for an arbitrary right-hand
region: no line of it is ever executed, and the loaded result is `0`. -/
theorem runs_and_skips_rhs {G : Env} {l : Expr} {fuel : Nat}
    {st st1 : BuildSt} (st3 : BuildSt) {cL cR : List Line} {lres : Operand}
    (rres : Operand)
    (hc : ConstExpr G l)
    (hlv : CalcValue G l = .ok 0)
    (h1 : codeGen G fuel l ⟨st.countReg, st.countName + 1, st.countLabel⟩ = .ok (st1, cL, lres))
    (hJ : LabelsOutside cR st.countLabel (st1.countLabel + 1)) :
    ∀ (P1 P2 : List Line) (m : Mach),
      LabelsOutside (P1 ++ P2) st.countLabel (st1.countLabel + 1) →
      RegsBelow m st.countReg → MemBelow m st.countName →
      ∃ n m',
        stepN (P1 ++ (andEmit st st1 st3 cL cR lres rres ++ P2)) n P1.length m
          = some (P1.length + (andEmit st st1 st3 cL cR lres rres).length, m') ∧
        m'.evalOpnd (.reg (st3.countReg + 1)) = some 0 := by
  intro P1 P2 m hfresh hreg hmem
  obtain ⟨⟨lr1, ln1, ll1⟩, labL⟩ := codeGen_emitSpec fuel l _ st1 cL lres h1
  dsimp only at lr1 ln1 ll1 labL
  have hlenF : P1.length + (andEmit st st1 st3 cL cR lres rres).length =
      P1.length + 1 + cL.length + 1 + 1 + 1 + cR.length + 1 + 1 + 1 + 1 + 1 + 1 + 1 + 1 := by
    simp only [andEmit, List.length_append, List.length_cons, List.length_nil,
      List.singleton_append]
    omega
  rw [hlenF]
  have hget0 : (P1 ++ (andEmit st st1 st3 cL cR lres rres ++ P2)).get? (P1.length) = some (Line.alloc (Operand.var "and_res" st.countName) Ty.int) := by
    have hd : P1 ++ (andEmit st st1 st3 cL cR lres rres ++ P2) = (P1) ++ (Line.alloc (Operand.var "and_res" st.countName) Ty.int ::
        (cL ++ (Line.binop (Operand.reg st1.countReg) "ne" lres (Operand.imm 0) ::
        Line.br (Operand.reg st1.countReg) "and_true" st1.countLabel "and_false" st1.countLabel ::
        Line.label "and_true" st1.countLabel ::
        (cR ++ (Line.binop (Operand.reg st3.countReg) "ne" rres (Operand.imm 0) ::
        Line.store (Operand.reg st3.countReg) (Operand.var "and_res" st.countName) ::
        Line.jump "and_end" st1.countLabel ::
        Line.label "and_false" st1.countLabel ::
        Line.store (Operand.imm 0) (Operand.var "and_res" st.countName) ::
        Line.jump "and_end" st1.countLabel ::
        Line.label "and_end" st1.countLabel ::
        Line.load (Operand.reg (st3.countReg + 1)) (Operand.var "and_res" st.countName) ::
        P2))))) := by
      simp [andEmit, List.append_assoc]
    have hx := get?_of_decomp hd
    rwa [show (P1).length = P1.length from by
      first
      | rfl
      | (simp only [List.length_append, List.length_cons, List.length_nil]
         try omega)] at hx
  have hstep0 : step (P1 ++ (andEmit st st1 st3 cL cR lres rres ++ P2)) P1.length m =
      some (P1.length + 1, m.setMem "and_res" st.countName 0) :=
    step_at_alloc hget0
  have hfreshL : LabelsOutside ((P1 ++ [Line.alloc (Operand.var "and_res" st.countName) Ty.int]) ++ (Line.binop (Operand.reg st1.countReg) "ne" lres (Operand.imm 0) ::
      Line.br (Operand.reg st1.countReg) "and_true" st1.countLabel "and_false" st1.countLabel ::
      Line.label "and_true" st1.countLabel ::
      (cR ++ (Line.binop (Operand.reg st3.countReg) "ne" rres (Operand.imm 0) ::
        Line.store (Operand.reg st3.countReg) (Operand.var "and_res" st.countName) ::
        Line.jump "and_end" st1.countLabel ::
        Line.label "and_false" st1.countLabel ::
        Line.store (Operand.imm 0) (Operand.var "and_res" st.countName) ::
        Line.jump "and_end" st1.countLabel ::
        Line.label "and_end" st1.countLabel ::
        Line.load (Operand.reg (st3.countReg + 1)) (Operand.var "and_res" st.countName) ::
        P2)))) st.countLabel st1.countLabel := by
    intro s i hm
    rcases List.mem_append.1 hm with hm | hm
    · rcases List.mem_append.1 hm with hm | hm
      · have := hfresh s i (List.mem_append_left _ hm)
        omega
      · simp at hm
    · rcases List.mem_cons.1 hm with hm | hm
      · cases hm
      · rcases List.mem_cons.1 hm with hm | hm
        · cases hm
        · rcases List.mem_cons.1 hm with hm | hm
          · rw [Line.label.injEq] at hm
            obtain ⟨hs, hi⟩ := hm
            omega
          · rcases List.mem_append.1 hm with hm | hm
            · have := hJ s i hm
              omega
            · simp only [List.mem_cons] at hm
              rcases hm with hm | hm | hm | hm | hm | hm | hm | hm | hm
              · cases hm
              · cases hm
              · cases hm
              · rw [Line.label.injEq] at hm
                obtain ⟨hs, hi⟩ := hm
                omega
              · cases hm
              · cases hm
              · rw [Line.label.injEq] at hm
                obtain ⟨hs, hi⟩ := hm
                omega
              · cases hm
              · have := hfresh s i (List.mem_append_right _ hm)
                omega
  obtain ⟨n1, m2, hrun1, hval1, hpres1, hrbL, hmpres1, hmbL⟩ :=
    codeGen_runs hc fuel 0 ⟨st.countReg, st.countName + 1, st.countLabel⟩ st1 cL lres hlv h1
      (P1 ++ [Line.alloc (Operand.var "and_res" st.countName) Ty.int])
      (Line.binop (Operand.reg st1.countReg) "ne" lres (Operand.imm 0) ::
       Line.br (Operand.reg st1.countReg) "and_true" st1.countLabel "and_false" st1.countLabel ::
       Line.label "and_true" st1.countLabel ::
       (cR ++ (Line.binop (Operand.reg st3.countReg) "ne" rres (Operand.imm 0) ::
        Line.store (Operand.reg st3.countReg) (Operand.var "and_res" st.countName) ::
        Line.jump "and_end" st1.countLabel ::
        Line.label "and_false" st1.countLabel ::
        Line.store (Operand.imm 0) (Operand.var "and_res" st.countName) ::
        Line.jump "and_end" st1.countLabel ::
        Line.label "and_end" st1.countLabel ::
        Line.load (Operand.reg (st3.countReg + 1)) (Operand.var "and_res" st.countName) ::
        P2)))
      (m.setMem "and_res" st.countName 0)
      hfreshL
      (regsBelow_setMem hreg)
      (memBelow_setMem (memBelow_mono hmem (Nat.le_succ _)) (Nat.lt_succ_self _))
  rw [show (P1 ++ [Line.alloc (Operand.var "and_res" st.countName) Ty.int]) ++ (cL ++ (Line.binop (Operand.reg st1.countReg) "ne" lres (Operand.imm 0) ::
       Line.br (Operand.reg st1.countReg) "and_true" st1.countLabel "and_false" st1.countLabel ::
       Line.label "and_true" st1.countLabel ::
       (cR ++ (Line.binop (Operand.reg st3.countReg) "ne" rres (Operand.imm 0) ::
        Line.store (Operand.reg st3.countReg) (Operand.var "and_res" st.countName) ::
        Line.jump "and_end" st1.countLabel ::
        Line.label "and_false" st1.countLabel ::
        Line.store (Operand.imm 0) (Operand.var "and_res" st.countName) ::
        Line.jump "and_end" st1.countLabel ::
        Line.label "and_end" st1.countLabel ::
        Line.load (Operand.reg (st3.countReg + 1)) (Operand.var "and_res" st.countName) ::
        P2)))) = P1 ++ (andEmit st st1 st3 cL cR lres rres ++ P2) from by
      simp [andEmit, List.append_assoc]] at hrun1
  rw [show (P1 ++ [Line.alloc (Operand.var "and_res" st.countName) Ty.int]).length = P1.length + 1 from by simp] at hrun1
  dsimp only at hval1 hpres1 hrbL hmpres1 hmbL
  have hget_ne : (P1 ++ (andEmit st st1 st3 cL cR lres rres ++ P2)).get? (P1.length + 1 + cL.length) = some (Line.binop (Operand.reg st1.countReg) "ne" lres (Operand.imm 0)) := by
    have hd : P1 ++ (andEmit st st1 st3 cL cR lres rres ++ P2) = (((P1 ++ [Line.alloc (Operand.var "and_res" st.countName) Ty.int]) ++ cL)) ++ (Line.binop (Operand.reg st1.countReg) "ne" lres (Operand.imm 0) ::
        Line.br (Operand.reg st1.countReg) "and_true" st1.countLabel "and_false" st1.countLabel ::
        Line.label "and_true" st1.countLabel ::
        (cR ++ (Line.binop (Operand.reg st3.countReg) "ne" rres (Operand.imm 0) ::
        Line.store (Operand.reg st3.countReg) (Operand.var "and_res" st.countName) ::
        Line.jump "and_end" st1.countLabel ::
        Line.label "and_false" st1.countLabel ::
        Line.store (Operand.imm 0) (Operand.var "and_res" st.countName) ::
        Line.jump "and_end" st1.countLabel ::
        Line.label "and_end" st1.countLabel ::
        Line.load (Operand.reg (st3.countReg + 1)) (Operand.var "and_res" st.countName) ::
        P2))) := by
      simp [andEmit, List.append_assoc]
    have hx := get?_of_decomp hd
    rwa [show (((P1 ++ [Line.alloc (Operand.var "and_res" st.countName) Ty.int]) ++ cL)).length = P1.length + 1 + cL.length from by
      first
      | rfl
      | (simp only [List.length_append, List.length_cons, List.length_nil]
         try omega)] at hx
  have hget_br : (P1 ++ (andEmit st st1 st3 cL cR lres rres ++ P2)).get? (P1.length + 1 + cL.length + 1) = some (Line.br (Operand.reg st1.countReg) "and_true" st1.countLabel "and_false" st1.countLabel) := by
    have hd : P1 ++ (andEmit st st1 st3 cL cR lres rres ++ P2) = (((P1 ++ [Line.alloc (Operand.var "and_res" st.countName) Ty.int]) ++ cL) ++ [Line.binop (Operand.reg st1.countReg) "ne" lres (Operand.imm 0)]) ++ (Line.br (Operand.reg st1.countReg) "and_true" st1.countLabel "and_false" st1.countLabel ::
        Line.label "and_true" st1.countLabel ::
        (cR ++ (Line.binop (Operand.reg st3.countReg) "ne" rres (Operand.imm 0) ::
        Line.store (Operand.reg st3.countReg) (Operand.var "and_res" st.countName) ::
        Line.jump "and_end" st1.countLabel ::
        Line.label "and_false" st1.countLabel ::
        Line.store (Operand.imm 0) (Operand.var "and_res" st.countName) ::
        Line.jump "and_end" st1.countLabel ::
        Line.label "and_end" st1.countLabel ::
        Line.load (Operand.reg (st3.countReg + 1)) (Operand.var "and_res" st.countName) ::
        P2))) := by
      simp [andEmit, List.append_assoc]
    have hx := get?_of_decomp hd
    rwa [show (((P1 ++ [Line.alloc (Operand.var "and_res" st.countName) Ty.int]) ++ cL) ++ [Line.binop (Operand.reg st1.countReg) "ne" lres (Operand.imm 0)]).length = P1.length + 1 + cL.length + 1 from by
      first
      | rfl
      | (simp only [List.length_append, List.length_cons, List.length_nil]
         try omega)] at hx
  have hlab_t : labelPos "and_true" st1.countLabel (P1 ++ (andEmit st st1 st3 cL cR lres rres ++ P2)) = some (P1.length + 1 + cL.length + 1 + 1) := by
    have hd : P1 ++ (andEmit st st1 st3 cL cR lres rres ++ P2) = (((P1 ++ [Line.alloc (Operand.var "and_res" st.countName) Ty.int]) ++ cL) ++ [Line.binop (Operand.reg st1.countReg) "ne" lres (Operand.imm 0), Line.br (Operand.reg st1.countReg) "and_true" st1.countLabel "and_false" st1.countLabel]) ++ (Line.label "and_true" st1.countLabel ::
        (cR ++ (Line.binop (Operand.reg st3.countReg) "ne" rres (Operand.imm 0) ::
        Line.store (Operand.reg st3.countReg) (Operand.var "and_res" st.countName) ::
        Line.jump "and_end" st1.countLabel ::
        Line.label "and_false" st1.countLabel ::
        Line.store (Operand.imm 0) (Operand.var "and_res" st.countName) ::
        Line.jump "and_end" st1.countLabel ::
        Line.label "and_end" st1.countLabel ::
        Line.load (Operand.reg (st3.countReg + 1)) (Operand.var "and_res" st.countName) ::
        P2))) := by
      simp [andEmit, List.append_assoc]
    have hx := labelPos_of_decomp hd (by
      refine notMem_append (notMem_append (notMem_append ?_ ?_) ?_) ?_
      · exact fun hm => by have := hfresh _ _ (List.mem_append_left _ hm); omega
      · simp
      · exact fun hm => by have := labL _ _ hm; omega
      · simp)
    rwa [show (((P1 ++ [Line.alloc (Operand.var "and_res" st.countName) Ty.int]) ++ cL) ++ [Line.binop (Operand.reg st1.countReg) "ne" lres (Operand.imm 0), Line.br (Operand.reg st1.countReg) "and_true" st1.countLabel "and_false" st1.countLabel]).length = P1.length + 1 + cL.length + 1 + 1 from by
      first
      | rfl
      | (simp only [List.length_append, List.length_cons, List.length_nil]
         try omega)] at hx
  have hlab_f : labelPos "and_false" st1.countLabel (P1 ++ (andEmit st st1 st3 cL cR lres rres ++ P2)) = some (P1.length + 1 + cL.length + 1 + 1 + 1 + cR.length + 1 + 1 + 1) := by
    have hd : P1 ++ (andEmit st st1 st3 cL cR lres rres ++ P2) = ((((P1 ++ [Line.alloc (Operand.var "and_res" st.countName) Ty.int]) ++ cL) ++ [Line.binop (Operand.reg st1.countReg) "ne" lres (Operand.imm 0), Line.br (Operand.reg st1.countReg) "and_true" st1.countLabel "and_false" st1.countLabel, Line.label "and_true" st1.countLabel]) ++ cR ++ [Line.binop (Operand.reg st3.countReg) "ne" rres (Operand.imm 0), Line.store (Operand.reg st3.countReg) (Operand.var "and_res" st.countName), Line.jump "and_end" st1.countLabel]) ++ (Line.label "and_false" st1.countLabel ::
        Line.store (Operand.imm 0) (Operand.var "and_res" st.countName) ::
        Line.jump "and_end" st1.countLabel ::
        Line.label "and_end" st1.countLabel ::
        Line.load (Operand.reg (st3.countReg + 1)) (Operand.var "and_res" st.countName) ::
        P2) := by
      simp [andEmit, List.append_assoc]
    have hx := labelPos_of_decomp hd (by
      refine notMem_append (notMem_append (notMem_append (notMem_append
        (notMem_append ?_ ?_) ?_) ?_) ?_) ?_
      · exact fun hm => by have := hfresh _ _ (List.mem_append_left _ hm); omega
      · simp
      · exact fun hm => by have := labL _ _ hm; omega
      · simp
      · exact fun hm => by have := hJ _ _ hm; omega
      · simp)
    rwa [show ((((P1 ++ [Line.alloc (Operand.var "and_res" st.countName) Ty.int]) ++ cL) ++ [Line.binop (Operand.reg st1.countReg) "ne" lres (Operand.imm 0), Line.br (Operand.reg st1.countReg) "and_true" st1.countLabel "and_false" st1.countLabel, Line.label "and_true" st1.countLabel]) ++ cR ++ [Line.binop (Operand.reg st3.countReg) "ne" rres (Operand.imm 0), Line.store (Operand.reg st3.countReg) (Operand.var "and_res" st.countName), Line.jump "and_end" st1.countLabel]).length = P1.length + 1 + cL.length + 1 + 1 + 1 + cR.length + 1 + 1 + 1 from by
      first
      | rfl
      | (simp only [List.length_append, List.length_cons, List.length_nil]
         try omega)] at hx
  have hlab_e : labelPos "and_end" st1.countLabel (P1 ++ (andEmit st st1 st3 cL cR lres rres ++ P2)) = some (P1.length + 1 + cL.length + 1 + 1 + 1 + cR.length + 1 + 1 + 1 + 1 + 1 + 1) := by
    have hd : P1 ++ (andEmit st st1 st3 cL cR lres rres ++ P2) = ((((P1 ++ [Line.alloc (Operand.var "and_res" st.countName) Ty.int]) ++ cL) ++ [Line.binop (Operand.reg st1.countReg) "ne" lres (Operand.imm 0), Line.br (Operand.reg st1.countReg) "and_true" st1.countLabel "and_false" st1.countLabel, Line.label "and_true" st1.countLabel]) ++ cR ++ [Line.binop (Operand.reg st3.countReg) "ne" rres (Operand.imm 0), Line.store (Operand.reg st3.countReg) (Operand.var "and_res" st.countName), Line.jump "and_end" st1.countLabel, Line.label "and_false" st1.countLabel, Line.store (Operand.imm 0) (Operand.var "and_res" st.countName), Line.jump "and_end" st1.countLabel]) ++ (Line.label "and_end" st1.countLabel ::
        Line.load (Operand.reg (st3.countReg + 1)) (Operand.var "and_res" st.countName) ::
        P2) := by
      simp [andEmit, List.append_assoc]
    have hx := labelPos_of_decomp hd (by
      refine notMem_append (notMem_append (notMem_append (notMem_append
        (notMem_append ?_ ?_) ?_) ?_) ?_) ?_
      · exact fun hm => by have := hfresh _ _ (List.mem_append_left _ hm); omega
      · simp
      · exact fun hm => by have := labL _ _ hm; omega
      · simp
      · exact fun hm => by have := hJ _ _ hm; omega
      · simp)
    rwa [show ((((P1 ++ [Line.alloc (Operand.var "and_res" st.countName) Ty.int]) ++ cL) ++ [Line.binop (Operand.reg st1.countReg) "ne" lres (Operand.imm 0), Line.br (Operand.reg st1.countReg) "and_true" st1.countLabel "and_false" st1.countLabel, Line.label "and_true" st1.countLabel]) ++ cR ++ [Line.binop (Operand.reg st3.countReg) "ne" rres (Operand.imm 0), Line.store (Operand.reg st3.countReg) (Operand.var "and_res" st.countName), Line.jump "and_end" st1.countLabel, Line.label "and_false" st1.countLabel, Line.store (Operand.imm 0) (Operand.var "and_res" st.countName), Line.jump "and_end" st1.countLabel]).length = P1.length + 1 + cL.length + 1 + 1 + 1 + cR.length + 1 + 1 + 1 + 1 + 1 + 1 from by
      first
      | rfl
      | (simp only [List.length_append, List.length_cons, List.length_nil]
         try omega)] at hx
  have hget_lt : (P1 ++ (andEmit st st1 st3 cL cR lres rres ++ P2)).get? (P1.length + 1 + cL.length + 1 + 1) = some (Line.label "and_true" st1.countLabel) := by
    have hd : P1 ++ (andEmit st st1 st3 cL cR lres rres ++ P2) = (((P1 ++ [Line.alloc (Operand.var "and_res" st.countName) Ty.int]) ++ cL) ++ [Line.binop (Operand.reg st1.countReg) "ne" lres (Operand.imm 0), Line.br (Operand.reg st1.countReg) "and_true" st1.countLabel "and_false" st1.countLabel]) ++ (Line.label "and_true" st1.countLabel ::
        (cR ++ (Line.binop (Operand.reg st3.countReg) "ne" rres (Operand.imm 0) ::
        Line.store (Operand.reg st3.countReg) (Operand.var "and_res" st.countName) ::
        Line.jump "and_end" st1.countLabel ::
        Line.label "and_false" st1.countLabel ::
        Line.store (Operand.imm 0) (Operand.var "and_res" st.countName) ::
        Line.jump "and_end" st1.countLabel ::
        Line.label "and_end" st1.countLabel ::
        Line.load (Operand.reg (st3.countReg + 1)) (Operand.var "and_res" st.countName) ::
        P2))) := by
      simp [andEmit, List.append_assoc]
    have hx := get?_of_decomp hd
    rwa [show (((P1 ++ [Line.alloc (Operand.var "and_res" st.countName) Ty.int]) ++ cL) ++ [Line.binop (Operand.reg st1.countReg) "ne" lres (Operand.imm 0), Line.br (Operand.reg st1.countReg) "and_true" st1.countLabel "and_false" st1.countLabel]).length = P1.length + 1 + cL.length + 1 + 1 from by
      first
      | rfl
      | (simp only [List.length_append, List.length_cons, List.length_nil]
         try omega)] at hx
  have hget_b0 : (P1 ++ (andEmit st st1 st3 cL cR lres rres ++ P2)).get? (P1.length + 1 + cL.length + 1 + 1 + 1 + cR.length) = some (Line.binop (Operand.reg st3.countReg) "ne" rres (Operand.imm 0)) := by
    have hd : P1 ++ (andEmit st st1 st3 cL cR lres rres ++ P2) = ((((P1 ++ [Line.alloc (Operand.var "and_res" st.countName) Ty.int]) ++ cL) ++ [Line.binop (Operand.reg st1.countReg) "ne" lres (Operand.imm 0), Line.br (Operand.reg st1.countReg) "and_true" st1.countLabel "and_false" st1.countLabel, Line.label "and_true" st1.countLabel]) ++ cR) ++ (Line.binop (Operand.reg st3.countReg) "ne" rres (Operand.imm 0) ::
        Line.store (Operand.reg st3.countReg) (Operand.var "and_res" st.countName) ::
        Line.jump "and_end" st1.countLabel ::
        Line.label "and_false" st1.countLabel ::
        Line.store (Operand.imm 0) (Operand.var "and_res" st.countName) ::
        Line.jump "and_end" st1.countLabel ::
        Line.label "and_end" st1.countLabel ::
        Line.load (Operand.reg (st3.countReg + 1)) (Operand.var "and_res" st.countName) ::
        P2) := by
      simp [andEmit, List.append_assoc]
    have hx := get?_of_decomp hd
    rwa [show ((((P1 ++ [Line.alloc (Operand.var "and_res" st.countName) Ty.int]) ++ cL) ++ [Line.binop (Operand.reg st1.countReg) "ne" lres (Operand.imm 0), Line.br (Operand.reg st1.countReg) "and_true" st1.countLabel "and_false" st1.countLabel, Line.label "and_true" st1.countLabel]) ++ cR).length = P1.length + 1 + cL.length + 1 + 1 + 1 + cR.length from by
      first
      | rfl
      | (simp only [List.length_append, List.length_cons, List.length_nil]
         try omega)] at hx
  have hget_b1 : (P1 ++ (andEmit st st1 st3 cL cR lres rres ++ P2)).get? (P1.length + 1 + cL.length + 1 + 1 + 1 + cR.length + 1) = some (Line.store (Operand.reg st3.countReg) (Operand.var "and_res" st.countName)) := by
    have hd : P1 ++ (andEmit st st1 st3 cL cR lres rres ++ P2) = ((((P1 ++ [Line.alloc (Operand.var "and_res" st.countName) Ty.int]) ++ cL) ++ [Line.binop (Operand.reg st1.countReg) "ne" lres (Operand.imm 0), Line.br (Operand.reg st1.countReg) "and_true" st1.countLabel "and_false" st1.countLabel, Line.label "and_true" st1.countLabel]) ++ cR ++ [Line.binop (Operand.reg st3.countReg) "ne" rres (Operand.imm 0)]) ++ (Line.store (Operand.reg st3.countReg) (Operand.var "and_res" st.countName) ::
        Line.jump "and_end" st1.countLabel ::
        Line.label "and_false" st1.countLabel ::
        Line.store (Operand.imm 0) (Operand.var "and_res" st.countName) ::
        Line.jump "and_end" st1.countLabel ::
        Line.label "and_end" st1.countLabel ::
        Line.load (Operand.reg (st3.countReg + 1)) (Operand.var "and_res" st.countName) ::
        P2) := by
      simp [andEmit, List.append_assoc]
    have hx := get?_of_decomp hd
    rwa [show ((((P1 ++ [Line.alloc (Operand.var "and_res" st.countName) Ty.int]) ++ cL) ++ [Line.binop (Operand.reg st1.countReg) "ne" lres (Operand.imm 0), Line.br (Operand.reg st1.countReg) "and_true" st1.countLabel "and_false" st1.countLabel, Line.label "and_true" st1.countLabel]) ++ cR ++ [Line.binop (Operand.reg st3.countReg) "ne" rres (Operand.imm 0)]).length = P1.length + 1 + cL.length + 1 + 1 + 1 + cR.length + 1 from by
      first
      | rfl
      | (simp only [List.length_append, List.length_cons, List.length_nil]
         try omega)] at hx
  have hget_b2 : (P1 ++ (andEmit st st1 st3 cL cR lres rres ++ P2)).get? (P1.length + 1 + cL.length + 1 + 1 + 1 + cR.length + 1 + 1) = some (Line.jump "and_end" st1.countLabel) := by
    have hd : P1 ++ (andEmit st st1 st3 cL cR lres rres ++ P2) = ((((P1 ++ [Line.alloc (Operand.var "and_res" st.countName) Ty.int]) ++ cL) ++ [Line.binop (Operand.reg st1.countReg) "ne" lres (Operand.imm 0), Line.br (Operand.reg st1.countReg) "and_true" st1.countLabel "and_false" st1.countLabel, Line.label "and_true" st1.countLabel]) ++ cR ++ [Line.binop (Operand.reg st3.countReg) "ne" rres (Operand.imm 0), Line.store (Operand.reg st3.countReg) (Operand.var "and_res" st.countName)]) ++ (Line.jump "and_end" st1.countLabel ::
        Line.label "and_false" st1.countLabel ::
        Line.store (Operand.imm 0) (Operand.var "and_res" st.countName) ::
        Line.jump "and_end" st1.countLabel ::
        Line.label "and_end" st1.countLabel ::
        Line.load (Operand.reg (st3.countReg + 1)) (Operand.var "and_res" st.countName) ::
        P2) := by
      simp [andEmit, List.append_assoc]
    have hx := get?_of_decomp hd
    rwa [show ((((P1 ++ [Line.alloc (Operand.var "and_res" st.countName) Ty.int]) ++ cL) ++ [Line.binop (Operand.reg st1.countReg) "ne" lres (Operand.imm 0), Line.br (Operand.reg st1.countReg) "and_true" st1.countLabel "and_false" st1.countLabel, Line.label "and_true" st1.countLabel]) ++ cR ++ [Line.binop (Operand.reg st3.countReg) "ne" rres (Operand.imm 0), Line.store (Operand.reg st3.countReg) (Operand.var "and_res" st.countName)]).length = P1.length + 1 + cL.length + 1 + 1 + 1 + cR.length + 1 + 1 from by
      first
      | rfl
      | (simp only [List.length_append, List.length_cons, List.length_nil]
         try omega)] at hx
  have hget_b3 : (P1 ++ (andEmit st st1 st3 cL cR lres rres ++ P2)).get? (P1.length + 1 + cL.length + 1 + 1 + 1 + cR.length + 1 + 1 + 1) = some (Line.label "and_false" st1.countLabel) := by
    have hd : P1 ++ (andEmit st st1 st3 cL cR lres rres ++ P2) = ((((P1 ++ [Line.alloc (Operand.var "and_res" st.countName) Ty.int]) ++ cL) ++ [Line.binop (Operand.reg st1.countReg) "ne" lres (Operand.imm 0), Line.br (Operand.reg st1.countReg) "and_true" st1.countLabel "and_false" st1.countLabel, Line.label "and_true" st1.countLabel]) ++ cR ++ [Line.binop (Operand.reg st3.countReg) "ne" rres (Operand.imm 0), Line.store (Operand.reg st3.countReg) (Operand.var "and_res" st.countName), Line.jump "and_end" st1.countLabel]) ++ (Line.label "and_false" st1.countLabel ::
        Line.store (Operand.imm 0) (Operand.var "and_res" st.countName) ::
        Line.jump "and_end" st1.countLabel ::
        Line.label "and_end" st1.countLabel ::
        Line.load (Operand.reg (st3.countReg + 1)) (Operand.var "and_res" st.countName) ::
        P2) := by
      simp [andEmit, List.append_assoc]
    have hx := get?_of_decomp hd
    rwa [show ((((P1 ++ [Line.alloc (Operand.var "and_res" st.countName) Ty.int]) ++ cL) ++ [Line.binop (Operand.reg st1.countReg) "ne" lres (Operand.imm 0), Line.br (Operand.reg st1.countReg) "and_true" st1.countLabel "and_false" st1.countLabel, Line.label "and_true" st1.countLabel]) ++ cR ++ [Line.binop (Operand.reg st3.countReg) "ne" rres (Operand.imm 0), Line.store (Operand.reg st3.countReg) (Operand.var "and_res" st.countName), Line.jump "and_end" st1.countLabel]).length = P1.length + 1 + cL.length + 1 + 1 + 1 + cR.length + 1 + 1 + 1 from by
      first
      | rfl
      | (simp only [List.length_append, List.length_cons, List.length_nil]
         try omega)] at hx
  have hget_b4 : (P1 ++ (andEmit st st1 st3 cL cR lres rres ++ P2)).get? (P1.length + 1 + cL.length + 1 + 1 + 1 + cR.length + 1 + 1 + 1 + 1) = some (Line.store (Operand.imm 0) (Operand.var "and_res" st.countName)) := by
    have hd : P1 ++ (andEmit st st1 st3 cL cR lres rres ++ P2) = ((((P1 ++ [Line.alloc (Operand.var "and_res" st.countName) Ty.int]) ++ cL) ++ [Line.binop (Operand.reg st1.countReg) "ne" lres (Operand.imm 0), Line.br (Operand.reg st1.countReg) "and_true" st1.countLabel "and_false" st1.countLabel, Line.label "and_true" st1.countLabel]) ++ cR ++ [Line.binop (Operand.reg st3.countReg) "ne" rres (Operand.imm 0), Line.store (Operand.reg st3.countReg) (Operand.var "and_res" st.countName), Line.jump "and_end" st1.countLabel, Line.label "and_false" st1.countLabel]) ++ (Line.store (Operand.imm 0) (Operand.var "and_res" st.countName) ::
        Line.jump "and_end" st1.countLabel ::
        Line.label "and_end" st1.countLabel ::
        Line.load (Operand.reg (st3.countReg + 1)) (Operand.var "and_res" st.countName) ::
        P2) := by
      simp [andEmit, List.append_assoc]
    have hx := get?_of_decomp hd
    rwa [show ((((P1 ++ [Line.alloc (Operand.var "and_res" st.countName) Ty.int]) ++ cL) ++ [Line.binop (Operand.reg st1.countReg) "ne" lres (Operand.imm 0), Line.br (Operand.reg st1.countReg) "and_true" st1.countLabel "and_false" st1.countLabel, Line.label "and_true" st1.countLabel]) ++ cR ++ [Line.binop (Operand.reg st3.countReg) "ne" rres (Operand.imm 0), Line.store (Operand.reg st3.countReg) (Operand.var "and_res" st.countName), Line.jump "and_end" st1.countLabel, Line.label "and_false" st1.countLabel]).length = P1.length + 1 + cL.length + 1 + 1 + 1 + cR.length + 1 + 1 + 1 + 1 from by
      first
      | rfl
      | (simp only [List.length_append, List.length_cons, List.length_nil]
         try omega)] at hx
  have hget_b5 : (P1 ++ (andEmit st st1 st3 cL cR lres rres ++ P2)).get? (P1.length + 1 + cL.length + 1 + 1 + 1 + cR.length + 1 + 1 + 1 + 1 + 1) = some (Line.jump "and_end" st1.countLabel) := by
    have hd : P1 ++ (andEmit st st1 st3 cL cR lres rres ++ P2) = ((((P1 ++ [Line.alloc (Operand.var "and_res" st.countName) Ty.int]) ++ cL) ++ [Line.binop (Operand.reg st1.countReg) "ne" lres (Operand.imm 0), Line.br (Operand.reg st1.countReg) "and_true" st1.countLabel "and_false" st1.countLabel, Line.label "and_true" st1.countLabel]) ++ cR ++ [Line.binop (Operand.reg st3.countReg) "ne" rres (Operand.imm 0), Line.store (Operand.reg st3.countReg) (Operand.var "and_res" st.countName), Line.jump "and_end" st1.countLabel, Line.label "and_false" st1.countLabel, Line.store (Operand.imm 0) (Operand.var "and_res" st.countName)]) ++ (Line.jump "and_end" st1.countLabel ::
        Line.label "and_end" st1.countLabel ::
        Line.load (Operand.reg (st3.countReg + 1)) (Operand.var "and_res" st.countName) ::
        P2) := by
      simp [andEmit, List.append_assoc]
    have hx := get?_of_decomp hd
    rwa [show ((((P1 ++ [Line.alloc (Operand.var "and_res" st.countName) Ty.int]) ++ cL) ++ [Line.binop (Operand.reg st1.countReg) "ne" lres (Operand.imm 0), Line.br (Operand.reg st1.countReg) "and_true" st1.countLabel "and_false" st1.countLabel, Line.label "and_true" st1.countLabel]) ++ cR ++ [Line.binop (Operand.reg st3.countReg) "ne" rres (Operand.imm 0), Line.store (Operand.reg st3.countReg) (Operand.var "and_res" st.countName), Line.jump "and_end" st1.countLabel, Line.label "and_false" st1.countLabel, Line.store (Operand.imm 0) (Operand.var "and_res" st.countName)]).length = P1.length + 1 + cL.length + 1 + 1 + 1 + cR.length + 1 + 1 + 1 + 1 + 1 from by
      first
      | rfl
      | (simp only [List.length_append, List.length_cons, List.length_nil]
         try omega)] at hx
  have hget_b6 : (P1 ++ (andEmit st st1 st3 cL cR lres rres ++ P2)).get? (P1.length + 1 + cL.length + 1 + 1 + 1 + cR.length + 1 + 1 + 1 + 1 + 1 + 1) = some (Line.label "and_end" st1.countLabel) := by
    have hd : P1 ++ (andEmit st st1 st3 cL cR lres rres ++ P2) = ((((P1 ++ [Line.alloc (Operand.var "and_res" st.countName) Ty.int]) ++ cL) ++ [Line.binop (Operand.reg st1.countReg) "ne" lres (Operand.imm 0), Line.br (Operand.reg st1.countReg) "and_true" st1.countLabel "and_false" st1.countLabel, Line.label "and_true" st1.countLabel]) ++ cR ++ [Line.binop (Operand.reg st3.countReg) "ne" rres (Operand.imm 0), Line.store (Operand.reg st3.countReg) (Operand.var "and_res" st.countName), Line.jump "and_end" st1.countLabel, Line.label "and_false" st1.countLabel, Line.store (Operand.imm 0) (Operand.var "and_res" st.countName), Line.jump "and_end" st1.countLabel]) ++ (Line.label "and_end" st1.countLabel ::
        Line.load (Operand.reg (st3.countReg + 1)) (Operand.var "and_res" st.countName) ::
        P2) := by
      simp [andEmit, List.append_assoc]
    have hx := get?_of_decomp hd
    rwa [show ((((P1 ++ [Line.alloc (Operand.var "and_res" st.countName) Ty.int]) ++ cL) ++ [Line.binop (Operand.reg st1.countReg) "ne" lres (Operand.imm 0), Line.br (Operand.reg st1.countReg) "and_true" st1.countLabel "and_false" st1.countLabel, Line.label "and_true" st1.countLabel]) ++ cR ++ [Line.binop (Operand.reg st3.countReg) "ne" rres (Operand.imm 0), Line.store (Operand.reg st3.countReg) (Operand.var "and_res" st.countName), Line.jump "and_end" st1.countLabel, Line.label "and_false" st1.countLabel, Line.store (Operand.imm 0) (Operand.var "and_res" st.countName), Line.jump "and_end" st1.countLabel]).length = P1.length + 1 + cL.length + 1 + 1 + 1 + cR.length + 1 + 1 + 1 + 1 + 1 + 1 from by
      first
      | rfl
      | (simp only [List.length_append, List.length_cons, List.length_nil]
         try omega)] at hx
  have hget_b7 : (P1 ++ (andEmit st st1 st3 cL cR lres rres ++ P2)).get? (P1.length + 1 + cL.length + 1 + 1 + 1 + cR.length + 1 + 1 + 1 + 1 + 1 + 1 + 1) = some (Line.load (Operand.reg (st3.countReg + 1)) (Operand.var "and_res" st.countName)) := by
    have hd : P1 ++ (andEmit st st1 st3 cL cR lres rres ++ P2) = ((((P1 ++ [Line.alloc (Operand.var "and_res" st.countName) Ty.int]) ++ cL) ++ [Line.binop (Operand.reg st1.countReg) "ne" lres (Operand.imm 0), Line.br (Operand.reg st1.countReg) "and_true" st1.countLabel "and_false" st1.countLabel, Line.label "and_true" st1.countLabel]) ++ cR ++ [Line.binop (Operand.reg st3.countReg) "ne" rres (Operand.imm 0), Line.store (Operand.reg st3.countReg) (Operand.var "and_res" st.countName), Line.jump "and_end" st1.countLabel, Line.label "and_false" st1.countLabel, Line.store (Operand.imm 0) (Operand.var "and_res" st.countName), Line.jump "and_end" st1.countLabel, Line.label "and_end" st1.countLabel]) ++ (Line.load (Operand.reg (st3.countReg + 1)) (Operand.var "and_res" st.countName) ::
        P2) := by
      simp [andEmit, List.append_assoc]
    have hx := get?_of_decomp hd
    rwa [show ((((P1 ++ [Line.alloc (Operand.var "and_res" st.countName) Ty.int]) ++ cL) ++ [Line.binop (Operand.reg st1.countReg) "ne" lres (Operand.imm 0), Line.br (Operand.reg st1.countReg) "and_true" st1.countLabel "and_false" st1.countLabel, Line.label "and_true" st1.countLabel]) ++ cR ++ [Line.binop (Operand.reg st3.countReg) "ne" rres (Operand.imm 0), Line.store (Operand.reg st3.countReg) (Operand.var "and_res" st.countName), Line.jump "and_end" st1.countLabel, Line.label "and_false" st1.countLabel, Line.store (Operand.imm 0) (Operand.var "and_res" st.countName), Line.jump "and_end" st1.countLabel, Line.label "and_end" st1.countLabel]).length = P1.length + 1 + cL.length + 1 + 1 + 1 + cR.length + 1 + 1 + 1 + 1 + 1 + 1 + 1 from by
      first
      | rfl
      | (simp only [List.length_append, List.length_cons, List.length_nil]
         try omega)] at hx
  have hne1 : evalMn "ne" (0 : Int) 0 = some 0 := by
    simp [evalMn]
  have hbrval : (m2.setReg st1.countReg 0).evalOpnd (Operand.reg st1.countReg) = some 0 := by
    rw [Mach.evalOpnd, Mach.regs_setReg_self]
  refine ⟨_, _, stepN_trans (stepN_one hstep0) (stepN_trans hrun1 (stepN_trans
    (stepN_one (step_at_binop hget_ne hval1 rfl hne1))
    (stepN_trans (stepN_one (step_at_br_false hget_br hbrval hlab_f))
    (stepN_trans (stepN_one (step_at_label hget_b3))
    (stepN_trans (stepN_one (step_at_store hget_b4 rfl))
    (stepN_trans (stepN_one (step_at_jump hget_b5 hlab_e))
    (stepN_trans (stepN_one (step_at_label hget_b6))
    (stepN_one (step_at_load hget_b7 Mach.mem_setMem_self))))))))), ?_⟩
  · rw [Mach.evalOpnd, Mach.regs_setReg_self]

/-- With the left operand of `||` evaluating to non-zero, the emitted
diamond runs to completion through the true branch for an arbitrary
right-hand region: no line of it is ever executed, and the loaded result
is `1`. -/
theorem runs_or_skips_rhs {G : Env} {l : Expr} {fuel : Nat} {lv : Int}
    {st st1 : BuildSt} (st3 : BuildSt) {cL cR : List Line} {lres : Operand}
    (rres : Operand)
    (hc : ConstExpr G l)
    (hlv : CalcValue G l = .ok lv) (hlv0 : lv ≠ 0)
    (h1 : codeGen G fuel l ⟨st.countReg, st.countName + 1, st.countLabel⟩ = .ok (st1, cL, lres))
    (hJ : LabelsOutside cR st.countLabel (st1.countLabel + 1)) :
    ∀ (P1 P2 : List Line) (m : Mach),
      LabelsOutside (P1 ++ P2) st.countLabel (st1.countLabel + 1) →
      RegsBelow m st.countReg → MemBelow m st.countName →
      ∃ n m',
        stepN (P1 ++ (orEmit st st1 st3 cL cR lres rres ++ P2)) n P1.length m
          = some (P1.length + (orEmit st st1 st3 cL cR lres rres).length, m') ∧
        m'.evalOpnd (.reg (st3.countReg + 1)) = some 1 := by
  intro P1 P2 m hfresh hreg hmem
  obtain ⟨⟨lr1, ln1, ll1⟩, labL⟩ := codeGen_emitSpec fuel l _ st1 cL lres h1
  dsimp only at lr1 ln1 ll1 labL
  have hlenF : P1.length + (orEmit st st1 st3 cL cR lres rres).length =
      P1.length + 1 + cL.length + 1 + 1 + 1 + 1 + 1 + 1 + cR.length + 1 + 1 + 1 + 1 + 1 := by
    simp only [orEmit, List.length_append, List.length_cons, List.length_nil,
      List.singleton_append]
    omega
  rw [hlenF]
  have hget0 : (P1 ++ (orEmit st st1 st3 cL cR lres rres ++ P2)).get? (P1.length) = some (Line.alloc (Operand.var "or_res" st.countName) Ty.int) := by
    have hd : P1 ++ (orEmit st st1 st3 cL cR lres rres ++ P2) = (P1) ++ (Line.alloc (Operand.var "or_res" st.countName) Ty.int ::
        (cL ++ (Line.binop (Operand.reg st1.countReg) "ne" lres (Operand.imm 0) ::
        Line.br (Operand.reg st1.countReg) "or_true" st1.countLabel "or_false" st1.countLabel ::
        Line.label "or_true" st1.countLabel ::
        Line.store (Operand.imm 1) (Operand.var "or_res" st.countName) ::
        Line.jump "or_end" st1.countLabel ::
        Line.label "or_false" st1.countLabel ::
        (cR ++ (Line.binop (Operand.reg st3.countReg) "ne" rres (Operand.imm 0) ::
        Line.store (Operand.reg st3.countReg) (Operand.var "or_res" st.countName) ::
        Line.jump "or_end" st1.countLabel ::
        Line.label "or_end" st1.countLabel ::
        Line.load (Operand.reg (st3.countReg + 1)) (Operand.var "or_res" st.countName) ::
        P2))))) := by
      simp [orEmit, List.append_assoc]
    have hx := get?_of_decomp hd
    rwa [show (P1).length = P1.length from by
      first
      | rfl
      | (simp only [List.length_append, List.length_cons, List.length_nil]
         try omega)] at hx
  have hstep0 : step (P1 ++ (orEmit st st1 st3 cL cR lres rres ++ P2)) P1.length m =
      some (P1.length + 1, m.setMem "or_res" st.countName 0) :=
    step_at_alloc hget0
  have hfreshL : LabelsOutside ((P1 ++ [Line.alloc (Operand.var "or_res" st.countName) Ty.int]) ++ (Line.binop (Operand.reg st1.countReg) "ne" lres (Operand.imm 0) ::
        Line.br (Operand.reg st1.countReg) "or_true" st1.countLabel "or_false" st1.countLabel ::
        Line.label "or_true" st1.countLabel ::
        Line.store (Operand.imm 1) (Operand.var "or_res" st.countName) ::
        Line.jump "or_end" st1.countLabel ::
        Line.label "or_false" st1.countLabel ::
        (cR ++ (Line.binop (Operand.reg st3.countReg) "ne" rres (Operand.imm 0) ::
        Line.store (Operand.reg st3.countReg) (Operand.var "or_res" st.countName) ::
        Line.jump "or_end" st1.countLabel ::
        Line.label "or_end" st1.countLabel ::
        Line.load (Operand.reg (st3.countReg + 1)) (Operand.var "or_res" st.countName) ::
        P2)))) st.countLabel st1.countLabel := by
    intro s i hm
    rcases List.mem_append.1 hm with hm | hm
    · rcases List.mem_append.1 hm with hm | hm
      · have := hfresh s i (List.mem_append_left _ hm)
        omega
      · simp at hm
    · rcases List.mem_cons.1 hm with hm | hm
      · cases hm
      · rcases List.mem_cons.1 hm with hm | hm
        · cases hm
        · rcases List.mem_cons.1 hm with hm | hm
          · rw [Line.label.injEq] at hm
            obtain ⟨hs, hi⟩ := hm
            omega
          · rcases List.mem_cons.1 hm with hm | hm
            · cases hm
            · rcases List.mem_cons.1 hm with hm | hm
              · cases hm
              · rcases List.mem_cons.1 hm with hm | hm
                · rw [Line.label.injEq] at hm
                  obtain ⟨hs, hi⟩ := hm
                  omega
                · rcases List.mem_append.1 hm with hm | hm
                  · have := hJ s i hm
                    omega
                  · simp only [List.mem_cons] at hm
                    rcases hm with hm | hm | hm | hm | hm | hm
                    · cases hm
                    · cases hm
                    · cases hm
                    · rw [Line.label.injEq] at hm
                      obtain ⟨hs, hi⟩ := hm
                      omega
                    · cases hm
                    · have := hfresh s i (List.mem_append_right _ hm)
                      omega
  obtain ⟨n1, m2, hrun1, hval1, hpres1, hrbL, hmpres1, hmbL⟩ :=
    codeGen_runs hc fuel lv ⟨st.countReg, st.countName + 1, st.countLabel⟩ st1 cL lres hlv h1
      (P1 ++ [Line.alloc (Operand.var "or_res" st.countName) Ty.int])
      (Line.binop (Operand.reg st1.countReg) "ne" lres (Operand.imm 0) ::
        Line.br (Operand.reg st1.countReg) "or_true" st1.countLabel "or_false" st1.countLabel ::
        Line.label "or_true" st1.countLabel ::
        Line.store (Operand.imm 1) (Operand.var "or_res" st.countName) ::
        Line.jump "or_end" st1.countLabel ::
        Line.label "or_false" st1.countLabel ::
        (cR ++ (Line.binop (Operand.reg st3.countReg) "ne" rres (Operand.imm 0) ::
        Line.store (Operand.reg st3.countReg) (Operand.var "or_res" st.countName) ::
        Line.jump "or_end" st1.countLabel ::
        Line.label "or_end" st1.countLabel ::
        Line.load (Operand.reg (st3.countReg + 1)) (Operand.var "or_res" st.countName) ::
        P2)))
      (m.setMem "or_res" st.countName 0)
      hfreshL
      (regsBelow_setMem hreg)
      (memBelow_setMem (memBelow_mono hmem (Nat.le_succ _)) (Nat.lt_succ_self _))
  rw [show (P1 ++ [Line.alloc (Operand.var "or_res" st.countName) Ty.int]) ++ (cL ++ (Line.binop (Operand.reg st1.countReg) "ne" lres (Operand.imm 0) ::
        Line.br (Operand.reg st1.countReg) "or_true" st1.countLabel "or_false" st1.countLabel ::
        Line.label "or_true" st1.countLabel ::
        Line.store (Operand.imm 1) (Operand.var "or_res" st.countName) ::
        Line.jump "or_end" st1.countLabel ::
        Line.label "or_false" st1.countLabel ::
        (cR ++ (Line.binop (Operand.reg st3.countReg) "ne" rres (Operand.imm 0) ::
        Line.store (Operand.reg st3.countReg) (Operand.var "or_res" st.countName) ::
        Line.jump "or_end" st1.countLabel ::
        Line.label "or_end" st1.countLabel ::
        Line.load (Operand.reg (st3.countReg + 1)) (Operand.var "or_res" st.countName) ::
        P2)))) = P1 ++ (orEmit st st1 st3 cL cR lres rres ++ P2) from by
      simp [orEmit, List.append_assoc]] at hrun1
  rw [show (P1 ++ [Line.alloc (Operand.var "or_res" st.countName) Ty.int]).length = P1.length + 1 from by simp] at hrun1
  dsimp only at hval1 hpres1 hrbL hmpres1 hmbL
  have hget_ne : (P1 ++ (orEmit st st1 st3 cL cR lres rres ++ P2)).get? (P1.length + 1 + cL.length) = some (Line.binop (Operand.reg st1.countReg) "ne" lres (Operand.imm 0)) := by
    have hd : P1 ++ (orEmit st st1 st3 cL cR lres rres ++ P2) = (((P1 ++ [Line.alloc (Operand.var "or_res" st.countName) Ty.int]) ++ cL)) ++ (Line.binop (Operand.reg st1.countReg) "ne" lres (Operand.imm 0) ::
        Line.br (Operand.reg st1.countReg) "or_true" st1.countLabel "or_false" st1.countLabel ::
        Line.label "or_true" st1.countLabel ::
        Line.store (Operand.imm 1) (Operand.var "or_res" st.countName) ::
        Line.jump "or_end" st1.countLabel ::
        Line.label "or_false" st1.countLabel ::
        (cR ++ (Line.binop (Operand.reg st3.countReg) "ne" rres (Operand.imm 0) ::
        Line.store (Operand.reg st3.countReg) (Operand.var "or_res" st.countName) ::
        Line.jump "or_end" st1.countLabel ::
        Line.label "or_end" st1.countLabel ::
        Line.load (Operand.reg (st3.countReg + 1)) (Operand.var "or_res" st.countName) ::
        P2))) := by
      simp [orEmit, List.append_assoc]
    have hx := get?_of_decomp hd
    rwa [show (((P1 ++ [Line.alloc (Operand.var "or_res" st.countName) Ty.int]) ++ cL)).length = P1.length + 1 + cL.length from by
      first
      | rfl
      | (simp only [List.length_append, List.length_cons, List.length_nil]
         try omega)] at hx
  have hget_br : (P1 ++ (orEmit st st1 st3 cL cR lres rres ++ P2)).get? (P1.length + 1 + cL.length + 1) = some (Line.br (Operand.reg st1.countReg) "or_true" st1.countLabel "or_false" st1.countLabel) := by
    have hd : P1 ++ (orEmit st st1 st3 cL cR lres rres ++ P2) = ((((P1 ++ [Line.alloc (Operand.var "or_res" st.countName) Ty.int]) ++ cL) ++ [Line.binop (Operand.reg st1.countReg) "ne" lres (Operand.imm 0)])) ++ (Line.br (Operand.reg st1.countReg) "or_true" st1.countLabel "or_false" st1.countLabel ::
        Line.label "or_true" st1.countLabel ::
        Line.store (Operand.imm 1) (Operand.var "or_res" st.countName) ::
        Line.jump "or_end" st1.countLabel ::
        Line.label "or_false" st1.countLabel ::
        (cR ++ (Line.binop (Operand.reg st3.countReg) "ne" rres (Operand.imm 0) ::
        Line.store (Operand.reg st3.countReg) (Operand.var "or_res" st.countName) ::
        Line.jump "or_end" st1.countLabel ::
        Line.label "or_end" st1.countLabel ::
        Line.load (Operand.reg (st3.countReg + 1)) (Operand.var "or_res" st.countName) ::
        P2))) := by
      simp [orEmit, List.append_assoc]
    have hx := get?_of_decomp hd
    rwa [show ((((P1 ++ [Line.alloc (Operand.var "or_res" st.countName) Ty.int]) ++ cL) ++ [Line.binop (Operand.reg st1.countReg) "ne" lres (Operand.imm 0)])).length = P1.length + 1 + cL.length + 1 from by
      first
      | rfl
      | (simp only [List.length_append, List.length_cons, List.length_nil]
         try omega)] at hx
  have hlab_t : labelPos "or_true" st1.countLabel (P1 ++ (orEmit st st1 st3 cL cR lres rres ++ P2)) = some (P1.length + 1 + cL.length + 1 + 1) := by
    have hd : P1 ++ (orEmit st st1 st3 cL cR lres rres ++ P2) = ((((P1 ++ [Line.alloc (Operand.var "or_res" st.countName) Ty.int]) ++ cL) ++ [Line.binop (Operand.reg st1.countReg) "ne" lres (Operand.imm 0), Line.br (Operand.reg st1.countReg) "or_true" st1.countLabel "or_false" st1.countLabel])) ++ (Line.label "or_true" st1.countLabel ::
        Line.store (Operand.imm 1) (Operand.var "or_res" st.countName) ::
        Line.jump "or_end" st1.countLabel ::
        Line.label "or_false" st1.countLabel ::
        (cR ++ (Line.binop (Operand.reg st3.countReg) "ne" rres (Operand.imm 0) ::
        Line.store (Operand.reg st3.countReg) (Operand.var "or_res" st.countName) ::
        Line.jump "or_end" st1.countLabel ::
        Line.label "or_end" st1.countLabel ::
        Line.load (Operand.reg (st3.countReg + 1)) (Operand.var "or_res" st.countName) ::
        P2))) := by
      simp [orEmit, List.append_assoc]
    have hx := labelPos_of_decomp hd (by
      refine notMem_append (notMem_append (notMem_append ?_ ?_) ?_) ?_
      · exact fun hm => by have := hfresh _ _ (List.mem_append_left _ hm); omega
      · simp
      · exact fun hm => by have := labL _ _ hm; omega
      · simp)
    rwa [show ((((P1 ++ [Line.alloc (Operand.var "or_res" st.countName) Ty.int]) ++ cL) ++ [Line.binop (Operand.reg st1.countReg) "ne" lres (Operand.imm 0), Line.br (Operand.reg st1.countReg) "or_true" st1.countLabel "or_false" st1.countLabel])).length = P1.length + 1 + cL.length + 1 + 1 from by
      first
      | rfl
      | (simp only [List.length_append, List.length_cons, List.length_nil]
         try omega)] at hx
  have hget_lt : (P1 ++ (orEmit st st1 st3 cL cR lres rres ++ P2)).get? (P1.length + 1 + cL.length + 1 + 1) = some (Line.label "or_true" st1.countLabel) := by
    have hd : P1 ++ (orEmit st st1 st3 cL cR lres rres ++ P2) = ((((P1 ++ [Line.alloc (Operand.var "or_res" st.countName) Ty.int]) ++ cL) ++ [Line.binop (Operand.reg st1.countReg) "ne" lres (Operand.imm 0), Line.br (Operand.reg st1.countReg) "or_true" st1.countLabel "or_false" st1.countLabel])) ++ (Line.label "or_true" st1.countLabel ::
        Line.store (Operand.imm 1) (Operand.var "or_res" st.countName) ::
        Line.jump "or_end" st1.countLabel ::
        Line.label "or_false" st1.countLabel ::
        (cR ++ (Line.binop (Operand.reg st3.countReg) "ne" rres (Operand.imm 0) ::
        Line.store (Operand.reg st3.countReg) (Operand.var "or_res" st.countName) ::
        Line.jump "or_end" st1.countLabel ::
        Line.label "or_end" st1.countLabel ::
        Line.load (Operand.reg (st3.countReg + 1)) (Operand.var "or_res" st.countName) ::
        P2))) := by
      simp [orEmit, List.append_assoc]
    have hx := get?_of_decomp hd
    rwa [show ((((P1 ++ [Line.alloc (Operand.var "or_res" st.countName) Ty.int]) ++ cL) ++ [Line.binop (Operand.reg st1.countReg) "ne" lres (Operand.imm 0), Line.br (Operand.reg st1.countReg) "or_true" st1.countLabel "or_false" st1.countLabel])).length = P1.length + 1 + cL.length + 1 + 1 from by
      first
      | rfl
      | (simp only [List.length_append, List.length_cons, List.length_nil]
         try omega)] at hx
  have hget_a4 : (P1 ++ (orEmit st st1 st3 cL cR lres rres ++ P2)).get? (P1.length + 1 + cL.length + 1 + 1 + 1) = some (Line.store (Operand.imm 1) (Operand.var "or_res" st.countName)) := by
    have hd : P1 ++ (orEmit st st1 st3 cL cR lres rres ++ P2) = ((((P1 ++ [Line.alloc (Operand.var "or_res" st.countName) Ty.int]) ++ cL) ++ [Line.binop (Operand.reg st1.countReg) "ne" lres (Operand.imm 0), Line.br (Operand.reg st1.countReg) "or_true" st1.countLabel "or_false" st1.countLabel, Line.label "or_true" st1.countLabel])) ++ (Line.store (Operand.imm 1) (Operand.var "or_res" st.countName) ::
        Line.jump "or_end" st1.countLabel ::
        Line.label "or_false" st1.countLabel ::
        (cR ++ (Line.binop (Operand.reg st3.countReg) "ne" rres (Operand.imm 0) ::
        Line.store (Operand.reg st3.countReg) (Operand.var "or_res" st.countName) ::
        Line.jump "or_end" st1.countLabel ::
        Line.label "or_end" st1.countLabel ::
        Line.load (Operand.reg (st3.countReg + 1)) (Operand.var "or_res" st.countName) ::
        P2))) := by
      simp [orEmit, List.append_assoc]
    have hx := get?_of_decomp hd
    rwa [show ((((P1 ++ [Line.alloc (Operand.var "or_res" st.countName) Ty.int]) ++ cL) ++ [Line.binop (Operand.reg st1.countReg) "ne" lres (Operand.imm 0), Line.br (Operand.reg st1.countReg) "or_true" st1.countLabel "or_false" st1.countLabel, Line.label "or_true" st1.countLabel])).length = P1.length + 1 + cL.length + 1 + 1 + 1 from by
      first
      | rfl
      | (simp only [List.length_append, List.length_cons, List.length_nil]
         try omega)] at hx
  have hget_a5 : (P1 ++ (orEmit st st1 st3 cL cR lres rres ++ P2)).get? (P1.length + 1 + cL.length + 1 + 1 + 1 + 1) = some (Line.jump "or_end" st1.countLabel) := by
    have hd : P1 ++ (orEmit st st1 st3 cL cR lres rres ++ P2) = ((((P1 ++ [Line.alloc (Operand.var "or_res" st.countName) Ty.int]) ++ cL) ++ [Line.binop (Operand.reg st1.countReg) "ne" lres (Operand.imm 0), Line.br (Operand.reg st1.countReg) "or_true" st1.countLabel "or_false" st1.countLabel, Line.label "or_true" st1.countLabel, Line.store (Operand.imm 1) (Operand.var "or_res" st.countName)])) ++ (Line.jump "or_end" st1.countLabel ::
        Line.label "or_false" st1.countLabel ::
        (cR ++ (Line.binop (Operand.reg st3.countReg) "ne" rres (Operand.imm 0) ::
        Line.store (Operand.reg st3.countReg) (Operand.var "or_res" st.countName) ::
        Line.jump "or_end" st1.countLabel ::
        Line.label "or_end" st1.countLabel ::
        Line.load (Operand.reg (st3.countReg + 1)) (Operand.var "or_res" st.countName) ::
        P2))) := by
      simp [orEmit, List.append_assoc]
    have hx := get?_of_decomp hd
    rwa [show ((((P1 ++ [Line.alloc (Operand.var "or_res" st.countName) Ty.int]) ++ cL) ++ [Line.binop (Operand.reg st1.countReg) "ne" lres (Operand.imm 0), Line.br (Operand.reg st1.countReg) "or_true" st1.countLabel "or_false" st1.countLabel, Line.label "or_true" st1.countLabel, Line.store (Operand.imm 1) (Operand.var "or_res" st.countName)])).length = P1.length + 1 + cL.length + 1 + 1 + 1 + 1 from by
      first
      | rfl
      | (simp only [List.length_append, List.length_cons, List.length_nil]
         try omega)] at hx
  have hlab_f : labelPos "or_false" st1.countLabel (P1 ++ (orEmit st st1 st3 cL cR lres rres ++ P2)) = some (P1.length + 1 + cL.length + 1 + 1 + 1 + 1 + 1) := by
    have hd : P1 ++ (orEmit st st1 st3 cL cR lres rres ++ P2) = ((((P1 ++ [Line.alloc (Operand.var "or_res" st.countName) Ty.int]) ++ cL) ++ [Line.binop (Operand.reg st1.countReg) "ne" lres (Operand.imm 0), Line.br (Operand.reg st1.countReg) "or_true" st1.countLabel "or_false" st1.countLabel, Line.label "or_true" st1.countLabel, Line.store (Operand.imm 1) (Operand.var "or_res" st.countName), Line.jump "or_end" st1.countLabel])) ++ (Line.label "or_false" st1.countLabel ::
        (cR ++ (Line.binop (Operand.reg st3.countReg) "ne" rres (Operand.imm 0) ::
        Line.store (Operand.reg st3.countReg) (Operand.var "or_res" st.countName) ::
        Line.jump "or_end" st1.countLabel ::
        Line.label "or_end" st1.countLabel ::
        Line.load (Operand.reg (st3.countReg + 1)) (Operand.var "or_res" st.countName) ::
        P2))) := by
      simp [orEmit, List.append_assoc]
    have hx := labelPos_of_decomp hd (by
      refine notMem_append (notMem_append (notMem_append ?_ ?_) ?_) ?_
      · exact fun hm => by have := hfresh _ _ (List.mem_append_left _ hm); omega
      · simp
      · exact fun hm => by have := labL _ _ hm; omega
      · simp)
    rwa [show ((((P1 ++ [Line.alloc (Operand.var "or_res" st.countName) Ty.int]) ++ cL) ++ [Line.binop (Operand.reg st1.countReg) "ne" lres (Operand.imm 0), Line.br (Operand.reg st1.countReg) "or_true" st1.countLabel "or_false" st1.countLabel, Line.label "or_true" st1.countLabel, Line.store (Operand.imm 1) (Operand.var "or_res" st.countName), Line.jump "or_end" st1.countLabel])).length = P1.length + 1 + cL.length + 1 + 1 + 1 + 1 + 1 from by
      first
      | rfl
      | (simp only [List.length_append, List.length_cons, List.length_nil]
         try omega)] at hx
  have hget_lf : (P1 ++ (orEmit st st1 st3 cL cR lres rres ++ P2)).get? (P1.length + 1 + cL.length + 1 + 1 + 1 + 1 + 1) = some (Line.label "or_false" st1.countLabel) := by
    have hd : P1 ++ (orEmit st st1 st3 cL cR lres rres ++ P2) = ((((P1 ++ [Line.alloc (Operand.var "or_res" st.countName) Ty.int]) ++ cL) ++ [Line.binop (Operand.reg st1.countReg) "ne" lres (Operand.imm 0), Line.br (Operand.reg st1.countReg) "or_true" st1.countLabel "or_false" st1.countLabel, Line.label "or_true" st1.countLabel, Line.store (Operand.imm 1) (Operand.var "or_res" st.countName), Line.jump "or_end" st1.countLabel])) ++ (Line.label "or_false" st1.countLabel ::
        (cR ++ (Line.binop (Operand.reg st3.countReg) "ne" rres (Operand.imm 0) ::
        Line.store (Operand.reg st3.countReg) (Operand.var "or_res" st.countName) ::
        Line.jump "or_end" st1.countLabel ::
        Line.label "or_end" st1.countLabel ::
        Line.load (Operand.reg (st3.countReg + 1)) (Operand.var "or_res" st.countName) ::
        P2))) := by
      simp [orEmit, List.append_assoc]
    have hx := get?_of_decomp hd
    rwa [show ((((P1 ++ [Line.alloc (Operand.var "or_res" st.countName) Ty.int]) ++ cL) ++ [Line.binop (Operand.reg st1.countReg) "ne" lres (Operand.imm 0), Line.br (Operand.reg st1.countReg) "or_true" st1.countLabel "or_false" st1.countLabel, Line.label "or_true" st1.countLabel, Line.store (Operand.imm 1) (Operand.var "or_res" st.countName), Line.jump "or_end" st1.countLabel])).length = P1.length + 1 + cL.length + 1 + 1 + 1 + 1 + 1 from by
      first
      | rfl
      | (simp only [List.length_append, List.length_cons, List.length_nil]
         try omega)] at hx
  have hlab_e : labelPos "or_end" st1.countLabel (P1 ++ (orEmit st st1 st3 cL cR lres rres ++ P2)) = some (P1.length + 1 + cL.length + 1 + 1 + 1 + 1 + 1 + 1 + cR.length + 1 + 1 + 1) := by
    have hd : P1 ++ (orEmit st st1 st3 cL cR lres rres ++ P2) = (((((P1 ++ [Line.alloc (Operand.var "or_res" st.countName) Ty.int]) ++ cL) ++ [Line.binop (Operand.reg st1.countReg) "ne" lres (Operand.imm 0), Line.br (Operand.reg st1.countReg) "or_true" st1.countLabel "or_false" st1.countLabel, Line.label "or_true" st1.countLabel, Line.store (Operand.imm 1) (Operand.var "or_res" st.countName), Line.jump "or_end" st1.countLabel, Line.label "or_false" st1.countLabel]) ++ cR ++ [Line.binop (Operand.reg st3.countReg) "ne" rres (Operand.imm 0), Line.store (Operand.reg st3.countReg) (Operand.var "or_res" st.countName), Line.jump "or_end" st1.countLabel])) ++ (Line.label "or_end" st1.countLabel ::
        Line.load (Operand.reg (st3.countReg + 1)) (Operand.var "or_res" st.countName) ::
        P2) := by
      simp [orEmit, List.append_assoc]
    have hx := labelPos_of_decomp hd (by
      refine notMem_append (notMem_append (notMem_append (notMem_append
        (notMem_append ?_ ?_) ?_) ?_) ?_) ?_
      · exact fun hm => by have := hfresh _ _ (List.mem_append_left _ hm); omega
      · simp
      · exact fun hm => by have := labL _ _ hm; omega
      · simp
      · exact fun hm => by have := hJ _ _ hm; omega
      · simp)
    rwa [show (((((P1 ++ [Line.alloc (Operand.var "or_res" st.countName) Ty.int]) ++ cL) ++ [Line.binop (Operand.reg st1.countReg) "ne" lres (Operand.imm 0), Line.br (Operand.reg st1.countReg) "or_true" st1.countLabel "or_false" st1.countLabel, Line.label "or_true" st1.countLabel, Line.store (Operand.imm 1) (Operand.var "or_res" st.countName), Line.jump "or_end" st1.countLabel, Line.label "or_false" st1.countLabel]) ++ cR ++ [Line.binop (Operand.reg st3.countReg) "ne" rres (Operand.imm 0), Line.store (Operand.reg st3.countReg) (Operand.var "or_res" st.countName), Line.jump "or_end" st1.countLabel])).length = P1.length + 1 + cL.length + 1 + 1 + 1 + 1 + 1 + 1 + cR.length + 1 + 1 + 1 from by
      first
      | rfl
      | (simp only [List.length_append, List.length_cons, List.length_nil]
         try omega)] at hx
  have hget_b0 : (P1 ++ (orEmit st st1 st3 cL cR lres rres ++ P2)).get? (P1.length + 1 + cL.length + 1 + 1 + 1 + 1 + 1 + 1 + cR.length) = some (Line.binop (Operand.reg st3.countReg) "ne" rres (Operand.imm 0)) := by
    have hd : P1 ++ (orEmit st st1 st3 cL cR lres rres ++ P2) = (((((P1 ++ [Line.alloc (Operand.var "or_res" st.countName) Ty.int]) ++ cL) ++ [Line.binop (Operand.reg st1.countReg) "ne" lres (Operand.imm 0), Line.br (Operand.reg st1.countReg) "or_true" st1.countLabel "or_false" st1.countLabel, Line.label "or_true" st1.countLabel, Line.store (Operand.imm 1) (Operand.var "or_res" st.countName), Line.jump "or_end" st1.countLabel, Line.label "or_false" st1.countLabel]) ++ cR)) ++ (Line.binop (Operand.reg st3.countReg) "ne" rres (Operand.imm 0) ::
        Line.store (Operand.reg st3.countReg) (Operand.var "or_res" st.countName) ::
        Line.jump "or_end" st1.countLabel ::
        Line.label "or_end" st1.countLabel ::
        Line.load (Operand.reg (st3.countReg + 1)) (Operand.var "or_res" st.countName) ::
        P2) := by
      simp [orEmit, List.append_assoc]
    have hx := get?_of_decomp hd
    rwa [show (((((P1 ++ [Line.alloc (Operand.var "or_res" st.countName) Ty.int]) ++ cL) ++ [Line.binop (Operand.reg st1.countReg) "ne" lres (Operand.imm 0), Line.br (Operand.reg st1.countReg) "or_true" st1.countLabel "or_false" st1.countLabel, Line.label "or_true" st1.countLabel, Line.store (Operand.imm 1) (Operand.var "or_res" st.countName), Line.jump "or_end" st1.countLabel, Line.label "or_false" st1.countLabel]) ++ cR)).length = P1.length + 1 + cL.length + 1 + 1 + 1 + 1 + 1 + 1 + cR.length from by
      first
      | rfl
      | (simp only [List.length_append, List.length_cons, List.length_nil]
         try omega)] at hx
  have hget_b1 : (P1 ++ (orEmit st st1 st3 cL cR lres rres ++ P2)).get? (P1.length + 1 + cL.length + 1 + 1 + 1 + 1 + 1 + 1 + cR.length + 1) = some (Line.store (Operand.reg st3.countReg) (Operand.var "or_res" st.countName)) := by
    have hd : P1 ++ (orEmit st st1 st3 cL cR lres rres ++ P2) = (((((P1 ++ [Line.alloc (Operand.var "or_res" st.countName) Ty.int]) ++ cL) ++ [Line.binop (Operand.reg st1.countReg) "ne" lres (Operand.imm 0), Line.br (Operand.reg st1.countReg) "or_true" st1.countLabel "or_false" st1.countLabel, Line.label "or_true" st1.countLabel, Line.store (Operand.imm 1) (Operand.var "or_res" st.countName), Line.jump "or_end" st1.countLabel, Line.label "or_false" st1.countLabel]) ++ cR ++ [Line.binop (Operand.reg st3.countReg) "ne" rres (Operand.imm 0)])) ++ (Line.store (Operand.reg st3.countReg) (Operand.var "or_res" st.countName) ::
        Line.jump "or_end" st1.countLabel ::
        Line.label "or_end" st1.countLabel ::
        Line.load (Operand.reg (st3.countReg + 1)) (Operand.var "or_res" st.countName) ::
        P2) := by
      simp [orEmit, List.append_assoc]
    have hx := get?_of_decomp hd
    rwa [show (((((P1 ++ [Line.alloc (Operand.var "or_res" st.countName) Ty.int]) ++ cL) ++ [Line.binop (Operand.reg st1.countReg) "ne" lres (Operand.imm 0), Line.br (Operand.reg st1.countReg) "or_true" st1.countLabel "or_false" st1.countLabel, Line.label "or_true" st1.countLabel, Line.store (Operand.imm 1) (Operand.var "or_res" st.countName), Line.jump "or_end" st1.countLabel, Line.label "or_false" st1.countLabel]) ++ cR ++ [Line.binop (Operand.reg st3.countReg) "ne" rres (Operand.imm 0)])).length = P1.length + 1 + cL.length + 1 + 1 + 1 + 1 + 1 + 1 + cR.length + 1 from by
      first
      | rfl
      | (simp only [List.length_append, List.length_cons, List.length_nil]
         try omega)] at hx
  have hget_b2 : (P1 ++ (orEmit st st1 st3 cL cR lres rres ++ P2)).get? (P1.length + 1 + cL.length + 1 + 1 + 1 + 1 + 1 + 1 + cR.length + 1 + 1) = some (Line.jump "or_end" st1.countLabel) := by
    have hd : P1 ++ (orEmit st st1 st3 cL cR lres rres ++ P2) = (((((P1 ++ [Line.alloc (Operand.var "or_res" st.countName) Ty.int]) ++ cL) ++ [Line.binop (Operand.reg st1.countReg) "ne" lres (Operand.imm 0), Line.br (Operand.reg st1.countReg) "or_true" st1.countLabel "or_false" st1.countLabel, Line.label "or_true" st1.countLabel, Line.store (Operand.imm 1) (Operand.var "or_res" st.countName), Line.jump "or_end" st1.countLabel, Line.label "or_false" st1.countLabel]) ++ cR ++ [Line.binop (Operand.reg st3.countReg) "ne" rres (Operand.imm 0), Line.store (Operand.reg st3.countReg) (Operand.var "or_res" st.countName)])) ++ (Line.jump "or_end" st1.countLabel ::
        Line.label "or_end" st1.countLabel ::
        Line.load (Operand.reg (st3.countReg + 1)) (Operand.var "or_res" st.countName) ::
        P2) := by
      simp [orEmit, List.append_assoc]
    have hx := get?_of_decomp hd
    rwa [show (((((P1 ++ [Line.alloc (Operand.var "or_res" st.countName) Ty.int]) ++ cL) ++ [Line.binop (Operand.reg st1.countReg) "ne" lres (Operand.imm 0), Line.br (Operand.reg st1.countReg) "or_true" st1.countLabel "or_false" st1.countLabel, Line.label "or_true" st1.countLabel, Line.store (Operand.imm 1) (Operand.var "or_res" st.countName), Line.jump "or_end" st1.countLabel, Line.label "or_false" st1.countLabel]) ++ cR ++ [Line.binop (Operand.reg st3.countReg) "ne" rres (Operand.imm 0), Line.store (Operand.reg st3.countReg) (Operand.var "or_res" st.countName)])).length = P1.length + 1 + cL.length + 1 + 1 + 1 + 1 + 1 + 1 + cR.length + 1 + 1 from by
      first
      | rfl
      | (simp only [List.length_append, List.length_cons, List.length_nil]
         try omega)] at hx
  have hget_b3 : (P1 ++ (orEmit st st1 st3 cL cR lres rres ++ P2)).get? (P1.length + 1 + cL.length + 1 + 1 + 1 + 1 + 1 + 1 + cR.length + 1 + 1 + 1) = some (Line.label "or_end" st1.countLabel) := by
    have hd : P1 ++ (orEmit st st1 st3 cL cR lres rres ++ P2) = (((((P1 ++ [Line.alloc (Operand.var "or_res" st.countName) Ty.int]) ++ cL) ++ [Line.binop (Operand.reg st1.countReg) "ne" lres (Operand.imm 0), Line.br (Operand.reg st1.countReg) "or_true" st1.countLabel "or_false" st1.countLabel, Line.label "or_true" st1.countLabel, Line.store (Operand.imm 1) (Operand.var "or_res" st.countName), Line.jump "or_end" st1.countLabel, Line.label "or_false" st1.countLabel]) ++ cR ++ [Line.binop (Operand.reg st3.countReg) "ne" rres (Operand.imm 0), Line.store (Operand.reg st3.countReg) (Operand.var "or_res" st.countName), Line.jump "or_end" st1.countLabel])) ++ (Line.label "or_end" st1.countLabel ::
        Line.load (Operand.reg (st3.countReg + 1)) (Operand.var "or_res" st.countName) ::
        P2) := by
      simp [orEmit, List.append_assoc]
    have hx := get?_of_decomp hd
    rwa [show (((((P1 ++ [Line.alloc (Operand.var "or_res" st.countName) Ty.int]) ++ cL) ++ [Line.binop (Operand.reg st1.countReg) "ne" lres (Operand.imm 0), Line.br (Operand.reg st1.countReg) "or_true" st1.countLabel "or_false" st1.countLabel, Line.label "or_true" st1.countLabel, Line.store (Operand.imm 1) (Operand.var "or_res" st.countName), Line.jump "or_end" st1.countLabel, Line.label "or_false" st1.countLabel]) ++ cR ++ [Line.binop (Operand.reg st3.countReg) "ne" rres (Operand.imm 0), Line.store (Operand.reg st3.countReg) (Operand.var "or_res" st.countName), Line.jump "or_end" st1.countLabel])).length = P1.length + 1 + cL.length + 1 + 1 + 1 + 1 + 1 + 1 + cR.length + 1 + 1 + 1 from by
      first
      | rfl
      | (simp only [List.length_append, List.length_cons, List.length_nil]
         try omega)] at hx
  have hget_b4 : (P1 ++ (orEmit st st1 st3 cL cR lres rres ++ P2)).get? (P1.length + 1 + cL.length + 1 + 1 + 1 + 1 + 1 + 1 + cR.length + 1 + 1 + 1 + 1) = some (Line.load (Operand.reg (st3.countReg + 1)) (Operand.var "or_res" st.countName)) := by
    have hd : P1 ++ (orEmit st st1 st3 cL cR lres rres ++ P2) = (((((P1 ++ [Line.alloc (Operand.var "or_res" st.countName) Ty.int]) ++ cL) ++ [Line.binop (Operand.reg st1.countReg) "ne" lres (Operand.imm 0), Line.br (Operand.reg st1.countReg) "or_true" st1.countLabel "or_false" st1.countLabel, Line.label "or_true" st1.countLabel, Line.store (Operand.imm 1) (Operand.var "or_res" st.countName), Line.jump "or_end" st1.countLabel, Line.label "or_false" st1.countLabel]) ++ cR ++ [Line.binop (Operand.reg st3.countReg) "ne" rres (Operand.imm 0), Line.store (Operand.reg st3.countReg) (Operand.var "or_res" st.countName), Line.jump "or_end" st1.countLabel, Line.label "or_end" st1.countLabel])) ++ (Line.load (Operand.reg (st3.countReg + 1)) (Operand.var "or_res" st.countName) ::
        P2) := by
      simp [orEmit, List.append_assoc]
    have hx := get?_of_decomp hd
    rwa [show (((((P1 ++ [Line.alloc (Operand.var "or_res" st.countName) Ty.int]) ++ cL) ++ [Line.binop (Operand.reg st1.countReg) "ne" lres (Operand.imm 0), Line.br (Operand.reg st1.countReg) "or_true" st1.countLabel "or_false" st1.countLabel, Line.label "or_true" st1.countLabel, Line.store (Operand.imm 1) (Operand.var "or_res" st.countName), Line.jump "or_end" st1.countLabel, Line.label "or_false" st1.countLabel]) ++ cR ++ [Line.binop (Operand.reg st3.countReg) "ne" rres (Operand.imm 0), Line.store (Operand.reg st3.countReg) (Operand.var "or_res" st.countName), Line.jump "or_end" st1.countLabel, Line.label "or_end" st1.countLabel])).length = P1.length + 1 + cL.length + 1 + 1 + 1 + 1 + 1 + 1 + cR.length + 1 + 1 + 1 + 1 from by
      first
      | rfl
      | (simp only [List.length_append, List.length_cons, List.length_nil]
         try omega)] at hx
  have hne1 : evalMn "ne" lv 0 = some 1 := by
    simp [evalMn, hlv0]
  have hbrval : (m2.setReg st1.countReg 1).evalOpnd (Operand.reg st1.countReg) = some 1 := by
    rw [Mach.evalOpnd, Mach.regs_setReg_self]
  refine ⟨_, _, stepN_trans (stepN_one hstep0) (stepN_trans hrun1 (stepN_trans
    (stepN_one (step_at_binop hget_ne hval1 rfl hne1))
    (stepN_trans (stepN_one (step_at_br_true hget_br hbrval (by decide) hlab_t))
    (stepN_trans (stepN_one (step_at_label hget_lt))
    (stepN_trans (stepN_one (step_at_store hget_a4 rfl))
    (stepN_trans (stepN_one (step_at_jump hget_a5 hlab_e))
    (stepN_trans (stepN_one (step_at_label hget_b3))
    (stepN_one (step_at_load hget_b4 Mach.mem_setMem_self))))))))), ?_⟩
  · rw [Mach.evalOpnd, Mach.regs_setReg_self]

/-- C2: lowering `&&` / `||` emits the short-circuit diamond: a scratch
`alloc i32`, the left operand's code, an `ne 0` comparison and a branch;
the right operand's code appears only in the branch where the left value
does not decide the result (the true branch for `&&`, the false branch for
`||`), the other branch storing the constant `0` (`&&`) or `1` (`||`);
both branches store a normalised boolean (`ne rhs, 0`) and jump to the end
label, where the scratch cell is loaded and returned — the exact sequences
`andEmit` / `orEmit`. At run time the right operand's region is never
executed when the left operand is decisive: execution completes for an
arbitrary right-hand region, yielding the decided value. -/
theorem C2_short_circuit :
    (∀ G fuel l r st st' code res,
      codeGen G (fuel + 1) (Expr.binary .and l r) st = .ok (st', code, res) →
      ∃ st1 cL lres st3 cR rres,
        codeGen G fuel l ⟨st.countReg, st.countName + 1, st.countLabel⟩ = .ok (st1, cL, lres) ∧
        codeGen G fuel r ⟨st1.countReg + 1, st1.countName, st1.countLabel + 1⟩
          = .ok (st3, cR, rres) ∧
        code = andEmit st st1 st3 cL cR lres rres ∧
        res = Operand.reg (st3.countReg + 1)) ∧
    (∀ G fuel l r st st' code res,
      codeGen G (fuel + 1) (Expr.binary .or l r) st = .ok (st', code, res) →
      ∃ st1 cL lres st3 cR rres,
        codeGen G fuel l ⟨st.countReg, st.countName + 1, st.countLabel⟩ = .ok (st1, cL, lres) ∧
        codeGen G fuel r ⟨st1.countReg + 1, st1.countName, st1.countLabel + 1⟩
          = .ok (st3, cR, rres) ∧
        code = orEmit st st1 st3 cL cR lres rres ∧
        res = Operand.reg (st3.countReg + 1)) ∧
    (∀ G l fuel st st1 st3 cL cJ lres rres,
      ConstExpr G l →
      CalcValue G l = .ok 0 →
      codeGen G fuel l ⟨st.countReg, st.countName + 1, st.countLabel⟩ = .ok (st1, cL, lres) →
      LabelsOutside cJ st.countLabel (st1.countLabel + 1) →
      ∀ m, RegsBelow m st.countReg → MemBelow m st.countName →
        ∃ n m',
          stepN (andEmit st st1 st3 cL cJ lres rres) n 0 m
            = some ((andEmit st st1 st3 cL cJ lres rres).length, m') ∧
          m'.evalOpnd (.reg (st3.countReg + 1)) = some 0) ∧
    (∀ G l fuel lv st st1 st3 cL cJ lres rres,
      ConstExpr G l →
      CalcValue G l = .ok lv → lv ≠ 0 →
      codeGen G fuel l ⟨st.countReg, st.countName + 1, st.countLabel⟩ = .ok (st1, cL, lres) →
      LabelsOutside cJ st.countLabel (st1.countLabel + 1) →
      ∀ m, RegsBelow m st.countReg → MemBelow m st.countName →
        ∃ n m',
          stepN (orEmit st st1 st3 cL cJ lres rres) n 0 m
            = some ((orEmit st st1 st3 cL cJ lres rres).length, m') ∧
          m'.evalOpnd (.reg (st3.countReg + 1)) = some 1) := by
  refine ⟨?_, ?_, ?_, ?_⟩
  · intro G fuel l r st st' code res h
    simp only [codeGen, BuildSt.newVar, BuildSt.allocLabelId, BuildSt.newReg,
      bind_ok_iff, Except.ok.injEq, Prod.mk.injEq] at h
    obtain ⟨⟨st1, cL, lres⟩, h1, ⟨st3, cR, rres⟩, h2, hst, hcode, hres⟩ := h
    try dsimp only at h2 hst hcode hres
    exact ⟨st1, cL, lres, st3, cR, rres, h1, h2, hcode.symm, hres.symm⟩
  · intro G fuel l r st st' code res h
    simp only [codeGen, BuildSt.newVar, BuildSt.allocLabelId, BuildSt.newReg,
      bind_ok_iff, Except.ok.injEq, Prod.mk.injEq] at h
    obtain ⟨⟨st1, cL, lres⟩, h1, ⟨st3, cR, rres⟩, h2, hst, hcode, hres⟩ := h
    try dsimp only at h2 hst hcode hres
    exact ⟨st1, cL, lres, st3, cR, rres, h1, h2, hcode.symm, hres.symm⟩
  · intro G l fuel st st1 st3 cL cJ lres rres hc hlv h1 hJ m hreg hmem
    obtain ⟨n, m', hrun, hval⟩ :=
      runs_and_skips_rhs st3 rres hc hlv h1 hJ [] [] m
        (fun s i hm => by simp at hm) hreg hmem
    refine ⟨n, m', ?_, hval⟩
    simpa using hrun
  · intro G l fuel lv st st1 st3 cL cJ lres rres hc hlv hlv0 h1 hJ m hreg hmem
    obtain ⟨n, m', hrun, hval⟩ :=
      runs_or_skips_rhs st3 rres hc hlv hlv0 h1 hJ [] [] m
        (fun s i hm => by simp at hm) hreg hmem
    refine ⟨n, m', ?_, hval⟩
    simpa using hrun

/-- Witness for C2: with a decisive left operand (`0` for `&&`, `5` for
`||`) and a side-effecting call as the entire right-hand region, execution
still completes and produces the decided value — the call line is never
executed. -/
theorem C2_witness :
    (∃ n m',
      stepN (andEmit ⟨0, 0, 0⟩ ⟨0, 1, 0⟩ ⟨2, 1, 1⟩ []
          [Line.callL (some (.reg 2)) "getint" []] (.imm 0) (.reg 2)) n 0 Mach.empty
        = some ((andEmit ⟨0, 0, 0⟩ ⟨0, 1, 0⟩ ⟨2, 1, 1⟩ []
          [Line.callL (some (.reg 2)) "getint" []] (.imm 0) (.reg 2)).length, m') ∧
      m'.evalOpnd (.reg 3) = some 0) ∧
    (∃ n m',
      stepN (orEmit ⟨0, 0, 0⟩ ⟨0, 1, 0⟩ ⟨2, 1, 1⟩ []
          [Line.callL (some (.reg 2)) "getint" []] (.imm 5) (.reg 2)) n 0 Mach.empty
        = some ((orEmit ⟨0, 0, 0⟩ ⟨0, 1, 0⟩ ⟨2, 1, 1⟩ []
          [Line.callL (some (.reg 2)) "getint" []] (.imm 5) (.reg 2)).length, m') ∧
      m'.evalOpnd (.reg 3) = some 1) :=
  ⟨C2_short_circuit.2.2.1 envEmpty (.num 0) 1 ⟨0, 0, 0⟩ ⟨0, 1, 0⟩ ⟨2, 1, 1⟩ []
      [Line.callL (some (.reg 2)) "getint" []] (.imm 0) (.reg 2)
      (ConstExpr.num _) rfl rfl (fun s i hm => by simp at hm)
      Mach.empty (fun k hk => absurd rfl hk) (fun id j hj => absurd rfl hj),
   C2_short_circuit.2.2.2 envEmpty (.num 5) 1 5 ⟨0, 0, 0⟩ ⟨0, 1, 0⟩ ⟨2, 1, 1⟩ []
      [Line.callL (some (.reg 2)) "getint" []] (.imm 5) (.reg 2)
      (ConstExpr.num _) rfl (by decide) rfl (fun s i hm => by simp at hm)
      Mach.empty (fun k hk => absurd rfl hk) (fun id j hj => absurd rfl hj)⟩

/-- C4: the four result cases of `LValAST::codeGen` (codegen.cpp:742-793).
A scalar const with no indices returns the stored constant literal with no
IR; an index walk resolving to an `Int` location appends a single `load`
and returns its register; a partial subscript (walked type still an array)
appends the decay `getelemptr ptr, 0` and returns its register; a bare
pointer parameter with no indices returns just the loaded pointer — one
`load`, no decay instruction. -/
theorem C4_lval_read_cases :
    (∀ (G : Env) fuel id sym st,
      G id = some sym → sym.isConst = true → sym.ty.is_int = true →
      codeGen G (fuel + 1) (.lval id []) st = .ok (st, [], .imm sym.constValue)) ∧
    (∀ (G : Env) fuel id idxs sym st preCode curPtr curTy st0 st1 w ptr ty,
      G id = some sym →
      (sym.isConst && idxs.isEmpty && sym.ty.is_int) = false →
      ptrPreload sym st = (preCode, curPtr, curTy, st0) →
      lvalWalk (codeGen G fuel) sym.ty.is_ptr true idxs curTy curPtr st0
        = .ok (st1, w, ptr, ty) →
      ty.is_int = true →
      (sym.ty.is_ptr && idxs.isEmpty) = false →
      codeGen G (fuel + 1) (.lval id idxs) st
        = .ok (⟨st1.countReg + 1, st1.countName, st1.countLabel⟩,
            preCode ++ w ++ [.load (.reg st1.countReg) ptr], .reg st1.countReg)) ∧
    (∀ (G : Env) fuel id idxs sym st preCode curPtr curTy st0 st1 w ptr ty,
      G id = some sym →
      (sym.isConst && idxs.isEmpty && sym.ty.is_int) = false →
      ptrPreload sym st = (preCode, curPtr, curTy, st0) →
      lvalWalk (codeGen G fuel) sym.ty.is_ptr true idxs curTy curPtr st0
        = .ok (st1, w, ptr, ty) →
      ty.is_int = false →
      (sym.ty.is_ptr && idxs.isEmpty) = false →
      codeGen G (fuel + 1) (.lval id idxs) st
        = .ok (⟨st1.countReg + 1, st1.countName, st1.countLabel⟩,
            preCode ++ w ++ [.getelemptr (.reg st1.countReg) ptr (.imm 0)],
            .reg st1.countReg)) ∧
    (∀ (G : Env) fuel id sym st target,
      G id = some sym → sym.ty = .ptr target →
      codeGen G (fuel + 1) (.lval id []) st
        = .ok (⟨st.countReg + 1, st.countName, st.countLabel⟩,
            [.load (.reg st.countReg) sym.irName], .reg st.countReg)) := by
  refine ⟨?_, ?_, ?_, ?_⟩
  · intro G fuel id sym st hG hconst hint
    simp only [codeGen, hG, hconst, hint, List.isEmpty_nil, Bool.and_self, Bool.and_true,
      if_true]
  · intro G fuel id idxs sym st preCode curPtr curTy st0 st1 w ptr ty
      hG hns hpp hwalk hint hbare
    simp only [codeGen, hG, hns, Bool.false_eq_true, if_false, hpp, hwalk, Bind.bind,
      Except.bind, BuildSt.newReg, hint, hbare, Bool.not_false, Bool.and_true,
      Bool.true_and, if_true]
  · intro G fuel id idxs sym st preCode curPtr curTy st0 st1 w ptr ty
      hG hns hpp hwalk hint hbare
    simp only [codeGen, hG, hns, Bool.false_eq_true, if_false, hpp, hwalk, Bind.bind,
      Except.bind, BuildSt.newReg, hint, hbare, Bool.not_false, Bool.and_true,
      Bool.true_and, Bool.false_and, Bool.and_false, if_false]
  · intro G fuel id sym st target hG hptr
    simp only [codeGen, hG, hptr, ptrPreload, lvalWalk, Ty.is_int, Ty.is_ptr,
      BuildSt.newReg, List.isEmpty_nil, Bool.and_false, Bool.and_true, Bool.and_self,
      Bool.false_eq_true, if_false, Bind.bind, Except.bind, Bool.not_true, Bool.false_and,
      List.append_nil, List.nil_append, if_true]

/-- Witness for C4: the four cases at concrete symbols — const `c` returns
`42` with no IR; int variable `x` emits one `load`; partial subscript
`a[1]` ends in the decay `getelemptr _, 0`; bare pointer parameter `p`
emits one `load` and no decay. -/
theorem C4_witness :
    codeGen envW 1 (.lval "c" []) ⟨0, 0, 0⟩ = .ok (⟨0, 0, 0⟩, [], .imm 42) ∧
    codeGen envX 1 (.lval "x" []) ⟨0, 0, 0⟩
      = .ok (⟨1, 0, 0⟩, [.load (.reg 0) (.var "x" 0)], .reg 0) ∧
    codeGen envW 2 (.lval "a" [.num 1]) ⟨0, 0, 0⟩
      = .ok (⟨2, 0, 0⟩, [.getelemptr (.reg 0) (.var "a" 0) (.imm 1),
          .getelemptr (.reg 1) (.reg 0) (.imm 0)], .reg 1) ∧
    codeGen envW 1 (.lval "p" []) ⟨0, 0, 0⟩
      = .ok (⟨1, 0, 0⟩, [.load (.reg 0) (.var "p" 0)], .reg 0) :=
  ⟨C4_lval_read_cases.1 envW 0 "c" _ ⟨0, 0, 0⟩ rfl rfl rfl,
   C4_lval_read_cases.2.1 envX 0 "x" [] _ ⟨0, 0, 0⟩ _ _ _ _ _ _ _ _
     rfl rfl rfl rfl rfl rfl,
   C4_lval_read_cases.2.2.1 envW 1 "a" [.num 1] _ ⟨0, 0, 0⟩ _ _ _ _ _ _ _ _
     rfl rfl rfl rfl rfl rfl,
   C4_lval_read_cases.2.2.2 envW 0 "p" _ ⟨0, 0, 0⟩ (.arr .int 2) rfl rfl⟩

/-- Unrolling the pre-pass fold: local size accumulates each non-Unit
reservation, the slot map records the running offsets, and the argument
maximum folds the call argument counts. -/
theorem prepass_fold (insts : List KInst) :
    ∀ s : PreSt,
      (insts.foldl preStep s).localFrame = s.localFrame + sumSizes insts ∧
      (insts.foldl preStep s).stkMap = s.stkMap ++ slotSpec s.localFrame insts ∧
      (insts.foldl preStep s).argsMax = maxArgc insts s.argsMax := by
  induction insts with
  | nil =>
    intro s
    simp [sumSizes, slotSpec, maxArgc]
  | cons i rest ih =>
    intro s
    simp only [List.foldl_cons]
    obtain ⟨h1, h2, h3⟩ := ih (preStep s i)
    rw [h1, h2, h3]
    by_cases hu : i.ty = .unit
    all_goals rcases hk : i.kind with c | _ | _
    all_goals
      simp [preStep, hu, hk, sumSizes, slotSpec, maxArgc, instSize,
        List.filter_cons, List.append_assoc]
    all_goals omega

theorem slotSpec_bounds (insts : List KInst)
    (hpos : ∀ i ∈ insts, ¬ i.ty = .unit → 0 < instSize i) :
    ∀ off, ∀ p ∈ slotSpec off insts, off ≤ p.2 ∧ p.2 < off + sumSizes insts := by
  induction insts with
  | nil =>
    intro off p hp
    simp [slotSpec] at hp
  | cons i rest ih =>
    intro off p hp
    by_cases hu : i.ty = .unit
    · rw [slotSpec, if_pos hu] at hp
      have hb := ih (fun a ha h => hpos a (List.mem_cons_of_mem _ ha) h) off p hp
      have hs : sumSizes (i :: rest) = sumSizes rest := by
        simp [sumSizes, List.filter_cons, hu]
      omega
    · rw [slotSpec, if_neg hu] at hp
      have hs : sumSizes (i :: rest) = instSize i + sumSizes rest := by
        simp [sumSizes, List.filter_cons, hu]
      have hip := hpos i (List.mem_cons_self _ _) hu
      rcases List.mem_cons.1 hp with hp | hp
      · subst hp
        dsimp only
        omega
      · have hb := ih (fun a ha h => hpos a (List.mem_cons_of_mem _ ha) h)
          (off + instSize i) p hp
        omega

theorem slotSpec_mem (insts : List KInst) :
    ∀ off, ∀ i ∈ insts, ¬ i.ty = .unit → ∃ o, (i.id, o) ∈ slotSpec off insts := by
  induction insts with
  | nil =>
    intro off i hi
    simp at hi
  | cons j rest ih =>
    intro off i hi hu
    rcases List.mem_cons.1 hi with h | h
    · subst h
      exact ⟨off, by rw [slotSpec, if_neg hu]; exact List.mem_cons_self _ _⟩
    · by_cases hju : j.ty = .unit
      · obtain ⟨o, ho⟩ := ih off i h hu
        exact ⟨o, by rw [slotSpec, if_pos hju]; exact ho⟩
      · obtain ⟨o, ho⟩ := ih (off + instSize j) i h hu
        exact ⟨o, by rw [slotSpec, if_neg hju]; exact List.mem_cons_of_mem _ ho⟩

theorem frameTotal_bounds (s : PreSt) :
    frameTotal s % 16 = 0 ∧
    s.localFrame + s.raSize + argsSizeOf s ≤ frameTotal s ∧
    frameTotal s < s.localFrame + s.raSize + argsSizeOf s + 16 := by
  simp only [frameTotal]
  split
  · rename_i h
    exact ⟨h, le_rfl, by omega⟩
  · rename_i h
    refine ⟨by omega, by omega, by omega⟩

/-- C3: after the frame pre-pass, every non-Unit instruction is assigned
the running offset and reserves 4 bytes — except an `alloc`, which reserves
the size of its pointee; the outgoing-argument area is
`(max argc − 8 clamped at 0) × 4` bytes; the frame total is
`local + ra + args` rounded up to the next multiple of 16; and after the
shift by the argument area every non-Unit instruction has a recorded slot
below the frame total (assuming each reservation is positive, as holds for
every type the compiler allocates). -/
theorem C3_frame_prepass (insts : List KInst)
    (hpos : ∀ i ∈ insts, ¬ i.ty = .unit → 0 < instSize i) :
    (prepass insts).stkMap = slotSpec 0 insts ∧
    (prepass insts).localFrame = sumSizes insts ∧
    (prepass insts).argsMax = maxArgc insts 0 ∧
    argsSizeOf (prepass insts) = ((prepass insts).argsMax - 8) * 4 ∧
    frameTotal (prepass insts) % 16 = 0 ∧
    (prepass insts).localFrame + (prepass insts).raSize + argsSizeOf (prepass insts)
        ≤ frameTotal (prepass insts) ∧
    frameTotal (prepass insts)
        < (prepass insts).localFrame + (prepass insts).raSize
            + argsSizeOf (prepass insts) + 16 ∧
    ∀ i ∈ insts, ¬ i.ty = .unit →
      ∃ off, (i.id, off) ∈ shiftedMap (prepass insts) ∧
        off < frameTotal (prepass insts) := by
  obtain ⟨h1, h2, h3⟩ := prepass_fold insts ⟨false, 0, 0, 0, []⟩
  obtain ⟨ht1, ht2, ht3⟩ := frameTotal_bounds (prepass insts)
  have hmap : (prepass insts).stkMap = slotSpec 0 insts := by
    simpa [prepass] using h2
  have hloc : (prepass insts).localFrame = sumSizes insts := by
    simpa [prepass] using h1
  refine ⟨hmap, hloc, by simpa [prepass] using h3, rfl, ht1, ht2, ht3, ?_⟩
  intro i hi hu
  obtain ⟨o, ho⟩ := slotSpec_mem insts 0 i hi hu
  have hb := (slotSpec_bounds insts hpos 0 (i.id, o) ho).2
  dsimp only at hb
  refine ⟨o + argsSizeOf (prepass insts), ?_, ?_⟩
  · unfold shiftedMap
    rw [hmap]
    exact List.mem_map.2 ⟨(i.id, o), ho, rfl⟩
  · omega

/-- Witness for C3 at a concrete function body: an `alloc i32`, a ten-
argument Unit call, an `i32` result and a Unit store give slots `[(0, 0),
(2, 4)]`, an 8-byte outgoing-argument area, a frame of 32 bytes, and
shifted slots `[(0, 8), (2, 12)]`, all below 32. -/
theorem C3_witness :
    (prepass exInsts).stkMap = [(0, 0), (2, 4)] ∧
    argsSizeOf (prepass exInsts) = 8 ∧
    frameTotal (prepass exInsts) = 32 ∧
    shiftedMap (prepass exInsts) = [(0, 8), (2, 12)] ∧
    (∀ i ∈ exInsts, ¬ i.ty = .unit →
      ∃ off, (i.id, off) ∈ shiftedMap (prepass exInsts) ∧
        off < frameTotal (prepass exInsts)) :=
  ⟨rfl, rfl, rfl, rfl, (C3_frame_prepass exInsts (by decide)).2.2.2.2.2.2.2⟩

/-- C8: the assembly helpers window immediates into 12 bits: each of
`emitAddi`, `emitLw`, `emitSw` emits the single direct instruction iff the
immediate lies in `[-2048, 2047]`; otherwise it materialises the immediate
into the scratch register `t2`, adds it to the base register, and uses a
zero offset. -/
theorem C8_immediate_windowing (rd rs : String) (imm : Int) :
    (isIn12BitRange imm = true ↔ -2048 ≤ imm ∧ imm ≤ 2047) ∧
    (emitAddi rd rs imm = [.addi rd rs imm] ↔ -2048 ≤ imm ∧ imm ≤ 2047) ∧
    (¬(-2048 ≤ imm ∧ imm ≤ 2047) →
      emitAddi rd rs imm = [.li "t2" imm, .add rd rs "t2"]) ∧
    (emitLw rd rs imm = [.lw rd imm rs] ↔ -2048 ≤ imm ∧ imm ≤ 2047) ∧
    (¬(-2048 ≤ imm ∧ imm ≤ 2047) →
      emitLw rd rs imm = [.li "t2" imm, .add "t2" "t2" rs, .lw rd 0 "t2"]) ∧
    (emitSw rd rs imm = [.sw rd imm rs] ↔ -2048 ≤ imm ∧ imm ≤ 2047) ∧
    (¬(-2048 ≤ imm ∧ imm ≤ 2047) →
      emitSw rd rs imm = [.li "t2" imm, .add "t2" "t2" rs, .sw rd 0 "t2"]) := by
  have hr : isIn12BitRange imm = true ↔ -2048 ≤ imm ∧ imm ≤ 2047 := by
    simp [isIn12BitRange]
  by_cases h : -2048 ≤ imm ∧ imm ≤ 2047
  · have hb : isIn12BitRange imm = true := hr.2 h
    simp [emitAddi, emitLw, emitSw, hb, hr, h]
  · have hb : isIn12BitRange imm = false := by
      rcases hx : isIn12BitRange imm
      · rfl
      · exact absurd (hr.1 hx) h
    simp [emitAddi, emitLw, emitSw, hb, hr, h]

/-- Witness for C8 at the boundary: immediate `2047` takes the direct
`addi`, `2048` the `li t2` + `add` sequence. -/
theorem C8_witness :
    emitAddi "sp" "sp" 2047 = [.addi "sp" "sp" 2047] ∧
    emitAddi "sp" "sp" 2048 = [.li "t2" 2048, .add "sp" "sp" "t2"] :=
  ⟨(C8_immediate_windowing "sp" "sp" 2047).2.1.2 (by decide),
   (C8_immediate_windowing "sp" "sp" 2048).2.2.1 (by decide)⟩

/-- C10: a function whose basic-block list is empty — an external
declaration such as the prelude functions — makes `visit(function)` return
before emitting anything: no `.text`, no `.globl`, no label, no prologue.
A function with basic blocks always begins with the `.text` directive, so
only functions with bodies appear in the assembly. -/
theorem C10_empty_function_emits_nothing :
    (∀ (visitBB : KBB → List AsmLine) (f : KFunc),
      f.bbs = [] → visitFunc visitBB f = []) ∧
    (∀ (visitBB : KBB → List AsmLine) (f : KFunc),
      f.bbs ≠ [] → ∃ rest, visitFunc visitBB f = AsmLine.text :: rest) := by
  constructor
  · intro visitBB f h
    simp [visitFunc, h]
  · intro visitBB f h
    rw [visitFunc, if_neg (by simpa [List.length_eq_zero] using h)]
    exact ⟨_, rfl⟩

/-- Witness for C10: a concrete external declaration emits nothing; a
one-block function emits assembly starting with `.text`. -/
theorem C10_witness :
    visitFunc (fun _ => []) ⟨"getint", 0, []⟩ = [] ∧
    ∃ rest, visitFunc (fun _ => [])
        ⟨"main", 0, [⟨some "entry", [⟨0, .int32, .other⟩]⟩]⟩
      = AsmLine.text :: rest :=
  ⟨C10_empty_function_emits_nothing.1 (fun _ => []) ⟨"getint", 0, []⟩ rfl,
   C10_empty_function_emits_nothing.2 (fun _ => [])
     ⟨"main", 0, [⟨some "entry", [⟨0, .int32, .other⟩]⟩]⟩
     (List.cons_ne_nil _ _)⟩

/-- C9 (amended): an argument list whose length is neither 1 nor 4 panics
with a diagnostic; `-h`/`--help` print usage and exit zero; each of
`-koopa`, `-riscv`, `-perf` parses into the configuration's mode with the
input and output files; `main` writes the IR text exactly for mode
`-koopa` and the assembly exactly for mode `-riscv` — so `-perf` is
accepted but writes neither output (the original claim's "treated exactly
as `-riscv`" fails). -/
theorem C9_cli_modes :
    (∀ args : List String, args.length ≠ 1 → args.length ≠ 4 →
      parseArgs args = .panicExit) ∧
    (parseArgs ["-h"] = .helpExit ∧ parseArgs ["--help"] = .helpExit) ∧
    (∀ m inp out : String, (m = "-koopa" ∨ m = "-riscv" ∨ m = "-perf") →
      ¬(inp = "-h" ∨ inp = "--help") →
      ¬(inp = "-koopa" ∨ inp = "-riscv" ∨ inp = "-perf") →
      ¬ inp = "-o" →
      parseArgs [m, inp, "-o", out] = .ok ⟨m, inp, out⟩) ∧
    (∀ c : Config, ((mainWrites c).ir = true ↔ c.mode = "-koopa") ∧
      ((mainWrites c).asmOut = true ↔ c.mode = "-riscv")) ∧
    (∀ c : Config, c.mode = "-perf" → mainWrites c = ⟨false, false⟩) := by
  refine ⟨?_, ⟨rfl, rfl⟩, ?_, ?_, ?_⟩
  · intro args h1 h4
    rw [parseArgs, if_pos ⟨h1, h4⟩]
  · intro m inp out hm hi1 hi2 hio
    have hmn : ¬(m = "-h" ∨ m = "--help") := by
      rcases hm with h | h | h <;> subst h <;> decide
    rw [parseArgs, if_neg (by simp)]
    simp [parseLoop, hmn, hm, hi1, hi2, hio]
  · intro c
    constructor <;> simp [mainWrites]
  · intro c h
    simp [mainWrites, h]

/-- Counterexample to C9 as stated: `-perf` parses successfully, but
`main` writes neither the IR nor the assembly for it — the assembly guard
compares the mode against `"-riscv"` only. -/
theorem C9_counterexample :
    parseArgs ["-perf", "in.sy", "-o", "out.S"]
      = .ok ⟨"-perf", "in.sy", "out.S"⟩ ∧
    mainWrites ⟨"-perf", "in.sy", "out.S"⟩ = ⟨false, false⟩ :=
  ⟨rfl, rfl⟩

/-- Witness for C9 (amended) at concrete invocations: `-koopa` parses and
writes the IR only; a two-argument invocation of the wrong shape panics. -/
theorem C9_witness :
    parseArgs ["-koopa", "in.sy", "-o", "out.koopa"]
      = .ok ⟨"-koopa", "in.sy", "out.koopa"⟩ ∧
    mainWrites ⟨"-koopa", "in.sy", "out.koopa"⟩ = ⟨true, false⟩ ∧
    parseArgs ["a.sy", "b.sy"] = .panicExit :=
  ⟨C9_cli_modes.2.2.1 "-koopa" "in.sy" "out.koopa" (Or.inl rfl)
      (by decide) (by decide) (by decide),
   by rfl,
   C9_cli_modes.1 ["a.sy", "b.sy"] (by decide) (by decide)⟩

end SysY
